import Mathlib

/-!
A shallow embedding of the core of the `gavlegoat/chess` engine
(board representation, move application, move generation, evaluation and
search), together with theorems settling the specification claims.

Conventions of the embedding:
* C++ `uint64_t` bitboards are modelled as `Nat`; where the source relies on
  64-bit wrap-around (the complement mask in `remove_piece`) we use an
  explicit xor against `2^64 - 1`.
* `std::set<int>` is modelled as `Finset Nat`; iteration over a `std::set`
  (always in ascending order) is modelled by `Finset.sort (· ≤ ·)`.
* `std::map<Position, int>` is modelled as an association list together with
  the key-equivalence relation induced by `Position::operator<`, which is how
  a `std::map` compares keys.  Only the operations the source actually uses
  (`find`, `operator[]`, increment, decrement, `erase`) are modelled.
* `std::deque<Node>` used as an undo stack is modelled as a `List Node` with
  `push_back` appending at the end.
* `double` scores are modelled as `ℚ`.  Every constant the claims mention
  (0.1, 0.5, 1000.0) is used by the source only in sums and comparisons that
  are exact in `ℚ`.
-/

set_option maxRecDepth 100000

namespace Chess

/-- Bitboard of the single square `sq` (`1ull << sq` in the source). -/
def bit (sq : Nat) : Nat := 1 <<< sq

/-- All 64 bits set; used to model the truncation of `~(1ull << pos)`. -/
def mask64 : Nat := 2 ^ 64 - 1

/-- `NUM_BOARDS` from `boards.hpp`. -/
def NUM_BOARDS : Nat := 15

/-- Piece labels index the 15 bitboards (`Position::W_PAWN` … `BOTH_ALL`). -/
abbrev Piece := Fin 15

abbrev W_PAWN   : Piece := 0
abbrev W_KNIGHT : Piece := 1
abbrev W_BISHOP : Piece := 2
abbrev W_ROOK   : Piece := 3
abbrev W_QUEEN  : Piece := 4
abbrev W_KING   : Piece := 5
abbrev W_ALL    : Piece := 6
abbrev B_PAWN   : Piece := 7
abbrev B_KNIGHT : Piece := 8
abbrev B_BISHOP : Piece := 9
abbrev B_ROOK   : Piece := 10
abbrev B_QUEEN  : Piece := 11
abbrev B_KING   : Piece := 12
abbrev B_ALL    : Piece := 13
abbrev BOTH_ALL : Piece := 14

abbrev PAWN   : Piece := 0
abbrev KNIGHT : Piece := 1
abbrev BISHOP : Piece := 2
abbrev ROOK   : Piece := 3
abbrev QUEEN  : Piece := 4
abbrev KING   : Piece := 5
abbrev ALL    : Piece := 6

/-- `Position::piece_is_white` from `boards.hpp`. -/
def piece_is_white (piece : Piece) : Bool := piece.val ≤ 6

/-- `Position::color_piece` from `boards.hpp` (`piece + 7` for black). -/
def color_piece (piece : Piece) (is_white : Bool) : Piece :=
  if is_white then piece else piece + 7

/-- Move flags from `boards.hpp` (`Move::QUIET` etc.). -/
def QUIET : Nat := 0
def PAWN_DOUBLE : Nat := 1
def KING_CASTLE : Nat := 2
def QUEEN_CASTLE : Nat := 3
def CAPTURE : Nat := 4
def CAPTURE_EP : Nat := 5
def PROMOTE_KNIGHT : Nat := 8
def PROMOTE_BISHOP : Nat := 9
def PROMOTE_ROOK : Nat := 10
def PROMOTE_QUEEN : Nat := 11
def PROMOTE_KNIGHT_CAPTURE : Nat := 12
def PROMOTE_BISHOP_CAPTURE : Nat := 13
def PROMOTE_ROOK_CAPTURE : Nat := 14
def PROMOTE_QUEEN_CAPTURE : Nat := 15

/-- A move, as in `boards.hpp`: from/to squares, moving piece, flag word. -/
structure Move where
  from_sq : Nat
  to_sq : Nat
  piece : Piece
  flags : Nat
deriving DecidableEq, Repr

namespace Move

def castle_kingside (m : Move) : Bool := m.flags == KING_CASTLE
def castle_queenside (m : Move) : Bool := m.flags == QUEEN_CASTLE
def double_pawn_push (m : Move) : Bool := m.flags == PAWN_DOUBLE
/-- `Move::capture`: bit 2 of the flag word. -/
def capture (m : Move) : Bool := m.flags &&& 0x4 != 0
def capture_ep (m : Move) : Bool := m.flags == CAPTURE_EP
def promote_knight (m : Move) : Bool :=
  m.flags == PROMOTE_KNIGHT || m.flags == PROMOTE_KNIGHT_CAPTURE
def promote_bishop (m : Move) : Bool :=
  m.flags == PROMOTE_BISHOP || m.flags == PROMOTE_BISHOP_CAPTURE
def promote_rook (m : Move) : Bool :=
  m.flags == PROMOTE_ROOK || m.flags == PROMOTE_ROOK_CAPTURE
def promote_queen (m : Move) : Bool :=
  m.flags == PROMOTE_QUEEN || m.flags == PROMOTE_QUEEN_CAPTURE

end Move

/-- A board position: 15 bitboards plus the per-piece square sets
(`Position` in `boards.hpp`). -/
structure Position where
  boards : Piece → Nat
  piece_sets : Piece → Finset Nat

instance : DecidableEq Position := fun p q =>
  decidable_of_iff (p.boards = q.boards ∧ p.piece_sets = q.piece_sets)
    (by cases p; cases q; simp)

namespace Position

/-- The default `Position()` constructor: all bitboards zero. -/
def init : Position := { boards := fun _ => 0, piece_sets := fun _ => ∅ }

/-- `Position::place_piece`. -/
def place_piece (p : Position) (pos : Nat) (piece : Piece) : Position :=
  let mask := 1 <<< pos
  let b := Function.update p.boards piece (p.boards piece ||| mask)
  let b := Function.update b BOTH_ALL (b BOTH_ALL ||| mask)
  let b := if piece_is_white piece
    then Function.update b W_ALL (b W_ALL ||| mask)
    else Function.update b B_ALL (b B_ALL ||| mask)
  { boards := b,
    piece_sets := Function.update p.piece_sets piece (insert pos (p.piece_sets piece)) }

/-- `Position::remove_piece`; `~(1ull << pos)` is the xor against `mask64`. -/
def remove_piece (p : Position) (pos : Nat) (piece : Piece) : Position :=
  let mask := mask64 ^^^ (1 <<< pos)
  let b := Function.update p.boards piece (p.boards piece &&& mask)
  let b := Function.update b W_ALL (b W_ALL &&& mask)
  let b := Function.update b B_ALL (b B_ALL &&& mask)
  let b := Function.update b BOTH_ALL (b BOTH_ALL &&& mask)
  { boards := b,
    piece_sets := Function.update p.piece_sets piece ((p.piece_sets piece).erase pos) }

/-- `Position::piece_at`. -/
def piece_at (p : Position) (square : Nat) (piece : Piece) : Bool :=
  (p.boards piece &&& (1 <<< square)) != 0

/-- `Position::find_piece`. -/
def find_piece (p : Position) (piece : Piece) : Finset Nat := p.piece_sets piece

/-- `Position::get_board`. -/
def get_board (p : Position) (piece : Piece) : Nat := p.boards piece

/-- `Position::make_move` from `boards.cpp`. -/
def make_move (p : Position) (m : Move) : Position :=
  let from_square := m.from_sq
  let to_square := m.to_sq
  let piece := m.piece
  let p := if m.capture then
      -- the captured square is the destination except for en passant
      let captured_square : Nat :=
        if m.capture_ep then
          (if piece = W_PAWN then to_square - 8 else to_square + 8)
        else to_square
      (List.finRange 15).foldl (fun q i => q.remove_piece captured_square i) p
    else p
  let p := p.remove_piece from_square piece
  let p :=
    if m.promote_knight then
      p.place_piece to_square (if piece = W_PAWN then W_KNIGHT else B_KNIGHT)
    else if m.promote_bishop then
      p.place_piece to_square (if piece = W_PAWN then W_BISHOP else B_BISHOP)
    else if m.promote_rook then
      p.place_piece to_square (if piece = W_PAWN then W_ROOK else B_ROOK)
    else if m.promote_queen then
      p.place_piece to_square (if piece = W_PAWN then W_QUEEN else B_QUEEN)
    else
      p.place_piece to_square piece
  if m.castle_queenside then
    if piece = W_KING then (p.remove_piece 0 W_ROOK).place_piece 3 W_ROOK
    else (p.remove_piece 56 B_ROOK).place_piece 59 B_ROOK
  else if m.castle_kingside then
    if piece = W_KING then (p.remove_piece 7 W_ROOK).place_piece 5 W_ROOK
    else (p.remove_piece 63 B_ROOK).place_piece 61 B_ROOK
  else p

/-- The FEN letter the `fen_board` if-chain prints for a square, if any. -/
def fen_char_at (p : Position) (square : Nat) : Option Char :=
  if p.piece_at square W_PAWN then some 'P'
  else if p.piece_at square W_KNIGHT then some 'N'
  else if p.piece_at square W_BISHOP then some 'B'
  else if p.piece_at square W_ROOK then some 'R'
  else if p.piece_at square W_QUEEN then some 'Q'
  else if p.piece_at square W_KING then some 'K'
  else if p.piece_at square B_PAWN then some 'p'
  else if p.piece_at square B_KNIGHT then some 'n'
  else if p.piece_at square B_BISHOP then some 'b'
  else if p.piece_at square B_ROOK then some 'r'
  else if p.piece_at square B_QUEEN then some 'q'
  else if p.piece_at square B_KING then some 'k'
  else none

/-- `Position::fen_board`: rank 8 down to rank 1 with run-length empties. -/
def fen_board (p : Position) : String :=
  (List.range 8).foldl (fun ret i =>
    let acc := (List.range 8).foldl (fun (acc : String × Nat) j =>
      match p.fen_char_at ((7 - i) * 8 + j) with
      | some code =>
          ((acc.1 ++ (if acc.2 > 0 then toString acc.2 else "") ++ String.singleton code), 0)
      | none => (acc.1, acc.2 + 1)) (ret, 0)
    acc.1 ++ (if acc.2 > 0 then toString acc.2 else "") ++ (if i < 7 then "/" else "")) ""

/-- `Position::operator<` from `boards.cpp`: returns true as soon as some
board index compares less, never returning early on greater. -/
def lt (p other : Position) : Bool :=
  (List.finRange 15).any fun i => decide (p.boards i < other.boards i)

/-- Key equivalence a `std::map<Position, int>` derives from `operator<`. -/
def equiv (p other : Position) : Bool := !(p.lt other) && !(other.lt p)

end Position

/-- Splits a string on a delimiter the way the `std::getline` loop in
`utils.cpp` does: empty intermediate fields are kept, a trailing empty field
is dropped. -/
def split (inp : List Char) (delim : Char) : List (List Char) :=
  go inp []
where
  go : List Char → List Char → List (List Char)
    | [], cur => if cur = [] then [] else [cur.reverse]
    | c :: rest, cur =>
        if c = delim then cur.reverse :: go rest [] else go rest (c :: cur)

instance {ε α : Type} [DecidableEq ε] [DecidableEq α] : DecidableEq (Except ε α)
  | .ok a, .ok b => decidable_of_iff (a = b) (by simp)
  | .error e, .error f => decidable_of_iff (e = f) (by simp)
  | .ok _, .error _ => isFalse (by simp)
  | .error _, .ok _ => isFalse (by simp)

/-- `algebraic_to_int` from `utils.hpp`; exceptions become `Except.error`.
Out-of-range character reads (only possible for inputs shorter than two
characters, undefined behaviour in the source) are modelled as reading a
NUL character. -/
def algebraic_to_int (algebraic : String) : Except String Int :=
  let file : Int := (algebraic.data.getD 0 (Char.ofNat 0)).toNat - 97
  let rank : Int := (algebraic.data.getD 1 (Char.ofNat 0)).toNat - 49
  if file < 0 ∨ 8 ≤ file then
    .error "Cannot convert from algebraic notation: file is not between a and h"
  else if rank < 0 ∨ 8 ≤ rank then
    .error "Cannot convert from algebraic notation: rank is not between 1 and 8"
  else .ok (rank * 8 + file)

/-- `int_to_algebraic` from `utils.hpp`; the exception becomes `Except.error`. -/
def int_to_algebraic (pos : Int) : Except String String :=
  if pos < 0 ∨ 64 ≤ pos then
    .error "Cannot convert to algebraic notation: pos should be between 0 and 63"
  else
    .ok (String.singleton (Char.ofNat (97 + (pos % 8).toNat)) ++ toString (1 + pos / 8))

/-- Which piece a character of the FEN board field places (the `switch` in
the `Position(std::string)` constructor). -/
def fen_piece_of_char (c : Char) : Option Piece :=
  if c = 'P' then some W_PAWN
  else if c = 'N' then some W_KNIGHT
  else if c = 'B' then some W_BISHOP
  else if c = 'R' then some W_ROOK
  else if c = 'K' then some W_KING
  else if c = 'Q' then some W_QUEEN
  else if c = 'p' then some B_PAWN
  else if c = 'n' then some B_KNIGHT
  else if c = 'b' then some B_BISHOP
  else if c = 'r' then some B_ROOK
  else if c = 'k' then some B_KING
  else if c = 'q' then some B_QUEEN
  else none

/-- One rank of the `Position(std::string)` FEN parse: the `while (file < 8)`
loop over the characters of rank `i`.  The file counter is an `int` in the
source and may move backwards on garbage characters, hence `Int`.  (On a
well-formed FEN the source loop always terminates by `file` reaching 8; if
the rank string is exhausted early the source reads past the string, which
is undefined, and we simply stop.) -/
def parse_fen_rank (p : Position) (i : Nat) : Int → List Char → Position
  | _, [] => p
  | file, c :: rest =>
    if 8 ≤ file then p
    else match fen_piece_of_char c with
      | some k => parse_fen_rank (p.place_piece (((7 - i) * 8 : Nat) + file).toNat k) i (file + 1) rest
      | none => parse_fen_rank p i (file + ((c.toNat : Int) - 48)) rest

/-- The `Position(std::string fen)` constructor: split on `/` and parse each
of the eight ranks. -/
def Position.from_fen (fen : String) : Position :=
  let ranks := split fen.data '/'
  (List.range 8).foldl (fun p i => parse_fen_rank p i 0 (ranks.getD i [])) Position.init

/-- `std::stoi`, which cannot fail on the inputs the engine parses; a parse
failure (an exception in the source) is modelled as 0. -/
def stoi (s : List Char) : Int := (String.mk s).toInt?.getD 0

/-- `Node` from `boards.hpp`: the compact part of the game state. -/
structure Node where
  position : Position
  white_to_move : Bool
  w_castle_k : Bool
  w_castle_q : Bool
  b_castle_k : Bool
  b_castle_q : Bool
  en_passant_square : Nat
  en_passant_possible : Bool
  half_moves_since_reset : Int
  moves : Int
deriving DecidableEq

/-- The default `Node()` constructor (standard initial position). -/
def Node.init : Node :=
  { position := Position.from_fen "rnbqkbnr/pppppppp/8/8/8/8/PPPPPPPP/RNBQKBNR",
    white_to_move := true, w_castle_k := true, w_castle_q := true,
    b_castle_k := true, b_castle_q := true, en_passant_square := 0,
    en_passant_possible := false, half_moves_since_reset := 0, moves := 1 }

/-- `repeats.find(p) == repeats.end() ? repeats[p] = 1 : repeats[p]++` —
the repetition-map update in `GameState::make_move`, on the association-list
model of `std::map<Position, int>`. -/
def repBump : List (Position × Int) → Position → List (Position × Int)
  | [], p => [(p, 1)]
  | (q, c) :: t, p =>
      if Position.equiv p q then (q, c + 1) :: t else (q, c) :: repBump t p

/-- The repetition-map update in `GameState::undo_move`: erase the entry when
its count is 1, else decrement.  A missing key is default-inserted as 0 by
`operator[]` and then decremented, as in the source. -/
def repDec : List (Position × Int) → Position → List (Position × Int)
  | [], p => [(p, -1)]
  | (q, c) :: t, p =>
      if Position.equiv p q then (if c = 1 then t else (q, c - 1) :: t)
      else (q, c) :: repDec t p

/-- `GameState` from `boards.hpp`. -/
structure GameState where
  node : Node
  repeats : List (Position × Int)
  history : List Node
deriving DecidableEq

namespace GameState

/-- The default `GameState()` constructor. -/
def init : GameState := { node := Node.init, repeats := [], history := [] }

/-- The fully explicit `GameState` constructor. -/
def mk' (pos : Position) (wtm wck wcq bck bcq : Bool) (eps : Nat) (epp : Bool)
    (msr ms : Int) (rs : List (Position × Int)) (hist : List Node) : GameState :=
  { node := { position := pos, white_to_move := wtm, w_castle_k := wck,
              w_castle_q := wcq, b_castle_k := bck, b_castle_q := bcq,
              en_passant_square := eps, en_passant_possible := epp,
              half_moves_since_reset := msr, moves := ms },
    repeats := rs, history := hist }

/-- The `GameState(std::string fen)` constructor.  `algebraic_to_int` cannot
fail on the en-passant field of a well-formed FEN; a failure (an exception in
the source) is modelled as square 0. -/
def from_fen (fen : String) : GameState :=
  let words := split fen.data ' '
  let board := words.getD 0 []
  let color := words.getD 1 []
  let castling := words.getD 2 []
  let en_passant := words.getD 3 []
  let half_moves := words.getD 4 []
  let move_number := words.getD 5 []
  let white_to_move := color = ['w']
  let w_castle_k := castling.contains 'K'
  let w_castle_q := castling.contains 'Q'
  let b_castle_k := castling.contains 'k'
  let b_castle_q := castling.contains 'q'
  let en_passant_possible := en_passant ≠ ['-']
  let en_passant_square : Nat :=
    if en_passant ≠ ['-'] then
      ((algebraic_to_int (String.mk en_passant)).toOption.getD 0).toNat
    else 0
  { node := { position := Position.from_fen (String.mk board),
              white_to_move := white_to_move, w_castle_k := w_castle_k,
              w_castle_q := w_castle_q, b_castle_k := b_castle_k,
              b_castle_q := b_castle_q, en_passant_square := en_passant_square,
              en_passant_possible := en_passant_possible,
              half_moves_since_reset := stoi half_moves,
              moves := stoi move_number },
    repeats := [], history := [] }

def whites_move (gs : GameState) : Bool := gs.node.white_to_move

def pos (gs : GameState) : Position := gs.node.position

def en_passant (gs : GameState) : Bool := gs.node.en_passant_possible

def en_passant_target (gs : GameState) : Nat := gs.node.en_passant_square

/-- `GameState::castle_through_kingside`. -/
def castle_through_kingside (gs : GameState) : Nat :=
  if gs.node.white_to_move && gs.node.w_castle_k then
    (1 <<< 4) ||| (1 <<< 5) ||| (1 <<< 6)
  else if !gs.node.white_to_move && gs.node.b_castle_k then
    (1 <<< 60) ||| (1 <<< 61) ||| (1 <<< 62)
  else 0

/-- `GameState::castle_through_queenside`. -/
def castle_through_queenside (gs : GameState) : Nat :=
  if gs.node.white_to_move && gs.node.w_castle_q then
    (1 <<< 2) ||| (1 <<< 3) ||| (1 <<< 4)
  else if !gs.node.white_to_move && gs.node.b_castle_q then
    (1 <<< 58) ||| (1 <<< 59) ||| (1 <<< 60)
  else 0

/-- `GameState::make_move` from `boards.cpp`. -/
def make_move (gs : GameState) (m : Move) : GameState :=
  let history := gs.history ++ [gs.node]
  -- Change the current board state
  let node := { gs.node with position := gs.node.position.make_move m }
  -- Update castling possibilities (guarded as in the source)
  let node :=
    if (node.white_to_move && (node.w_castle_q || node.w_castle_k)) ||
       (!node.white_to_move && (node.b_castle_q || node.b_castle_k)) then
      let from_square := m.from_sq
      if node.white_to_move then
        if m.piece = W_KING then
          { node with w_castle_q := false, w_castle_k := false }
        else if m.piece = W_ROOK then
          if from_square = 0 then { node with w_castle_q := false }
          else if from_square = 7 then { node with w_castle_k := false }
          else node
        else node
      else
        if m.piece = B_KING then
          { node with b_castle_q := false, b_castle_k := false }
        else if m.piece = B_ROOK then
          if from_square = 56 then { node with b_castle_q := false }
          else if from_square = 63 then { node with b_castle_k := false }
          else node
        else node
    else node
  -- Update en passant possibilities
  let node :=
    if m.double_pawn_push then
      { node with en_passant_possible := true,
                  en_passant_square :=
                    if node.white_to_move then m.to_sq - 8 else m.to_sq + 8 }
    else { node with en_passant_possible := false }
  -- Update the 50-move counter
  let node :=
    if m.double_pawn_push || m.capture || m.piece = W_PAWN || m.piece = B_PAWN then
      { node with half_moves_since_reset := 0 }
    else { node with half_moves_since_reset := node.half_moves_since_reset + 1 }
  -- Update the move counter
  let node := if !node.white_to_move then { node with moves := node.moves + 1 } else node
  -- Update repeated positions
  let repeats := repBump gs.repeats node.position
  -- It is now the next player's turn
  let node := { node with white_to_move := !node.white_to_move }
  { node := node, repeats := repeats, history := history }

/-- `GameState::flip_move`. -/
def flip_move (gs : GameState) : GameState :=
  { gs with node := { gs.node with white_to_move := !gs.node.white_to_move } }

/-- `GameState::undo_move`.  Popping an empty history is undefined behaviour
in the source; we model it as leaving the node in place. -/
def undo_move (gs : GameState) : GameState :=
  let repeats := repDec gs.repeats gs.node.position
  match gs.history.getLast? with
  | some n => { node := n, repeats := repeats, history := gs.history.dropLast }
  | none => { gs with repeats := repeats }

/-- `GameState::fen_string` from `boards.cpp`.  The source calls
`int_to_algebraic` on the en-passant square, which cannot fail there for any
state the engine builds; a failure is modelled as the empty string. -/
def fen_string (gs : GameState) : String :=
  let n := gs.node
  let ret := n.position.fen_board ++ " "
  let ret := ret ++ (if n.white_to_move then "w " else "b ")
  let castle :=
    (if n.w_castle_k then "K" else "") ++ (if n.w_castle_q then "Q" else "") ++
    (if n.b_castle_k then "k" else "") ++ (if n.b_castle_q then "q" else "")
  let ret := ret ++ (if castle = "" then "- " else castle ++ " ")
  let ret := ret ++
    (if n.en_passant_possible then
      ((int_to_algebraic n.en_passant_square).toOption.getD "") ++ " "
     else "- ")
  ret ++ toString n.half_moves_since_reset ++ " " ++ toString n.moves

end GameState

/-! ### Move generation (`movegen.cpp`)

The knight/king attack tables and the magic bitboards are initialized once at
startup.  The magic lookup
`attack_table[((occ & mask) * magic) >> (64 - shift)]` returns, by
construction of `generate_magic` (every occupancy subset is mapped to its
ray-cast attack set, collisions being allowed only between equal attack
sets), exactly `generate_attack(sq, occ & mask)`.  We model the tables by
those defining ray casts. -/

/-- 64-bit complement `~x`, with the explicit truncation a `uint64_t` has. -/
def compl64 (x : Nat) : Nat := mask64 ^^^ (x % 2 ^ 64)

/-- The knight attack table entry for a square (the knight-move loop of
`movegen_initialize_attack_boards`). -/
def knight_moves (i : Nat) : Nat :=
  let rank : Int := (i / 8 : Nat)
  let file : Int := (i % 8 : Nat)
  ([-2, -1, 0, 1, 2] : List Int).foldl (fun acc j =>
    if j = 0 then acc
    else ([-2, -1, 0, 1, 2] : List Int).foldl (fun acc2 k =>
      if k = 0 ∨ k = j ∨ k = -j then acc2
      else
        let nrank := rank + j
        let nfile := file + k
        if nrank < 0 ∨ 8 ≤ nrank ∨ nfile < 0 ∨ 8 ≤ nfile then acc2
        else acc2 ||| (1 <<< (8 * nrank + nfile).toNat)) acc) 0

/-- The king attack table entry for a square (the king-move loop of
`movegen_initialize_attack_boards`). -/
def king_moves (i : Nat) : Nat :=
  let rank : Int := (i / 8 : Nat)
  let file : Int := (i % 8 : Nat)
  ([-1, 0, 1] : List Int).foldl (fun acc j =>
    ([-1, 0, 1] : List Int).foldl (fun acc2 k =>
      if j = 0 ∧ k = 0 then acc2
      else
        let nrank := rank + j
        let nfile := file + k
        if nrank < 0 ∨ 8 ≤ nrank ∨ nfile < 0 ∨ 8 ≤ nfile then acc2
        else acc2 ||| (1 <<< (8 * nrank + nfile).toNat)) acc) 0

/-- One directional ray of `generate_attack`: walk from `(r, f)` in direction
`(dr, df)`, collecting each square and stopping after the first occupied one.
A ray has at most 7 squares, so fuel 8 never runs out. -/
def ray_attack (occupancy : Nat) (dr df : Int) : Nat → Int → Int → Nat
  | 0, _, _ => 0
  | fuel + 1, r, f =>
    if r < 0 ∨ 8 ≤ r ∨ f < 0 ∨ 8 ≤ f then 0
    else
      let square := (8 * r + f).toNat
      (1 <<< square) |||
        (if occupancy.testBit square then 0
         else ray_attack occupancy dr df fuel (r + dr) (f + df))

/-- `generate_attack` from `movegen.cpp`: the true sliding attack set for a
square under an occupancy, including the first occupied square of each ray. -/
def generate_attack (sq : Nat) (occupancy : Nat) (is_rook : Bool) : Nat :=
  let rank : Int := (sq / 8 : Nat)
  let file : Int := (sq % 8 : Nat)
  if is_rook then
    ray_attack occupancy 1 0 8 (rank + 1) file |||
    ray_attack occupancy (-1) 0 8 (rank - 1) file |||
    ray_attack occupancy 0 1 8 rank (file + 1) |||
    ray_attack occupancy 0 (-1) 8 rank (file - 1)
  else
    ray_attack occupancy 1 1 8 (rank + 1) (file + 1) |||
    ray_attack occupancy 1 (-1) 8 (rank + 1) (file - 1) |||
    ray_attack occupancy (-1) 1 8 (rank - 1) (file + 1) |||
    ray_attack occupancy (-1) (-1) 8 (rank - 1) (file - 1)

/-- One directional ray of `generate_occupancy_mask`: like the attack ray but
without blocking and excluding the far edge along the ray. -/
def mask_ray (dr df : Int) : Nat → Int → Int → Nat
  | 0, _, _ => 0
  | fuel + 1, r, f =>
    if r < 0 ∨ 8 ≤ r ∨ f < 0 ∨ 8 ≤ f then 0
    else if (dr ≠ 0 ∧ (r = 0 ∨ r = 7)) ∨ (df ≠ 0 ∧ (f = 0 ∨ f = 7)) then 0
    else (1 <<< (8 * r + f).toNat) ||| mask_ray dr df fuel (r + dr) (f + df)

/-- `generate_occupancy_mask` from `movegen.cpp`. -/
def generate_occupancy_mask (sq : Nat) (is_rook : Bool) : Nat :=
  let rank : Int := (sq / 8 : Nat)
  let file : Int := (sq % 8 : Nat)
  if is_rook then
    mask_ray 1 0 8 (rank + 1) file |||
    mask_ray (-1) 0 8 (rank - 1) file |||
    mask_ray 0 1 8 rank (file + 1) |||
    mask_ray 0 (-1) 8 rank (file - 1)
  else
    mask_ray 1 1 8 (rank + 1) (file + 1) |||
    mask_ray 1 (-1) 8 (rank + 1) (file - 1) |||
    mask_ray (-1) 1 8 (rank - 1) (file + 1) |||
    mask_ray (-1) (-1) 8 (rank - 1) (file - 1)

/-- The `rook_magics[sq]` table lookup on occupancy `occ`: by construction of
`generate_magic` this equals the ray-cast attack set for `occ & mask`. -/
def rook_attack_lookup (sq occ : Nat) : Nat :=
  generate_attack sq (occ &&& generate_occupancy_mask sq true) true

/-- The `bishop_magics[sq]` table lookup on occupancy `occ`. -/
def bishop_attack_lookup (sq occ : Nat) : Nat :=
  generate_attack sq (occ &&& generate_occupancy_mask sq false) false

/-- `get_attacks_to` from `movegen.cpp`: bitboard of the pieces of the side
opposite to `white_to_move` that attack `target`. -/
def get_attacks_to (p : Position) (target : Nat) (white_to_move : Bool)
    (occupancy : Nat) : Nat :=
  let opp_knight := color_piece KNIGHT !white_to_move
  let opp_bishop := color_piece BISHOP !white_to_move
  let opp_rook := color_piece ROOK !white_to_move
  let opp_queen := color_piece QUEEN !white_to_move
  let opp_king := color_piece KING !white_to_move
  let knight_board := p.get_board opp_knight
  let bishop_board := p.get_board opp_bishop
  let rook_board := p.get_board opp_rook
  let queen_board := p.get_board opp_queen
  let king_board := p.get_board opp_king
  let bishop_attack := bishop_attack_lookup target occupancy
  let rook_attack := rook_attack_lookup target occupancy
  let check_board := knight_moves target &&& knight_board
  let check_board := check_board ||| (king_moves target &&& king_board)
  let check_board := check_board ||| (bishop_attack &&& (bishop_board ||| queen_board))
  let check_board := check_board ||| (rook_attack &&& (rook_board ||| queen_board))
  let opp_pawn := color_piece PAWN !white_to_move
  let krank := target / 8
  let kfile := target % 8
  let check_board :=
    if kfile < 7 then
      if white_to_move ∧ krank < 7 then
        (if p.piece_at (target + 9) opp_pawn then check_board ||| (1 <<< (target + 9))
         else check_board)
      else if ¬(white_to_move ∧ krank < 7) ∧ krank > 0 then
        (if p.piece_at (target - 7) opp_pawn then check_board ||| (1 <<< (target - 7))
         else check_board)
      else check_board
    else check_board
  let check_board :=
    if kfile > 0 then
      if white_to_move ∧ krank < 7 then
        (if p.piece_at (target + 7) opp_pawn then check_board ||| (1 <<< (target + 7))
         else check_board)
      else if ¬(white_to_move ∧ krank < 7) ∧ krank > 0 then
        (if p.piece_at (target - 9) opp_pawn then check_board ||| (1 <<< (target - 9))
         else check_board)
      else check_board
    else check_board
  check_board

/-- Ascending iteration order of a `std::set<int>` of squares (all squares
are below 64). -/
def sorted_squares (s : Finset Nat) : List Nat := (List.range 64).filter (· ∈ s)

/-- `*p.find_piece(king).begin()`: the least square of a piece set.  The
source dereferences `begin()` of an empty set (undefined); we model that
case as the off-board square 64, which no piece attacks. -/
def king_square_of (p : Position) (king : Piece) : Nat :=
  (sorted_squares (p.find_piece king)).headD 64

/-- `get_check_board` from `movegen.cpp`. -/
def get_check_board (white_to_move : Bool) (p : Position) : Nat :=
  let king := color_piece KING white_to_move
  let king_sq := king_square_of p king
  get_attacks_to p king_sq white_to_move (p.get_board BOTH_ALL)

/-- `in_check` from `movegen.cpp`. -/
def in_check (white_to_move : Bool) (p : Position) : Prop :=
  ¬(get_check_board white_to_move p = 0)

instance (white_to_move : Bool) (p : Position) :
    Decidable (in_check white_to_move p) := by unfold in_check; infer_instance

/-- A move list (`typedef std::deque<Move> MoveList`). -/
abbrev MoveList := List Move

/-- The ascending bit positions of a 64-bit board: the order in which the
`lsb` extraction loops of `movegen.cpp` visit them. -/
def lsb_list (b : Nat) : List Nat := (List.range 64).filter b.testBit

/-- `append_moves_from` from `movegen.cpp` (returned instead of appended). -/
def append_moves_from (from_square : Nat) (to_squares : Nat) (piece : Piece)
    (opp_pieces : Nat) : MoveList :=
  (lsb_list to_squares).map fun tsq =>
    if opp_pieces &&& (1 <<< tsq) ≠ 0 then ⟨from_square, tsq, piece, CAPTURE⟩
    else ⟨from_square, tsq, piece, QUIET⟩

/-- `generate_king_moves` from `movegen.cpp`. -/
def generate_king_moves (gs : GameState) : MoveList :=
  let p := gs.pos
  let white_to_move := gs.whites_move
  let our_king := color_piece KING white_to_move
  let our_pieces := color_piece ALL white_to_move
  let king_square := king_square_of p our_king
  let king_move_board := king_moves king_square &&& compl64 (p.get_board our_pieces)
  let opp_pieces := color_piece ALL !white_to_move
  let opp_all_board := p.get_board opp_pieces
  append_moves_from king_square king_move_board our_king opp_all_board

/-- The per-square test of the castling `while` loops: a square fails if it
is attacked, or occupied by anything other than the moving side's king. -/
def castle_square_ok (p : Position) (white_to_move : Bool)
    (king_board occupancy sq : Nat) : Bool :=
  !(get_attacks_to p sq white_to_move occupancy != 0 ||
    (occupancy &&& (1 <<< sq) != 0 && king_board &&& (1 <<< sq) == 0))

/-- `append_castling_moves` from `movegen.cpp` (returned instead of
appended). -/
def append_castling_moves (gs : GameState) : MoveList :=
  let p := gs.pos
  let white_to_move := gs.whites_move
  let our_king := color_piece KING white_to_move
  let king_board := p.get_board our_king
  let occupancy := p.get_board BOTH_ALL
  let kingside :=
    let squares_to_check := gs.castle_through_kingside
    if squares_to_check ≠ 0 then
      let can_castle :=
        (lsb_list squares_to_check).all
          (castle_square_ok p white_to_move king_board occupancy)
      if can_castle then
        if white_to_move ∧ p.piece_at 4 W_KING ∧ p.piece_at 7 W_ROOK then
          [⟨4, 6, W_KING, KING_CASTLE⟩]
        else if ¬white_to_move ∧ p.piece_at 60 B_KING ∧ p.piece_at 63 B_ROOK then
          [⟨60, 62, B_KING, KING_CASTLE⟩]
        else []
      else []
    else []
  let queenside :=
    let squares_to_check := gs.castle_through_queenside
    if squares_to_check ≠ 0 then
      let can_castle :=
        (lsb_list squares_to_check).all
          (castle_square_ok p white_to_move king_board occupancy)
      if can_castle then
        if white_to_move ∧ p.piece_at 4 W_KING ∧ p.piece_at 0 W_ROOK ∧
            occupancy &&& (1 <<< 1) = 0 then
          [⟨4, 2, W_KING, QUEEN_CASTLE⟩]
        else if ¬white_to_move ∧ p.piece_at 60 B_KING ∧ p.piece_at 56 B_ROOK ∧
            occupancy &&& (1 <<< 57) = 0 then
          [⟨60, 58, B_KING, QUEEN_CASTLE⟩]
        else []
      else []
    else []
  kingside ++ queenside

/-- `append_en_passant` from `movegen.cpp` (returned instead of appended). -/
def append_en_passant (gs : GameState) : MoveList :=
  if ¬gs.en_passant then []
  else
    let square := gs.en_passant_target
    let white_to_move := gs.whites_move
    let p := gs.pos
    let our_pawn := color_piece PAWN white_to_move
    if white_to_move then
      (if p.piece_at (square - 9) our_pawn ∧ square % 8 > 0 then
        [⟨square - 9, square, our_pawn, CAPTURE_EP⟩] else []) ++
      (if p.piece_at (square - 7) our_pawn ∧ square % 8 < 7 then
        [⟨square - 7, square, our_pawn, CAPTURE_EP⟩] else [])
    else
      (if p.piece_at (square + 9) our_pawn ∧ square % 8 < 7 then
        [⟨square + 9, square, our_pawn, CAPTURE_EP⟩] else []) ++
      (if p.piece_at (square + 7) our_pawn ∧ square % 8 > 0 then
        [⟨square + 7, square, our_pawn, CAPTURE_EP⟩] else [])

/-- The body of the pawn loop in `append_pawn_moves`, for one pawn square. -/
def pawn_moves_for (white_to_move : Bool) (our_pawn : Piece)
    (opp_pieces all_pieces : Nat) (psq : Nat) : MoveList :=
  let target := if white_to_move then psq + 8 else psq - 8
  let push :=
    if all_pieces &&& (1 <<< target) = 0 then
      if target / 8 = 0 ∨ target / 8 = 7 then
        [⟨psq, target, our_pawn, PROMOTE_KNIGHT⟩, ⟨psq, target, our_pawn, PROMOTE_BISHOP⟩,
         ⟨psq, target, our_pawn, PROMOTE_ROOK⟩, ⟨psq, target, our_pawn, PROMOTE_QUEEN⟩]
      else [⟨psq, target, our_pawn, QUIET⟩]
    else []
  -- target - 1 is pawn + 7 for white, pawn - 9 for black
  let t1 := target - 1
  let cap1 :=
    if psq % 8 > 0 ∧ opp_pieces &&& (1 <<< t1) ≠ 0 then
      if t1 / 8 = 0 ∨ t1 / 8 = 7 then
        [⟨psq, t1, our_pawn, PROMOTE_KNIGHT_CAPTURE⟩, ⟨psq, t1, our_pawn, PROMOTE_BISHOP_CAPTURE⟩,
         ⟨psq, t1, our_pawn, PROMOTE_ROOK_CAPTURE⟩, ⟨psq, t1, our_pawn, PROMOTE_QUEEN_CAPTURE⟩]
      else [⟨psq, t1, our_pawn, CAPTURE⟩]
    else []
  let t2 := target + 1
  let cap2 :=
    if psq % 8 < 7 ∧ opp_pieces &&& (1 <<< t2) ≠ 0 then
      if t2 / 8 = 0 ∨ t2 / 8 = 7 then
        [⟨psq, t2, our_pawn, PROMOTE_KNIGHT_CAPTURE⟩, ⟨psq, t2, our_pawn, PROMOTE_BISHOP_CAPTURE⟩,
         ⟨psq, t2, our_pawn, PROMOTE_ROOK_CAPTURE⟩, ⟨psq, t2, our_pawn, PROMOTE_QUEEN_CAPTURE⟩]
      else [⟨psq, t2, our_pawn, CAPTURE⟩]
    else []
  let dbl :=
    if (if white_to_move then psq / 8 = 1 else psq / 8 = 6) then
      let target2 := if white_to_move then psq + 16 else psq - 16
      let sq := if white_to_move then psq + 8 else psq - 8
      if all_pieces &&& ((1 <<< target2) ||| (1 <<< sq)) = 0 then
        [⟨psq, target2, our_pawn, PAWN_DOUBLE⟩]
      else []
    else []
  push ++ cap1 ++ cap2 ++ dbl

/-- `append_pawn_moves` from `movegen.cpp` (returned instead of appended). -/
def append_pawn_moves (gs : GameState) : MoveList :=
  let white_to_move := gs.whites_move
  let our_pawn := color_piece PAWN white_to_move
  let p := gs.pos
  let pawns := p.find_piece our_pawn
  let opp_all := color_piece ALL !white_to_move
  let opp_pieces := p.get_board opp_all
  let all_pieces := p.get_board BOTH_ALL
  (sorted_squares pawns).foldl
    (fun l psq => l ++ pawn_moves_for white_to_move our_pawn opp_pieces all_pieces psq) []

/-- `append_knight_moves` from `movegen.cpp` (returned instead of appended). -/
def append_knight_moves (gs : GameState) : MoveList :=
  let white_to_move := gs.whites_move
  let our_knight := color_piece KNIGHT white_to_move
  let p := gs.pos
  let knights := p.find_piece our_knight
  let our_all := color_piece ALL white_to_move
  let opp_all := color_piece ALL !white_to_move
  let occupancy := p.get_board our_all
  let opp_pieces := p.get_board opp_all
  (sorted_squares knights).foldl
    (fun l k =>
      l ++ append_moves_from k (knight_moves k &&& compl64 occupancy) our_knight opp_pieces) []

/-- `append_sliding_moves` from `movegen.cpp` (returned instead of
appended). -/
def append_sliding_moves (gs : GameState) : MoveList :=
  let white_to_move := gs.whites_move
  let p := gs.pos
  let occupancy := p.get_board BOTH_ALL
  let our_all := color_piece ALL white_to_move
  let our_pieces := p.get_board our_all
  let opp_all := color_piece ALL !white_to_move
  let opp_pieces := p.get_board opp_all
  let our_rook := color_piece ROOK white_to_move
  let rook_part := (sorted_squares (p.find_piece our_rook)).foldl
    (fun l r =>
      l ++ append_moves_from r (rook_attack_lookup r occupancy &&& compl64 our_pieces)
            our_rook opp_pieces) []
  let our_bishop := color_piece BISHOP white_to_move
  let bishop_part := (sorted_squares (p.find_piece our_bishop)).foldl
    (fun l b =>
      l ++ append_moves_from b (bishop_attack_lookup b occupancy &&& compl64 our_pieces)
            our_bishop opp_pieces) []
  let our_queen := color_piece QUEEN white_to_move
  let queen_part := (sorted_squares (p.find_piece our_queen)).foldl
    (fun l q =>
      l ++ append_moves_from q
            ((rook_attack_lookup q occupancy ||| bishop_attack_lookup q occupancy) &&&
              compl64 our_pieces)
            our_queen opp_pieces) []
  rook_part ++ bishop_part ++ queen_part

/-- `generate_pseudolegal_moves` from `movegen.cpp`. -/
def generate_pseudolegal_moves (gs : GameState) : MoveList :=
  generate_king_moves gs ++ append_castling_moves gs ++ append_en_passant gs ++
  append_pawn_moves gs ++ append_knight_moves gs ++ append_sliding_moves gs

/-- `is_legal` from `movegen.cpp`: make the move on a copy of the position
and test that the mover is not left in check. -/
def is_legal (m : Move) (gs : GameState) : Bool :=
  get_check_board gs.whites_move (gs.pos.make_move m) == 0

/-- `generate_moves` from `movegen.cpp`: the strictly legal moves. -/
def generate_moves (gs : GameState) : MoveList :=
  (generate_pseudolegal_moves gs).filter (fun m => is_legal m gs)

/-! ### Evaluation (`evaluation.cpp`)

`BasicEvaluator::evaluate_position` computes four scoring blocks and sums
them; each block is embedded as a named definition.  `double` arithmetic is
modelled in `ℚ` (all constants and sums involved are exact). -/

/-- The material block of `BasicEvaluator::evaluate_position`. -/
def material_score (p : Position) : ℚ :=
  9 * ((p.find_piece W_QUEEN).card - (p.find_piece B_QUEEN).card : ℤ) +
  5 * ((p.find_piece W_ROOK).card - (p.find_piece B_ROOK).card : ℤ) +
  3 * ((p.find_piece W_BISHOP).card - (p.find_piece B_BISHOP).card : ℤ) +
  3 * ((p.find_piece W_KNIGHT).card - (p.find_piece B_KNIGHT).card : ℤ) +
  ((p.find_piece W_PAWN).card - (p.find_piece B_PAWN).card : ℤ)

/-- The mobility block of `BasicEvaluator::evaluate_position`: legal-move
counts for the mover and (after `flip_move`) the opponent. -/
def mobility_score (gs : GameState) : ℚ :=
  let to_move_mobility : ℤ := (generate_moves gs).length
  let other_mobility : ℤ := (generate_moves gs.flip_move).length
  let white_mobility := if gs.whites_move then to_move_mobility else other_mobility
  let black_mobility := if gs.whites_move then other_mobility else to_move_mobility
  (0.1 : ℚ) * (white_mobility - black_mobility)

/-- The bishop-pair block of `BasicEvaluator::evaluate_position`. -/
def bishop_pair_score (p : Position) : ℚ :=
  let white_bishop_pair : ℚ := if (p.find_piece W_BISHOP).card = 2 then 1 else 0
  let black_bishop_pair : ℚ := if (p.find_piece B_BISHOP).card = 2 then 1 else 0
  (0.5 : ℚ) * (white_bishop_pair - black_bishop_pair)

/-- `w_pawn_files[i]` / `b_pawn_files[i]`: how many pawns of the given
colour stand on file `i`. -/
def pawn_file_count (p : Position) (pawn : Piece) (i : Nat) : Nat :=
  ((p.find_piece pawn).filter (fun sq => sq % 8 = i)).card

/-- The pawn-structure block of `BasicEvaluator::evaluate_position`:
doubled-pawn and isolated-pawn penalties, per file, sign flipped for
black. -/
def structure_score (p : Position) : ℚ :=
  (List.range 8).foldl (fun s i =>
    let w := pawn_file_count p W_PAWN
    let b := pawn_file_count p B_PAWN
    -- Check for doubled pawns
    let s := if w i ≥ 2 then s - 0.5 else s
    let s := if b i ≥ 2 then s + 0.5 else s
    -- Check for isolated pawns
    let s := if w i ≥ 1 ∧ (i = 0 ∨ w (i - 1) = 0) ∧ (i = 7 ∨ w (i + 1) = 0)
      then s - 0.5 else s
    if b i ≥ 1 ∧ (i = 0 ∨ b (i - 1) = 0) ∧ (i = 7 ∨ b (i + 1) = 0)
      then s + 0.5 else s) 0

/-- `BasicEvaluator::evaluate_position`: the sum of the four blocks. -/
def evaluate_position (gs : GameState) : ℚ :=
  material_score gs.pos + mobility_score gs + bishop_pair_score gs.pos +
    structure_score gs.pos

/-! ### Search (`search.cpp`)

`SearchInfo` is shared with a reporter thread in the source; its `time`
field and the `pv_lock` mutex have no shallow embedding and the remaining
fields are threaded functionally.  The cancellation flag `stop_signal` is
monotonic, and we model a search interval during which its value is fixed.
The general recursion of `alpha_beta` (which can even fail to terminate: the
quiescence `continue` branch never pops the queue) is embedded with a fuel
parameter; `none` means the fuel ran out. -/

/-- `piece_score` from `search.cpp`.  The source throws `"Illegal capture"`
on any other label; callers only pass capturable pieces, and the exception
case is modelled as 0. -/
def piece_score (piece : Piece) : Int :=
  if piece = W_PAWN ∨ piece = B_PAWN then 1
  else if piece = W_KNIGHT ∨ piece = B_KNIGHT ∨ piece = W_BISHOP ∨ piece = B_BISHOP then 3
  else if piece = W_ROOK ∨ piece = B_ROOK then 5
  else if piece = W_QUEEN ∨ piece = B_QUEEN then 9
  else 0

/-- Modelled from the spec: `Position::get_piece` is called by the move
ordering in `search.cpp` but its definition is not among the provided
sources.  Per the spec (the MVV-LVA ordering weighs the victim standing on
the destination square), it returns the piece label occupying the square;
the result on an empty square is never used by the engine and defaults to
`W_PAWN`. -/
def Position.get_piece (p : Position) (sq : Nat) : Piece :=
  (([W_PAWN, W_KNIGHT, W_BISHOP, W_ROOK, W_QUEEN, W_KING,
     B_PAWN, B_KNIGHT, B_BISHOP, B_ROOK, B_QUEEN, B_KING] : List Piece).find?
    (fun k => p.piece_at sq k)).getD W_PAWN

/-- `MoveOrdering::operator()` from `search.cpp`: true when `r` should have
higher priority than `l`. -/
def move_ordering (gs : GameState) (pv_move : Option Move) (l r : Move) : Bool :=
  if pv_move = some l then false
  else if pv_move = some r then true
  else if l.capture && !r.capture then false
  else if !l.capture && r.capture then true
  else if l.capture then
    decide ((piece_score (gs.pos.get_piece l.to_sq) - piece_score l.piece) <
            (piece_score (gs.pos.get_piece r.to_sq) - piece_score r.piece))
  else true

/-- Insertion step of the `order_moves` sort. -/
def insert_ordered (le : Move → Move → Bool) (m : Move) : MoveList → MoveList
  | [] => [m]
  | x :: xs => if le m x then m :: x :: xs else x :: insert_ordered le m xs

/-- The order in which a `std::priority_queue` built with `MoveOrdering`
hands out the moves.  (The comparator is not a strict weak ordering on
non-captures, so the C++ order among those is unspecified; we fix one
definite order.) -/
def order_moves (gs : GameState) (pv_move : Option Move) (ml : MoveList) : MoveList :=
  let le := fun a b => !(move_ordering gs pv_move a b)
  ml.foldr (fun m acc => insert_ordered le m acc) []

/-- `SearchResult` from the search header. -/
structure SearchResult where
  score : ℚ
  pv : MoveList
deriving DecidableEq, Repr

/-- `SearchInfo` from the search header (without the wall-clock `time`
field and the `pv_lock` mutex, which have no shallow embedding). -/
structure SearchInfo where
  score : ℚ
  depth : Nat
  nodes : Nat
  pv : MoveList
deriving DecidableEq, Repr

/-- `SearchLimits` from the search header. -/
structure SearchLimits where
  timeout : Option Nat := none
  node_limit : Option Nat := none
  depth_limit : Option Nat := none
  mate_in : Option Nat := none
  moves : Option MoveList := none

/-- `DBL_MAX`, the exact value of `std::numeric_limits<double>::max()`. -/
def DBL_MAX : ℚ := ((2 ^ 1024 - 2 ^ 971 : ℕ) : ℚ)

/-- The `while (!ml.empty())` loop of `alpha_beta`, carrying `alpha`, the
local pv, `q_finished` and the node count.  `recur` is the recursive
`alpha_beta` call (instantiated with one unit of fuel less).  In the
quiescence-skip branch the source forgets to pop the queue and spins
forever, which the fuel makes explicit.  Dereferencing `*next_pv_iter` at
`cend` is undefined behaviour in the source; it is modelled as abandoning
the pv hint. -/
def ab_loop (pv_list : MoveList)
    (recur : GameState → Nat → ℚ → ℚ → Bool → Nat → Nat → Option (SearchResult × Nat)) :
    Nat → GameState → Nat → ℚ → Bool → Nat → MoveList → ℚ → MoveList →
    Bool → Nat → Option (SearchResult × Nat)
  | 0, _, _, _, _, _, _, _, _, _, _ => none
  | fuel + 1, gs, depth, beta, quiescence_search, next_pv_idx, ml, alpha, pv,
      q_finished, nodes =>
    match ml with
    | [] =>
      -- If the quiescence search had no more moves, evaluate this position.
      if q_finished ∧ quiescence_search then
        let score := evaluate_position gs
        some (⟨if gs.whites_move then score else -score, []⟩, nodes)
      else some (⟨alpha, pv⟩, nodes)
    | m :: rest =>
      let next_pv_idx :=
        match pv_list.get? next_pv_idx with
        | some pm => if m ≠ pm then pv_list.length else next_pv_idx
        | none => pv_list.length
      if quiescence_search ∧ ¬m.capture then
        ab_loop pv_list recur fuel gs depth beta
          quiescence_search next_pv_idx (m :: rest) alpha pv q_finished nodes
      else
        let q_finished := if m.capture then false else q_finished
        match recur (gs.make_move m)
            (depth - 1) (-beta) (-alpha) quiescence_search next_pv_idx nodes with
        | none => none
        | some (res, nodes) =>
          let score := -res.score
          if score ≥ beta then some (⟨beta, []⟩, nodes)
          else if score > alpha then
            ab_loop pv_list recur fuel gs depth beta
              quiescence_search next_pv_idx rest score (m :: res.pv) q_finished nodes
          else
            ab_loop pv_list recur fuel gs depth beta
              quiescence_search next_pv_idx rest alpha pv q_finished nodes

/-- `BasicAlphaBetaSearcher::alpha_beta` from `search.cpp`.  The fixed
arguments are the searcher's `principle_variation`, the cancellation flag
and `max_nodes`; the changing arguments are the fuel, the game state, the
remaining depth, the window, the quiescence flag, the pv iterator (an index
into `pv_list`, `pv_list.length` playing `cend`) and `info.nodes`.  Returns
the `SearchResult` together with the updated node count; `none` means the
fuel ran out. -/
def alpha_beta (pv_list : MoveList) (stop_signal : Bool) (max_nodes : Nat) :
    Nat → GameState → Nat → ℚ → ℚ → Bool → Nat → Nat →
    Option (SearchResult × Nat)
  | 0, _, _, _, _, _, _, _ => none
  | fuel + 1, gs, depth, alpha, beta, quiescence_search, pv_idx, nodes =>
    -- If we have been told to stop, return immediately.
    if stop_signal then some (⟨0, []⟩, nodes)
    else
      let nodes := nodes + 1
      if nodes > max_nodes then some (⟨0, []⟩, nodes)
      else
        let next_pv_idx := if pv_idx ≥ pv_list.length then pv_idx else pv_idx + 1
        -- At the depth limit, outside quiescence: static evaluation
        if depth = 0 ∧ ¬quiescence_search then
          let v := evaluate_position gs
          some (⟨if gs.whites_move then v else -v, []⟩, nodes)
        else
          let move_list := generate_moves gs
          let pv_move := pv_list.get? pv_idx
          let ml := order_moves gs pv_move move_list
          if ml.isEmpty then
            if in_check gs.whites_move gs.pos then some (⟨-1000, []⟩, nodes)
            else some (⟨0, []⟩, nodes)
          else
            ab_loop pv_list (alpha_beta pv_list stop_signal max_nodes fuel) fuel
              gs depth beta quiescence_search next_pv_idx ml alpha [] true nodes

/-- The root move loop of `BasicAlphaBetaSearcher::search` for one
iterative-deepening depth.  The state is
`(best_score, best_move, best_pv, outer_best_score, outer_best_move,
principle_variation, info)`. -/
def root_loop (stop_signal : Bool) (max_nodes fuel : Nat) (gs : GameState)
    (depth next_pv_idx : Nat) :
    MoveList → (ℚ × Move × MoveList) → (ℚ × Move) → MoveList → SearchInfo →
    Option ((ℚ × Move × MoveList) × (ℚ × Move) × MoveList × SearchInfo)
  | [], best, outer, pv_list, info => some (best, outer, pv_list, info)
  | m :: rest, (best_score, best_move, best_pv), (outer_best_score, outer_best_move),
      pv_list, info =>
    match alpha_beta pv_list stop_signal max_nodes fuel (gs.make_move m) depth
        (-DBL_MAX) (-best_score) false next_pv_idx info.nodes with
    | none => none
    | some (res, nodes) =>
      let info := { info with nodes := nodes }
      -- We invert the score because we made a move before calling alpha_beta
      let score := -res.score
      let (best_score, best_move, best_pv) :=
        if score > best_score then (score, m, m :: res.pv)
        else (best_score, best_move, best_pv)
      if score > outer_best_score then
        root_loop stop_signal max_nodes fuel gs depth next_pv_idx rest
          (best_score, best_move, best_pv) (best_score, best_move) best_pv
          { info with pv := best_pv, score := best_score }
      else
        root_loop stop_signal max_nodes fuel gs depth next_pv_idx rest
          (best_score, best_move, best_pv) (outer_best_score, outer_best_move)
          pv_list info

/-- The iterative-deepening loop of `BasicAlphaBetaSearcher::search`. -/
def search_depth_loop (stop_signal : Bool) (max_nodes fuel : Nat)
    (gs : GameState) (ml : MoveList) :
    List Nat → (ℚ × Move) → MoveList → SearchInfo →
    Option ((ℚ × Move) × MoveList × SearchInfo)
  | [], outer, pv_list, info => some (outer, pv_list, info)
  | depth :: rest, outer, pv_list, info =>
    let best_score := -DBL_MAX
    let best_move : Move := ⟨0, 0, 0, 0⟩
    -- pv_iter = cbegin; next_pv_iter = cend-aware successor
    let next_pv_idx := if pv_list.length = 0 then 0 else 1
    -- `MoveOrdering mo(gs, *pv_iter)` dereferences cend() when the pv is
    -- empty (undefined behaviour); modelled as no pv preference.
    let mo_pv : Option Move := pv_list.head?
    let queue := order_moves gs mo_pv ml
    match root_loop stop_signal max_nodes fuel gs depth next_pv_idx queue
        (best_score, best_move, []) outer pv_list info with
    | none => none
    | some ((best_score, best_move, best_pv), outer, pv_list, info) =>
      if ¬stop_signal then
        search_depth_loop stop_signal max_nodes fuel gs ml rest
          (best_score, best_move) best_pv
          { info with pv := best_pv, depth := depth + 1, score := best_score }
      else
        search_depth_loop stop_signal max_nodes fuel gs ml rest outer pv_list info

/-- `BasicAlphaBetaSearcher::search` from `search.cpp`.  Takes the
searcher's incoming `principle_variation` and the incoming `info`; returns
`(score, best_move)` together with the final pv state and `info`. -/
def search (pv_list : MoveList) (gs : GameState) (limits : SearchLimits)
    (info : SearchInfo) (stop_signal : Bool) (fuel : Nat) :
    Option ((ℚ × Move) × MoveList × SearchInfo) :=
  let ml := match limits.moves with
    | some l => l
    | none => generate_moves gs
  let info := { info with nodes := 0, depth := 0 }
  let max_depth := match limits.mate_in with
    | some mi => 2 * mi
    | none => limits.depth_limit.getD 1000
  let max_nodes := limits.node_limit.getD (2 ^ 32 - 1)
  match search_depth_loop stop_signal max_nodes fuel gs ml
      (List.range max_depth) (-DBL_MAX, ⟨0, 0, 0, 0⟩) pv_list info with
  | none => none
  | some ((outer_best_score, outer_best_move), pv_list, info) =>
    let outer_best_score :=
      if ¬gs.whites_move then -outer_best_score else outer_best_score
    some ((outer_best_score, outer_best_move), pv_list, info)

/-! ### Helper lemmas -/

theorem Position.lt_self_eq_false (p : Position) : p.lt p = false := by
  simp [Position.lt]

theorem Position.equiv_self (p : Position) : Position.equiv p p = true := by
  simp [Position.equiv, Position.lt_self_eq_false]

/-- Decrementing right after bumping restores the repetition map, provided
no stored count is 0 (counts of a repetition multiset never are). -/
theorem repDec_repBump (R : List (Position × Int)) (p : Position)
    (h : ∀ e ∈ R, e.2 ≠ 0) : repDec (repBump R p) p = R := by
  induction R with
  | nil => simp [repBump, repDec, Position.equiv_self]
  | cons e t ih =>
    obtain ⟨q, c⟩ := e
    by_cases hq : Position.equiv p q = true
    · have hc : c ≠ 0 := h (q, c) (by simp)
      have hc1 : ¬(c + 1 = 1) := by omega
      simp [repBump, hq, repDec, hc1]
    · have hq' : Position.equiv p q = false := by
        cases heq : Position.equiv p q
        · rfl
        · exact absurd heq hq
      simp [repBump, hq', repDec, ih (fun e he => h e (by simp [he]))]

/-- `make_move` followed by `undo_move` restores the full game state. -/
theorem GameState.undo_make (g : GameState) (m : Move)
    (h : ∀ e ∈ g.repeats, e.2 ≠ 0) : (g.make_move m).undo_move = g := by
  have h1 : (g.make_move m).history = g.history ++ [g.node] := rfl
  have h3 : (g.make_move m).repeats =
      repBump g.repeats (g.make_move m).node.position := rfl
  unfold GameState.undo_move
  rw [h1, List.getLast?_concat]
  simp only [h3, h1, List.dropLast_concat]
  rw [show (GameState.make_move g m).node.position =
        ((g.make_move m).node).position from rfl]
  rw [repDec_repBump g.repeats _ h]

/-! ### C1 -/

/-- C1: for every game state `g` (its repetition multiset holding no
zero counts, as no reachable one does) and every move `m`, making `m` and
undoing it restores a state identical to `g`: equal FEN string, equal
repetition-count map, and equal undo-history length.  (This holds for every
move, in particular for every legal one.) -/
theorem c1_make_undo_round_trip (g : GameState) (m : Move)
    (h : ∀ e ∈ g.repeats, e.2 ≠ 0) :
    ((g.make_move m).undo_move).fen_string = g.fen_string ∧
    ((g.make_move m).undo_move).repeats = g.repeats ∧
    ((g.make_move m).undo_move).history.length = g.history.length := by
  rw [GameState.undo_make g m h]
  exact ⟨rfl, rfl, rfl⟩

/-- C1 witness: the round trip at the initial position with the double pawn
push e2e4. -/
theorem c1_witness :
    ((GameState.init.make_move ⟨12, 28, W_PAWN, PAWN_DOUBLE⟩).undo_move).fen_string =
        GameState.init.fen_string ∧
    ((GameState.init.make_move ⟨12, 28, W_PAWN, PAWN_DOUBLE⟩).undo_move).repeats =
        GameState.init.repeats ∧
    ((GameState.init.make_move ⟨12, 28, W_PAWN, PAWN_DOUBLE⟩).undo_move).history.length =
        GameState.init.history.length :=
  c1_make_undo_round_trip GameState.init ⟨12, 28, W_PAWN, PAWN_DOUBLE⟩
    (by intro e he; simp [GameState.init] at he)

/-! ### C2

`GameState::make_move` updates castling rights only when the mover's own
king or rook moves; capturing an enemy rook on its home corner leaves the
victim's right set.  The spec states the rule must be handled, the Design
Notes call its absence out as the known bug, and the repository's own perft
suite (Kiwipete) requires it. -/

/-- C2 failing input: in `r3k3/8/8/8/8/8/8/R3K3 w Qq - 0 1` the legal
capture Ra1xa8 removes black's queenside rook from its home corner a8, yet
after `make_move` black's queenside castling right is still set. -/
theorem c2_rook_capture_keeps_victim_right :
    (generate_moves (GameState.from_fen "r3k3/8/8/8/8/8/8/R3K3 w Qq - 0 1")).contains
        ⟨0, 56, W_ROOK, CAPTURE⟩ = true ∧
    ((GameState.from_fen "r3k3/8/8/8/8/8/8/R3K3 w Qq - 0 1").make_move
        ⟨0, 56, W_ROOK, CAPTURE⟩).node.b_castle_q = true := by
  decide

/-! ### C8 -/

/-- C8 counterexample: no white knight stands on a1, yet removing a white
knight from a1 changes the position (the white pawn standing there is wiped
from the aggregate boards), refuting the claim for squares occupied by a
different piece. -/
theorem c8_counterexample :
    (Position.init.place_piece 0 W_PAWN).piece_at 0 W_KNIGHT = false ∧
    (Position.init.place_piece 0 W_PAWN).remove_piece 0 W_KNIGHT ≠
      Position.init.place_piece 0 W_PAWN := by
  decide

theorem Nat.and_compl_bit_eq_self {b sq : Nat} (hb : b < 2 ^ 64)
    (hbit : b.testBit sq = false) (hsq : sq < 64) :
    b &&& (mask64 ^^^ (1 <<< sq)) = b := by
  apply Nat.eq_of_testBit_eq
  intro i
  rw [Nat.testBit_and, Nat.testBit_xor, Nat.one_shiftLeft, Nat.testBit_two_pow,
    mask64, Nat.testBit_two_pow_sub_one]
  by_cases hi : i = sq
  · subst hi
    simp [hbit, hsq]
  · by_cases hlt : i < 64
    · simp [hlt, Ne.symm hi]
    · have : b.testBit i = false := by
        apply Nat.testBit_eq_false_of_lt
        calc b < 2 ^ 64 := hb
          _ ≤ 2 ^ i := Nat.pow_le_pow_right (by norm_num) (by omega)
      simp [this, hlt]

/-- C8 amended: if the square `sq` is genuinely empty — no piece board nor
aggregate board has its bit set and it is absent from the piece set — then
`remove_piece(sq, k)` leaves the position entirely unchanged.  (When some
*other* piece occupies `sq` the original claim fails: the aggregate boards
lose that bit, as the counterexample shows and the spec's own caveat about
corrupting the position acknowledges.) -/
theorem c8_remove_piece_empty_square_frame (p : Position) (sq : Nat) (piece : Piece)
    (hsq : sq < 64)
    (hw : ∀ k : Piece, p.boards k < 2 ^ 64)
    (hempty : ∀ k : Piece, (p.boards k).testBit sq = false)
    (hset : sq ∉ p.piece_sets piece) :
    p.remove_piece sq piece = p := by
  have A : ∀ j : Piece, p.boards j &&& (mask64 ^^^ (1 <<< sq)) = p.boards j :=
    fun j => Nat.and_compl_bit_eq_self (hw j) (hempty j) hsq
  obtain ⟨bs, ss⟩ := p
  unfold Position.remove_piece
  simp only [Position.mk.injEq]
  constructor
  · funext k
    simp only [Function.update_apply]
    split_ifs <;> simp_all
  · funext k
    simp only [Function.update_apply]
    split_ifs with h1
    · subst h1; exact Finset.erase_eq_of_not_mem hset
    · rfl

/-- C8 witness: removing an absent white pawn from the empty square f1 of a
one-rook position leaves the position unchanged. -/
theorem c8_witness :
    (Position.init.place_piece 63 B_ROOK).remove_piece 5 W_PAWN =
      Position.init.place_piece 63 B_ROOK :=
  c8_remove_piece_empty_square_frame (Position.init.place_piece 63 B_ROOK) 5 W_PAWN
    (by decide) (by decide) (by decide) (by decide)

/-! ### C10

`Position::operator<` returns true as soon as any board index compares
less, without returning false when an earlier index compares greater, so
two positions can each be less than the other — not a strict weak ordering,
although its documented purpose is to serve as the key ordering of the
`std::map` repetition counter. -/

/-! ### C6

The isolated-pawn penalty of `BasicEvaluator::evaluate_position` is applied
once per file that holds at least one isolated pawn (`w_pawn_files[i] >= 1`),
not once per pawn: two pawns doubled on an isolated file incur one isolated
penalty, not two. -/

/-- The pawn-structure term as claim C6 words it: −0.5 per file holding two
or more same-colour pawns and −0.5 per *individual* isolated pawn (a pawn
with no same-colour pawn on either adjacent file), sign flipped for black.
This definition follows the claim text and is compared against the source's
`structure_score`. -/
def claimed_structure_score (p : Position) : ℚ :=
  let wd : ℚ := ((List.range 8).filter (fun i => 2 ≤ pawn_file_count p W_PAWN i)).length
  let bd : ℚ := ((List.range 8).filter (fun i => 2 ≤ pawn_file_count p B_PAWN i)).length
  let wi : ℚ := ((p.find_piece W_PAWN).filter (fun sq =>
      (sq % 8 = 0 ∨ pawn_file_count p W_PAWN (sq % 8 - 1) = 0) ∧
      (sq % 8 = 7 ∨ pawn_file_count p W_PAWN (sq % 8 + 1) = 0))).card
  let bi : ℚ := ((p.find_piece B_PAWN).filter (fun sq =>
      (sq % 8 = 0 ∨ pawn_file_count p B_PAWN (sq % 8 - 1) = 0) ∧
      (sq % 8 = 7 ∨ pawn_file_count p B_PAWN (sq % 8 + 1) = 0))).card
  (0.5 : ℚ) * bd - 0.5 * wd + 0.5 * bi - 0.5 * wi

/-- C6 counterexample: with two white pawns doubled on the isolated a-file
(a2 and a3) the source's pawn-structure term is −1 (one doubled penalty,
one isolated-file penalty) while the claimed per-pawn rule gives −1.5. -/
theorem c6_counterexample :
    structure_score ((Position.init.place_piece 8 W_PAWN).place_piece 16 W_PAWN) = -1 ∧
    claimed_structure_score ((Position.init.place_piece 8 W_PAWN).place_piece 16 W_PAWN) =
      -(3/2 : ℚ) ∧
    structure_score ((Position.init.place_piece 8 W_PAWN).place_piece 16 W_PAWN) ≠
      claimed_structure_score ((Position.init.place_piece 8 W_PAWN).place_piece 16 W_PAWN) := by
  with_unfolding_all decide

/-- Per-file contribution of the pawn-structure loop. -/
def c6_contrib (p : Position) (i : Nat) : ℚ :=
  (if 2 ≤ pawn_file_count p B_PAWN i then (0.5:ℚ) else 0)
  - (if 2 ≤ pawn_file_count p W_PAWN i then (0.5:ℚ) else 0)
  + (if 1 ≤ pawn_file_count p B_PAWN i ∧ (i = 0 ∨ pawn_file_count p B_PAWN (i - 1) = 0) ∧
        (i = 7 ∨ pawn_file_count p B_PAWN (i + 1) = 0) then (0.5:ℚ) else 0)
  - (if 1 ≤ pawn_file_count p W_PAWN i ∧ (i = 0 ∨ pawn_file_count p W_PAWN (i - 1) = 0) ∧
        (i = 7 ∨ pawn_file_count p W_PAWN (i + 1) = 0) then (0.5:ℚ) else 0)

theorem sum_map_ite_count (P : Nat → Prop) [DecidablePred P] (c : ℚ) (l : List Nat) :
    (l.map (fun i => if P i then c else 0)).sum =
      c * (l.filter (fun i => decide (P i))).length := by
  induction l with
  | nil => simp
  | cons i t ih =>
    simp only [List.map_cons, List.sum_cons, List.filter_cons, ih]
    by_cases h : P i
    · simp [h]
      push_cast
      ring
    · simp [h]

theorem sum_map_sub_add (f g h k : Nat → ℚ) (l : List Nat) :
    (l.map (fun i => f i - g i + h i - k i)).sum =
      (l.map f).sum - (l.map g).sum + (l.map h).sum - (l.map k).sum := by
  induction l with
  | nil => simp
  | cons i t ih =>
    simp only [List.map_cons, List.sum_cons, ih]
    ring

theorem c6_foldl_eq (p : Position) : ∀ (l : List Nat) (s : ℚ),
    l.foldl (fun s i =>
      let w := pawn_file_count p W_PAWN
      let b := pawn_file_count p B_PAWN
      let s := if w i ≥ 2 then s - 0.5 else s
      let s := if b i ≥ 2 then s + 0.5 else s
      let s := if w i ≥ 1 ∧ (i = 0 ∨ w (i - 1) = 0) ∧ (i = 7 ∨ w (i + 1) = 0)
        then s - 0.5 else s
      if b i ≥ 1 ∧ (i = 0 ∨ b (i - 1) = 0) ∧ (i = 7 ∨ b (i + 1) = 0)
        then s + 0.5 else s) s = s + (l.map (c6_contrib p)).sum := by
  intro l
  induction l with
  | nil => intro s; simp
  | cons i t ih =>
    intro s
    rw [List.foldl_cons, List.map_cons, List.sum_cons, ih]
    have hstep : ∀ s' : ℚ,
        (let w := pawn_file_count p W_PAWN
         let b := pawn_file_count p B_PAWN
         let s := if w i ≥ 2 then s' - 0.5 else s'
         let s := if b i ≥ 2 then s + 0.5 else s
         let s := if w i ≥ 1 ∧ (i = 0 ∨ w (i - 1) = 0) ∧ (i = 7 ∨ w (i + 1) = 0)
           then s - 0.5 else s
         if b i ≥ 1 ∧ (i = 0 ∨ b (i - 1) = 0) ∧ (i = 7 ∨ b (i + 1) = 0)
           then s + 0.5 else s) = s' + c6_contrib p i := by
      intro s'
      dsimp only [c6_contrib]
      split_ifs <;> ring
    rw [hstep s]
    ring

/-- C6 amended: the pawn-structure term of `evaluate_position` subtracts
0.5 for each file containing two or more same-colour pawns (doubled) and
0.5 for each *file* containing at least one pawn and flanked by pawn-free
adjacent files (isolated pawns are penalized once per file, not once per
pawn), computed for each colour with the sign flipped for black. -/
theorem c6_structure_score_per_file (p : Position) :
    structure_score p =
      (0.5 : ℚ) * ((List.range 8).filter (fun i => 2 ≤ pawn_file_count p B_PAWN i)).length
      - (0.5 : ℚ) * ((List.range 8).filter (fun i => 2 ≤ pawn_file_count p W_PAWN i)).length
      + (0.5 : ℚ) * ((List.range 8).filter (fun i =>
          1 ≤ pawn_file_count p B_PAWN i ∧ (i = 0 ∨ pawn_file_count p B_PAWN (i - 1) = 0) ∧
          (i = 7 ∨ pawn_file_count p B_PAWN (i + 1) = 0))).length
      - (0.5 : ℚ) * ((List.range 8).filter (fun i =>
          1 ≤ pawn_file_count p W_PAWN i ∧ (i = 0 ∨ pawn_file_count p W_PAWN (i - 1) = 0) ∧
          (i = 7 ∨ pawn_file_count p W_PAWN (i + 1) = 0))).length := by
  unfold structure_score
  rw [c6_foldl_eq]
  unfold c6_contrib
  rw [sum_map_sub_add]
  rw [sum_map_ite_count (fun i => 2 ≤ pawn_file_count p B_PAWN i),
      sum_map_ite_count (fun i => 2 ≤ pawn_file_count p W_PAWN i),
      sum_map_ite_count (fun i => 1 ≤ pawn_file_count p B_PAWN i ∧
        (i = 0 ∨ pawn_file_count p B_PAWN (i - 1) = 0) ∧
        (i = 7 ∨ pawn_file_count p B_PAWN (i + 1) = 0)),
      sum_map_ite_count (fun i => 1 ≤ pawn_file_count p W_PAWN i ∧
        (i = 0 ∨ pawn_file_count p W_PAWN (i - 1) = 0) ∧
        (i = 7 ∨ pawn_file_count p W_PAWN (i + 1) = 0))]
  ring

/-! ### C5 -/

/-- C5: whenever the legal move list of the searched state is empty and the
node is actually examined — positive remaining depth or quiescence (at depth
0 outside quiescence the source returns the static evaluation before
generating moves), the stop flag not raised, the node budget not exhausted,
and fuel available — `alpha_beta` returns score −1000 (the source's mate
constant, 1000 pawns, negamax-signed for the side to move) when the side to
move is in check, and score 0 (stalemate) when it is not. -/
theorem c5_alpha_beta_mate_and_stalemate (fuel : Nat) (gs : GameState) (depth : Nat)
    (alpha beta : ℚ) (q : Bool) (pv_list : MoveList) (pv_idx nodes max_nodes : Nat)
    (hml : generate_moves gs = [])
    (hd : 1 ≤ depth ∨ q = true)
    (hnodes : nodes + 1 ≤ max_nodes) :
    alpha_beta pv_list false max_nodes (fuel + 1) gs depth alpha beta q pv_idx nodes =
      some (⟨if in_check gs.whites_move gs.pos then -1000 else 0, []⟩, nodes + 1) := by
  simp only [alpha_beta, if_false, Bool.false_eq_true]
  rw [if_neg (by omega)]
  rw [if_neg (by
    rcases hd with h | h
    · intro hc; omega
    · simp [h])]
  rw [hml]
  simp only [order_moves, List.foldr_nil, List.isEmpty_nil, if_true]
  split_ifs <;> rfl

/-- C5 witness: in the checkmate `8/8/8/8/8/5k2/6q1/7K w - - 0 1` (white
king h1 mated by the guarded queen on g2), `alpha_beta` at depth 1 returns
score −1000. -/
theorem c5_witness :
    alpha_beta [] false 1000 1 (GameState.from_fen "8/8/8/8/8/5k2/6q1/7K w - - 0 1")
        1 (-DBL_MAX) DBL_MAX false 0 0 = some (⟨-1000, []⟩, 1) :=
  (c5_alpha_beta_mate_and_stalemate 0 (GameState.from_fen "8/8/8/8/8/5k2/6q1/7K w - - 0 1")
      1 (-DBL_MAX) DBL_MAX false [] 0 0 1000 (by decide) (Or.inl (by omega))
      (by omega)).trans (by decide)

/-! ### C7

`alpha_beta` does test the stop flag at entry and returns the sentinel
`(0.0, empty pv)` at once.  But the iterative-deepening driver does *not*
discard a cancelled iteration: its in-loop commit
(`if (score > outer_best_score)`) runs even while the flag is set, so the
sentinel-derived score 0 overwrites the committed best state, although the
end-of-iteration commit is explicitly guarded by `if (!stop_signal)` —
evidence that discarding was the intent, as the spec states. -/

/-- C7 failing input: stop flag already raised at `search` entry on the
initial position with the single root move e2e4 and depth limit 1.  The
cancelled `alpha_beta` returns the sentinel `(0, [])` without touching the
node counter (second conjunct), yet `search` returns the sentinel-derived
committed pair (score 0, best move e2e4) and publishes the sentinel pv,
instead of discarding the cancelled iteration, which never completed and
should have committed nothing. -/
theorem c7_cancelled_search_commits_sentinel :
    search [] GameState.init
        { depth_limit := some 1, moves := some [⟨12, 28, W_PAWN, PAWN_DOUBLE⟩] }
        ⟨0, 0, 0, []⟩ true 10 =
      some ((0, ⟨12, 28, W_PAWN, PAWN_DOUBLE⟩), [⟨12, 28, W_PAWN, PAWN_DOUBLE⟩],
        ⟨0, 0, 0, [⟨12, 28, W_PAWN, PAWN_DOUBLE⟩]⟩) ∧
    alpha_beta [] true (2 ^ 32 - 1) 10 GameState.init 1 (-DBL_MAX) DBL_MAX false 0 0 =
      some (⟨0, []⟩, 0) := by
  decide

/-! ### C9 -/

theorem c9_aux_ok (k : Fin 64) :
    algebraic_to_int ((int_to_algebraic (k : Int)).toOption.getD "") = .ok (k : Int) := by
  revert k; decide

/-- C9: on two-character inputs, `algebraic_to_int` throws a domain error
exactly when the file character is outside `a..h` (code 97..104) or the
rank character is outside `1..8` (code 49..56), the error message naming the
offending axis (file checked first); `int_to_algebraic` throws a domain
error exactly for integers outside `[0, 64)`; and on their non-throwing
inputs the two functions are mutually inverse. -/
theorem c9_algebraic_conversions :
    (∀ s : String, s.length = 2 →
      ((∃ n, algebraic_to_int s = .ok n) ↔
        ((97 ≤ (s.data.getD 0 (Char.ofNat 0)).toNat ∧ (s.data.getD 0 (Char.ofNat 0)).toNat ≤ 104) ∧
         (49 ≤ (s.data.getD 1 (Char.ofNat 0)).toNat ∧ (s.data.getD 1 (Char.ofNat 0)).toNat ≤ 56))) ∧
      (¬(97 ≤ (s.data.getD 0 (Char.ofNat 0)).toNat ∧ (s.data.getD 0 (Char.ofNat 0)).toNat ≤ 104) →
        algebraic_to_int s = .error "Cannot convert from algebraic notation: file is not between a and h") ∧
      ((97 ≤ (s.data.getD 0 (Char.ofNat 0)).toNat ∧ (s.data.getD 0 (Char.ofNat 0)).toNat ≤ 104) →
       ¬(49 ≤ (s.data.getD 1 (Char.ofNat 0)).toNat ∧ (s.data.getD 1 (Char.ofNat 0)).toNat ≤ 56) →
        algebraic_to_int s = .error "Cannot convert from algebraic notation: rank is not between 1 and 8") ∧
      (∀ n, algebraic_to_int s = .ok n → int_to_algebraic n = .ok s)) ∧
    (∀ n : Int,
      ((∃ s, int_to_algebraic n = .ok s) ↔ 0 ≤ n ∧ n < 64) ∧
      (∀ s, int_to_algebraic n = .ok s → algebraic_to_int s = .ok n)) := by
  constructor
  · intro s hs
    obtain ⟨c0, c1, hdata⟩ := List.length_eq_two.mp (show s.data.length = 2 from hs)
    obtain ⟨sd⟩ := s
    simp only at hdata
    subst hdata
    simp only [algebraic_to_int, List.getD, List.get?, Option.getD]
    refine ⟨?_, ?_, ?_, ?_⟩
    · constructor
      · rintro ⟨n, hn⟩
        split_ifs at hn with h1 h2
        constructor <;> omega
      · rintro ⟨⟨ha1, ha2⟩, ⟨hb1, hb2⟩⟩
        split_ifs with h1 h2
        · omega
        · omega
        · exact ⟨_, rfl⟩
    · intro h
      split_ifs with h1 h2
      · rfl
      · omega
      · omega
    · intro ha hb
      split_ifs with h1 h2
      · omega
      · rfl
      · omega
    · intro n hn
      split_ifs at hn with h1 h2
      have hinj : n = ((c1.toNat : Int) - 49) * 8 + ((c0.toNat : Int) - 97) := by
        injection hn with h
        omega
      have ha : 97 ≤ c0.toNat ∧ c0.toNat ≤ 104 := by omega
      have hb : 49 ≤ c1.toNat ∧ c1.toNat ≤ 56 := by omega
      have e0 : Char.ofNat (97 + ((c0.toNat : Nat) - 97)) = c0 := by
        rw [show 97 + ((c0.toNat : Nat) - 97) = c0.toNat by omega, Char.ofNat_toNat]
      have e1 : Char.ofNat (49 + ((c1.toNat : Nat) - 49)) = c1 := by
        rw [show 49 + ((c1.toNat : Nat) - 49) = c1.toNat by omega, Char.ofNat_toNat]
      have key : ∀ a b : Fin 8,
          int_to_algebraic ((b : Int) * 8 + (a : Int)) =
            .ok ⟨[Char.ofNat (97 + a), Char.ofNat (49 + b)]⟩ := by decide
      have := key ⟨c0.toNat - 97, by omega⟩ ⟨c1.toNat - 49, by omega⟩
      simp only [e0, e1] at this
      rw [show n = (((c1.toNat - 49 : Nat) : Int)) * 8 + ((c0.toNat - 97 : Nat) : Int) by omega]
      exact this
  · intro n
    constructor
    · constructor
      · rintro ⟨s, hsok⟩
        unfold int_to_algebraic at hsok
        split_ifs at hsok with h1
        omega
      · rintro ⟨h0, h64⟩
        unfold int_to_algebraic
        split_ifs with h1
        · omega
        · exact ⟨_, rfl⟩
    · intro s hsok
      have h64 : 0 ≤ n ∧ n < 64 := by
        by_contra hc
        unfold int_to_algebraic at hsok
        split_ifs at hsok with h1
        omega
      have hs : (int_to_algebraic n).toOption.getD "" = s := by
        rw [hsok]; rfl
      have := c9_aux_ok ⟨n.toNat, by omega⟩
      simp only [Fin.val_mk] at this
      rw [Int.toNat_of_nonneg h64.1] at this
      rw [hs] at this
      exact this

/-- C9 witness: the two conversions are inverse at `"e3"` / 20. -/
theorem c9_witness :
    int_to_algebraic 20 = .ok "e3" ∧ algebraic_to_int "e3" = .ok 20 :=
  ⟨(c9_algebraic_conversions.1 "e3" (by decide)).2.2.2 20 (by decide),
   (c9_algebraic_conversions.2 20).2 "e3" (by decide)⟩

/-- C10 failing input: a lone white pawn on a1 versus a lone white knight
on a1 — each position compares less than the other. -/
theorem c10_lt_not_asymmetric :
    Position.lt (Position.init.place_piece 0 W_PAWN)
      (Position.init.place_piece 0 W_KNIGHT) = true ∧
    Position.lt (Position.init.place_piece 0 W_KNIGHT)
      (Position.init.place_piece 0 W_PAWN) = true := by
  decide


def specific_kinds : List Piece :=
  [W_PAWN, W_KNIGHT, W_BISHOP, W_ROOK, W_QUEEN, W_KING,
   B_PAWN, B_KNIGHT, B_BISHOP, B_ROOK, B_QUEEN, B_KING]

theorem not_agg_of_specific {k : Piece} (hk : k ∈ specific_kinds) :
    k ≠ W_ALL ∧ k ≠ B_ALL ∧ k ≠ BOTH_ALL := by
  fin_cases hk <;> exact ⟨by decide, by decide, by decide⟩

theorem place_boards_self {p : Position} {sq : Nat} {k : Piece} (hk : k ∈ specific_kinds) :
    (p.place_piece sq k).boards k = p.boards k ||| (1 <<< sq) := by
  obtain ⟨h1, h2, h3⟩ := not_agg_of_specific hk
  by_cases hw : piece_is_white k <;>
    simp [Position.place_piece, Function.update_apply, hw, h1, h2, h3]

theorem place_boards_both {p : Position} {sq : Nat} {k : Piece} (hk : k ∈ specific_kinds) :
    (p.place_piece sq k).boards BOTH_ALL = p.boards BOTH_ALL ||| (1 <<< sq) := by
  obtain ⟨h1, h2, h3⟩ := not_agg_of_specific hk
  by_cases hw : piece_is_white k <;>
    simp [Position.place_piece, Function.update_apply, hw, Ne.symm h3,
      (by decide : (BOTH_ALL : Piece) ≠ W_ALL), (by decide : (BOTH_ALL : Piece) ≠ B_ALL)]

theorem place_boards_w_all_white {p : Position} {sq : Nat} {k : Piece}
    (hk : k ∈ specific_kinds) (hw : piece_is_white k = true) :
    (p.place_piece sq k).boards W_ALL = p.boards W_ALL ||| (1 <<< sq) := by
  obtain ⟨h1, h2, h3⟩ := not_agg_of_specific hk
  simp [Position.place_piece, Function.update_apply, hw, Ne.symm h1,
    (by decide : (W_ALL : Piece) ≠ BOTH_ALL)]

theorem place_boards_w_all_black {p : Position} {sq : Nat} {k : Piece}
    (hk : k ∈ specific_kinds) (hw : piece_is_white k = false) :
    (p.place_piece sq k).boards W_ALL = p.boards W_ALL := by
  obtain ⟨h1, h2, h3⟩ := not_agg_of_specific hk
  simp [Position.place_piece, Function.update_apply, hw, Ne.symm h1,
    (by decide : (W_ALL : Piece) ≠ BOTH_ALL), (by decide : (W_ALL : Piece) ≠ B_ALL)]

theorem place_boards_b_all_white {p : Position} {sq : Nat} {k : Piece}
    (hk : k ∈ specific_kinds) (hw : piece_is_white k = true) :
    (p.place_piece sq k).boards B_ALL = p.boards B_ALL := by
  obtain ⟨h1, h2, h3⟩ := not_agg_of_specific hk
  simp [Position.place_piece, Function.update_apply, hw, Ne.symm h2,
    (by decide : (B_ALL : Piece) ≠ BOTH_ALL), (by decide : (B_ALL : Piece) ≠ W_ALL)]

theorem place_boards_b_all_black {p : Position} {sq : Nat} {k : Piece}
    (hk : k ∈ specific_kinds) (hw : piece_is_white k = false) :
    (p.place_piece sq k).boards B_ALL = p.boards B_ALL ||| (1 <<< sq) := by
  obtain ⟨h1, h2, h3⟩ := not_agg_of_specific hk
  simp [Position.place_piece, Function.update_apply, hw, Ne.symm h2,
    (by decide : (B_ALL : Piece) ≠ BOTH_ALL)]

theorem place_boards_other {p : Position} {sq : Nat} {k : Piece} {j : Piece}
    (hjk : j ≠ k) (hj1 : j ≠ W_ALL) (hj2 : j ≠ B_ALL) (hj3 : j ≠ BOTH_ALL) :
    (p.place_piece sq k).boards j = p.boards j := by
  by_cases hw : piece_is_white k <;>
    simp [Position.place_piece, Function.update_apply, hw, hjk, hj1, hj2, hj3]

theorem place_sets {p : Position} {sq : Nat} {k : Piece} (j : Piece) :
    (p.place_piece sq k).piece_sets j =
      if j = k then insert sq (p.piece_sets k) else p.piece_sets j := by
  by_cases hw : piece_is_white k <;>
    simp [Position.place_piece, Function.update_apply, hw]

theorem remove_boards (p : Position) (sq : Nat) (k j : Piece) :
    (p.remove_piece sq k).boards j =
      if j = k ∨ j = W_ALL ∨ j = B_ALL ∨ j = BOTH_ALL
      then p.boards j &&& (mask64 ^^^ (1 <<< sq)) else p.boards j := by
  have idem : ∀ a m : Nat, a &&& m &&& m = a &&& m := by
    intro a m
    apply Nat.eq_of_testBit_eq
    intro i
    simp [Nat.testBit_and, Bool.and_assoc]
  simp only [Position.remove_piece, Function.update_apply]
  split_ifs <;> simp_all <;> simp_all [idem]

theorem remove_sets (p : Position) (sq : Nat) (k j : Piece) :
    (p.remove_piece sq k).piece_sets j =
      if j = k then (p.piece_sets k).erase sq else p.piece_sets j := by
  simp [Position.remove_piece, Function.update_apply]

/-- The white aggregate board as the OR of its constituents. -/
def white_or (p : Position) : Nat :=
  p.boards W_PAWN ||| p.boards W_KNIGHT ||| p.boards W_BISHOP |||
  p.boards W_ROOK ||| p.boards W_QUEEN ||| p.boards W_KING

def black_or (p : Position) : Nat :=
  p.boards B_PAWN ||| p.boards B_KNIGHT ||| p.boards B_BISHOP |||
  p.boards B_ROOK ||| p.boards B_QUEEN ||| p.boards B_KING

/-- The claimed `Position` invariant. -/
def Invariant (p : Position) : Prop :=
  (∀ k ∈ specific_kinds,
    p.piece_sets k = (Finset.range 64).filter (fun s => (p.boards k).testBit s)) ∧
  p.boards W_ALL = white_or p ∧
  p.boards B_ALL = black_or p ∧
  p.boards BOTH_ALL = p.boards W_ALL ||| p.boards B_ALL ∧
  (∀ k1 ∈ specific_kinds, ∀ k2 ∈ specific_kinds, k1 ≠ k2 →
    p.boards k1 &&& p.boards k2 = 0)

instance (p : Position) : Decidable (Invariant p) := by
  unfold Invariant; infer_instance

def Bounded (p : Position) : Prop := ∀ k, p.boards k < 2 ^ 64

instance (p : Position) : Decidable (Bounded p) := by
  unfold Bounded; infer_instance

/-- Well-formed en-passant data: when the flag is set the target square is
an empty square strictly inside the board (never on the back ranks, as any
target square produced by a double pawn push is). -/
def WFep (gs : GameState) : Prop :=
  gs.en_passant = true →
    8 ≤ gs.en_passant_target ∧ gs.en_passant_target < 56 ∧
    (gs.pos.boards BOTH_ALL).testBit gs.en_passant_target = false

instance (gs : GameState) : Decidable (WFep gs) := by
  unfold WFep; infer_instance

/-- At most one king of each color. -/
def KingsOK (p : Position) : Prop :=
  (p.piece_sets W_KING).card ≤ 1 ∧ (p.piece_sets B_KING).card ≤ 1

instance (p : Position) : Decidable (KingsOK p) := by
  unfold KingsOK; infer_instance

/-- No white pawn on rank 8, no black pawn on rank 1. -/
def PawnRanksOK (p : Position) : Prop :=
  (∀ s ∈ Finset.range 64, 56 ≤ s → (p.boards W_PAWN).testBit s = false) ∧
  (∀ s ∈ Finset.range 8, (p.boards B_PAWN).testBit s = false)

instance (p : Position) : Decidable (PawnRanksOK p) := by
  unfold PawnRanksOK; infer_instance

/-- All side conditions together. -/
def Good (gs : GameState) : Prop :=
  Invariant gs.pos ∧ Bounded gs.pos ∧ WFep gs ∧ KingsOK gs.pos ∧ PawnRanksOK gs.pos

instance (gs : GameState) : Decidable (Good gs) := by
  unfold Good; infer_instance

theorem good_init_test : Good GameState.init := by decide

theorem testBit_one_shiftLeft (sq s : Nat) : (1 <<< sq).testBit s = decide (s = sq) := by
  rw [Nat.one_shiftLeft, Nat.testBit_two_pow]
  by_cases h : sq = s <;> simp [h, Ne.symm, eq_comm]

theorem and_zero_of_bits {a b : Nat} (h : ∀ i, a.testBit i = true → b.testBit i = false) :
    a &&& b = 0 := by
  apply Nat.eq_of_testBit_eq
  intro i
  simp only [Nat.testBit_and, Nat.zero_testBit]
  cases ha : a.testBit i
  · simp
  · simp [h i ha]

theorem bits_of_and_zero {a b : Nat} (h : a &&& b = 0) {i : Nat}
    (ha : a.testBit i = true) : b.testBit i = false := by
  cases hb : b.testBit i
  · rfl
  · exfalso
    have hab : (a &&& b).testBit i = true := by simp [Nat.testBit_and, ha, hb]
    rw [h] at hab
    simp at hab

theorem shiftLeft_bit_aux (sq i : Nat) :
    (decide (sq ≤ i) && Nat.testBit 1 (i - sq)) = decide (i = sq) := by
  have h1 : Nat.testBit 1 (i - sq) = decide (0 = i - sq) := by
    rw [show (1 : Nat) = 2 ^ 0 by norm_num, Nat.testBit_two_pow]
  rw [h1]
  by_cases h : sq ≤ i
  · by_cases h2 : i = sq <;> simp [h, h2] <;> omega
  · simp [h]
    omega

theorem testBit_false_of_bounded {a : Nat} (ha : a < 2 ^ 64) {s : Nat} (h : 64 ≤ s) :
    a.testBit s = false :=
  Nat.testBit_eq_false_of_lt (lt_of_lt_of_le ha (Nat.pow_le_pow_right (by omega) h))

theorem lt_of_testBit_true {a s : Nat} (ha : a < 2 ^ 64) (h : a.testBit s = true) :
    s < 64 := by
  by_contra hc
  rw [testBit_false_of_bounded ha (by omega)] at h
  exact Bool.false_ne_true h

theorem lor_lt_64 {a b : Nat} (ha : a < 2 ^ 64) (hb : b < 2 ^ 64) : a ||| b < 2 ^ 64 :=
  Nat.bitwise_lt_two_pow ha hb

theorem and_lt_64 {a b : Nat} (ha : a < 2 ^ 64) : a &&& b < 2 ^ 64 :=
  lt_of_le_of_lt Nat.and_le_left ha

/-- Bit-level description of `place_piece`. -/
theorem place_testBit {p : Position} {sq : Nat} {k : Piece} (hk : k ∈ specific_kinds)
    (j : Piece) (i : Nat) :
    ((p.place_piece sq k).boards j).testBit i =
      ((p.boards j).testBit i ||
        (decide (i = sq) &&
          (decide (j = k) || decide (j = BOTH_ALL) ||
           (piece_is_white k && decide (j = W_ALL)) ||
           (!piece_is_white k && decide (j = B_ALL))))) := by
  obtain ⟨h1, h2, h3⟩ := not_agg_of_specific hk
  by_cases hw : piece_is_white k
  · by_cases hjk : j = k
    · subst hjk
      simp [place_boards_self hk, Nat.testBit_lor, testBit_one_shiftLeft, shiftLeft_bit_aux, shiftLeft_bit_aux]
    · by_cases hj1 : j = W_ALL
      · subst hj1
        simp [place_boards_w_all_white hk hw, Nat.testBit_lor, testBit_one_shiftLeft, shiftLeft_bit_aux,
          hw, Ne.symm h1]
      · by_cases hj3 : j = BOTH_ALL
        · subst hj3
          simp [place_boards_both hk, Nat.testBit_lor, testBit_one_shiftLeft, shiftLeft_bit_aux, Ne.symm h3,
            (by decide : (BOTH_ALL : Piece) ≠ W_ALL), (by decide : (BOTH_ALL : Piece) ≠ B_ALL)]
        · by_cases hj2 : j = B_ALL
          · subst hj2
            simp [place_boards_b_all_white hk hw, hw, Ne.symm h2,
              (by decide : (B_ALL : Piece) ≠ BOTH_ALL), (by decide : (B_ALL : Piece) ≠ W_ALL)]
          · simp [place_boards_other hjk hj1 hj2 hj3, hjk, hj1, hj2, hj3]
  · by_cases hjk : j = k
    · subst hjk
      simp [place_boards_self hk, Nat.testBit_lor, testBit_one_shiftLeft, shiftLeft_bit_aux, shiftLeft_bit_aux]
    · by_cases hj2 : j = B_ALL
      · subst hj2
        simp [place_boards_b_all_black hk (Bool.not_eq_true _ ▸ hw), Nat.testBit_lor,
          testBit_one_shiftLeft, shiftLeft_bit_aux, hw, Ne.symm h2]
      · by_cases hj3 : j = BOTH_ALL
        · subst hj3
          simp [place_boards_both hk, Nat.testBit_lor, testBit_one_shiftLeft, shiftLeft_bit_aux, Ne.symm h3,
            (by decide : (BOTH_ALL : Piece) ≠ W_ALL), (by decide : (BOTH_ALL : Piece) ≠ B_ALL)]
        · by_cases hj1 : j = W_ALL
          · subst hj1
            simp [place_boards_w_all_black hk (Bool.not_eq_true _ ▸ hw), hw, Ne.symm h1,
              (by decide : (W_ALL : Piece) ≠ BOTH_ALL), (by decide : (W_ALL : Piece) ≠ B_ALL)]
          · simp [place_boards_other hjk hj1 hj2 hj3, hjk, hj1, hj2, hj3]

/-- Bit-level description of `remove_piece`, on the 64-bit range. -/
theorem remove_testBit (p : Position) (sq : Nat) (k j : Piece) {i : Nat} (hi : i < 64) :
    ((p.remove_piece sq k).boards j).testBit i =
      ((p.boards j).testBit i &&
        !(decide (i = sq) &&
          (decide (j = k) || decide (j = W_ALL) || decide (j = B_ALL) ||
           decide (j = BOTH_ALL)))) := by
  rw [remove_boards]
  split_ifs with h
  · have hmask : ∀ t : Nat, t < 64 →
        (mask64 ^^^ (1 <<< sq)).testBit t = !decide (t = sq) := by
      intro t ht
      rw [Nat.testBit_xor, show mask64 = 2 ^ 64 - 1 from rfl, Nat.testBit_two_pow_sub_one,
        testBit_one_shiftLeft]
      simp [ht]
    rcases h with h | h | h | h <;> subst h <;>
        simp only [Nat.testBit_and, hmask i hi] <;> simp [Bool.and_assoc]
  · push_neg at h
    obtain ⟨n1, n2, n3, n4⟩ := h
    simp [n1, n2, n3, n4]

theorem both_or_bits {p : Position} (hI : Invariant p) (s : Nat) :
    (p.boards BOTH_ALL).testBit s =
      ((p.boards W_PAWN).testBit s || (p.boards W_KNIGHT).testBit s ||
       (p.boards W_BISHOP).testBit s || (p.boards W_ROOK).testBit s ||
       (p.boards W_QUEEN).testBit s || (p.boards W_KING).testBit s ||
       (p.boards B_PAWN).testBit s || (p.boards B_KNIGHT).testBit s ||
       (p.boards B_BISHOP).testBit s || (p.boards B_ROOK).testBit s ||
       (p.boards B_QUEEN).testBit s || (p.boards B_KING).testBit s) := by
  obtain ⟨-, hw, hb, hboth, -⟩ := hI
  rw [hboth, hw, hb]
  simp [white_or, black_or, Nat.testBit_lor, Bool.or_assoc]

theorem empty_specific {p : Position} (hI : Invariant p) {s : Nat}
    (h : (p.boards BOTH_ALL).testBit s = false) {k : Piece}
    (hk : k ∈ specific_kinds) : (p.boards k).testBit s = false := by
  rw [both_or_bits hI s] at h
  simp only [Bool.or_eq_false_iff] at h
  fin_cases hk <;> tauto

theorem specific_both {p : Position} (hI : Invariant p) {k : Piece}
    (hk : k ∈ specific_kinds) {s : Nat} (h : (p.boards k).testBit s = true) :
    (p.boards BOTH_ALL).testBit s = true := by
  rw [both_or_bits hI s]
  fin_cases hk <;> simp_all

theorem disjoint_at {p : Position} (hI : Invariant p) {k1 k2 : Piece}
    (h1 : k1 ∈ specific_kinds) (h2 : k2 ∈ specific_kinds) {s : Nat}
    (b1 : (p.boards k1).testBit s = true) (b2 : (p.boards k2).testBit s = true) :
    k1 = k2 := by
  by_contra hne
  have h0 := hI.2.2.2.2 k1 h1 k2 h2 hne
  have := bits_of_and_zero h0 b1
  rw [b2] at this
  simp at this

theorem white_iff {k : Piece} (hk : k ∈ specific_kinds) :
    piece_is_white k = true ↔
      (W_PAWN = k ∨ W_KNIGHT = k ∨ W_BISHOP = k ∨ W_ROOK = k ∨ W_QUEEN = k ∨
       W_KING = k) := by
  fin_cases hk <;> decide

theorem black_iff {k : Piece} (hk : k ∈ specific_kinds) :
    piece_is_white k = false ↔
      (B_PAWN = k ∨ B_KNIGHT = k ∨ B_BISHOP = k ∨ B_ROOK = k ∨ B_QUEEN = k ∨
       B_KING = k) := by
  fin_cases hk <;> decide

theorem lt64_of_bits {a : Nat} (h : ∀ i, 64 ≤ i → a.testBit i = false) :
    a < 2 ^ 64 := by
  apply Nat.lt_of_testBit 64 (h 64 le_rfl)
  · rw [Nat.testBit_two_pow]
    simp
  · intro j hj
    rw [h j (by omega), Nat.testBit_two_pow]
    simp
    omega

theorem mem_sets_iff {p : Position} (hI : Invariant p) {k : Piece}
    (hk : k ∈ specific_kinds) (s : Nat) :
    s ∈ p.piece_sets k ↔ s < 64 ∧ (p.boards k).testBit s = true := by
  rw [hI.1 k hk]
  simp [Finset.mem_filter, Finset.mem_range]

theorem white_disj_bool {k : Piece} (hk : k ∈ specific_kinds) :
    (decide (W_PAWN = k) || decide (W_KNIGHT = k) || decide (W_BISHOP = k) ||
     decide (W_ROOK = k) || decide (W_QUEEN = k) || decide (W_KING = k)) =
      piece_is_white k := by
  fin_cases hk <;> decide

theorem black_conj_bool {k : Piece} (hk : k ∈ specific_kinds) :
    (!decide (B_PAWN = k) && !decide (B_KNIGHT = k) && !decide (B_BISHOP = k) &&
     !decide (B_ROOK = k) && !decide (B_QUEEN = k) && !decide (B_KING = k)) =
      piece_is_white k := by
  fin_cases hk <;> decide

set_option maxHeartbeats 1000000 in
theorem place_inv {p : Position} {sq : Nat} {k : Piece}
    (hI : Invariant p) (hB : Bounded p) (hk : k ∈ specific_kinds)
    (hsq : sq < 64) (hemp : (p.boards BOTH_ALL).testBit sq = false) :
    Invariant (p.place_piece sq k) ∧ Bounded (p.place_piece sq k) := by
  have hIc := hI
  obtain ⟨hsets, hw, hb, hboth, hdis⟩ := hIc
  refine ⟨⟨?_, ?_, ?_, ?_, ?_⟩, ?_⟩
  · -- piece sets
    intro j hj
    rw [place_sets]
    by_cases hjk : j = k
    · subst hjk
      rw [if_pos rfl, hsets j hj]
      ext s
      simp only [Finset.mem_insert, Finset.mem_filter, Finset.mem_range,
        place_testBit hk]
      by_cases hs : s = sq
      · subst hs
        simp [hsq]
      · simp [hs]
    · rw [if_neg hjk, hsets j hj]
      obtain ⟨a1, a2, a3⟩ := not_agg_of_specific hj
      ext s
      simp [Finset.mem_filter, Finset.mem_range, place_testBit hk, hjk, a1, a2, a3]
  · -- white aggregate
    have hWBf : (p.boards W_ALL).testBit sq = false ∧ (p.boards B_ALL).testBit sq = false := by
      have h0 : (p.boards W_ALL ||| p.boards B_ALL).testBit sq = false := by
        rw [← hboth]; exact hemp
      rw [Nat.testBit_lor] at h0
      exact Bool.or_eq_false_iff.mp h0
    have eS : ∀ j ∈ specific_kinds, (p.boards j).testBit sq = false :=
      fun j hj => empty_specific hI hemp hj
    obtain ⟨h1, h2, h3⟩ := not_agg_of_specific hk
    apply Nat.eq_of_testBit_eq
    intro i
    have hwi : (p.boards W_ALL).testBit i = (white_or p).testBit i := by rw [hw]
    simp only [white_or, Nat.testBit_lor] at hwi
    by_cases his : i = sq
    · subst his
      simp only [white_or, Nat.testBit_lor, place_testBit hk]
      simp +decide [hWBf.1, eS W_PAWN (by decide), eS W_KNIGHT (by decide),
        eS W_BISHOP (by decide), eS W_ROOK (by decide), eS W_QUEEN (by decide),
        eS W_KING (by decide), Ne.symm h1, Ne.symm h2, Ne.symm h3]
      exact (white_disj_bool hk).symm
    · simp [white_or, Nat.testBit_lor, place_testBit hk, his, hwi]
  · -- black aggregate
    have hWBf : (p.boards W_ALL).testBit sq = false ∧ (p.boards B_ALL).testBit sq = false := by
      have h0 : (p.boards W_ALL ||| p.boards B_ALL).testBit sq = false := by
        rw [← hboth]; exact hemp
      rw [Nat.testBit_lor] at h0
      exact Bool.or_eq_false_iff.mp h0
    have eS : ∀ j ∈ specific_kinds, (p.boards j).testBit sq = false :=
      fun j hj => empty_specific hI hemp hj
    obtain ⟨h1, h2, h3⟩ := not_agg_of_specific hk
    apply Nat.eq_of_testBit_eq
    intro i
    have hbi : (p.boards B_ALL).testBit i = (black_or p).testBit i := by rw [hb]
    simp only [black_or, Nat.testBit_lor] at hbi
    by_cases his : i = sq
    · subst his
      simp only [black_or, Nat.testBit_lor, place_testBit hk]
      simp +decide [hWBf.2, eS B_PAWN (by decide), eS B_KNIGHT (by decide),
        eS B_BISHOP (by decide), eS B_ROOK (by decide), eS B_QUEEN (by decide),
        eS B_KING (by decide), Ne.symm h1, Ne.symm h2, Ne.symm h3]
      exact (black_conj_bool hk).symm
    · simp [black_or, Nat.testBit_lor, place_testBit hk, his, hbi]
  · -- both aggregate
    obtain ⟨h1, h2, h3⟩ := not_agg_of_specific hk
    apply Nat.eq_of_testBit_eq
    intro i
    have hboti : (p.boards BOTH_ALL).testBit i =
        ((p.boards W_ALL).testBit i || (p.boards B_ALL).testBit i) := by
      rw [hboth, Nat.testBit_lor]
    by_cases his : i = sq
    · subst his
      simp only [Nat.testBit_lor, place_testBit hk]
      simp +decide [hboti, Ne.symm h1, Ne.symm h2, Ne.symm h3]
      rcases Bool.eq_false_or_eq_true (piece_is_white k) with hc | hc
      · exact Or.inl (Or.inr hc)
      · exact Or.inr (Or.inr hc)
    · simp [Nat.testBit_lor, place_testBit hk, his, hboti]
  · -- disjointness
    intro k1 hk1 k2 hk2 hne
    apply and_zero_of_bits
    intro i h1bit
    by_cases hik : i = sq
    · subst hik
      have e1 := empty_specific hI hemp hk1
      have e2 := empty_specific hI hemp hk2
      obtain ⟨b1, b2, b3⟩ := not_agg_of_specific hk1
      obtain ⟨c1, c2, c3⟩ := not_agg_of_specific hk2
      rw [place_testBit hk] at h1bit ⊢
      simp [e1, b1, b2, b3] at h1bit
      simp [e2, c1, c2, c3]
      intro hc
      exact hne (h1bit.trans hc.symm)
    · rw [place_testBit hk] at h1bit ⊢
      simp [hik] at h1bit ⊢
      exact bits_of_and_zero (hdis k1 hk1 k2 hk2 hne) h1bit
  · -- bounded
    intro j
    apply lt64_of_bits
    intro i hi
    rw [place_testBit hk]
    have : (p.boards j).testBit i = false := testBit_false_of_bounded (hB j) hi
    simp [this, show ¬ i = sq by omega]

theorem mask_bit (sq : Nat) {t : Nat} (ht : t < 64) :
    (mask64 ^^^ (1 <<< sq)).testBit t = !decide (t = sq) := by
  rw [Nat.testBit_xor, show mask64 = 2 ^ 64 - 1 from rfl, Nat.testBit_two_pow_sub_one,
    testBit_one_shiftLeft]
  simp [ht]

theorem and_mask_noop {a sq : Nat} (ha : a < 2 ^ 64) (h : a.testBit sq = false) :
    a &&& (mask64 ^^^ (1 <<< sq)) = a := by
  apply Nat.eq_of_testBit_eq
  intro i
  by_cases hi : i < 64
  · rw [Nat.testBit_and, mask_bit sq hi]
    by_cases his : i = sq
    · subst his
      simp [h]
    · simp [his]
  · rw [Nat.testBit_and, testBit_false_of_bounded ha (by omega)]
    simp

theorem position_eq {p q : Position} (hb : p.boards = q.boards)
    (hs : p.piece_sets = q.piece_sets) : p = q := by
  cases p
  cases q
  simp_all

/-- Removing from a completely empty square is a no-op. -/
theorem remove_noop {p : Position} {sq : Nat} {k : Piece}
    (hI : Invariant p) (hB : Bounded p) (hk : k ∈ specific_kinds)
    (hemp : (p.boards BOTH_ALL).testBit sq = false) :
    p.remove_piece sq k = p := by
  obtain ⟨hsets, hw, hb, hboth, hdis⟩ := hI
  have hWBf : (p.boards W_ALL).testBit sq = false ∧ (p.boards B_ALL).testBit sq = false := by
    have h0 : (p.boards W_ALL ||| p.boards B_ALL).testBit sq = false := by
      rw [← hboth]; exact hemp
    rw [Nat.testBit_lor] at h0
    exact Bool.or_eq_false_iff.mp h0
  have hke : (p.boards k).testBit sq = false :=
    empty_specific ⟨hsets, hw, hb, hboth, hdis⟩ hemp hk
  apply position_eq
  · funext j
    rw [remove_boards]
    split_ifs with h
    · rcases h with h | h | h | h <;> subst h
      · exact and_mask_noop (hB _) hke
      · exact and_mask_noop (hB _) hWBf.1
      · exact and_mask_noop (hB _) hWBf.2
      · exact and_mask_noop (hB _) hemp
    · rfl
  · funext j
    rw [remove_sets]
    split_ifs with h
    · subst h
      apply Finset.erase_eq_of_not_mem
      rw [mem_sets_iff ⟨hsets, hw, hb, hboth, hdis⟩ hk]
      simp [hke]
    · rfl

theorem remove_testBit_high {p : Position} (hB : Bounded p) (sq : Nat) (k j : Piece)
    {i : Nat} (hi : 64 ≤ i) : ((p.remove_piece sq k).boards j).testBit i = false := by
  rw [remove_boards]
  split_ifs
  · rw [Nat.testBit_and, testBit_false_of_bounded (hB j) hi]
    simp
  · exact testBit_false_of_bounded (hB j) hi

set_option maxHeartbeats 1000000 in
theorem remove_inv {p : Position} {sq : Nat} {k : Piece}
    (hI : Invariant p) (hB : Bounded p) (hk : k ∈ specific_kinds)
    (hpres : (p.boards k).testBit sq = true) :
    Invariant (p.remove_piece sq k) ∧ Bounded (p.remove_piece sq k) := by
  have hIc := hI
  obtain ⟨hsets, hw, hb, hboth, hdis⟩ := hIc
  have hsq : sq < 64 := lt_of_testBit_true (hB k) hpres
  obtain ⟨a1, a2, a3⟩ := not_agg_of_specific hk
  have dj : ∀ j ∈ specific_kinds, j ≠ k → (p.boards j).testBit sq = false := by
    intro j hj hne
    exact bits_of_and_zero (hdis k hk j hj (fun h => hne h.symm)) hpres
  refine ⟨⟨?_, ?_, ?_, ?_, ?_⟩, ?_⟩
  · -- piece sets
    intro j hj
    rw [remove_sets]
    by_cases hjk : j = k
    · subst hjk
      rw [if_pos rfl, hsets j hj]
      ext s
      by_cases h64 : s < 64
      · simp only [Finset.mem_erase, Finset.mem_filter, Finset.mem_range,
          remove_testBit p sq j j h64]
        by_cases hs : s = sq <;> simp [hs, h64]
      · simp [Finset.mem_erase, Finset.mem_filter, Finset.mem_range, h64]
    · rw [if_neg hjk, hsets j hj]
      obtain ⟨b1, b2, b3⟩ := not_agg_of_specific hj
      ext s
      by_cases h64 : s < 64
      · simp [Finset.mem_filter, Finset.mem_range, remove_testBit p sq k j h64,
          hjk, b1, b2, b3]
      · simp [Finset.mem_filter, Finset.mem_range, h64]
  · -- white aggregate
    apply Nat.eq_of_testBit_eq
    intro i
    by_cases h64 : i < 64
    · have hwi : (p.boards W_ALL).testBit i = (white_or p).testBit i := by rw [hw]
      simp only [white_or, Nat.testBit_lor] at hwi
      by_cases his : i = sq
      · subst his
        simp only [white_or, Nat.testBit_lor, remove_testBit p _ k _ h64]
        simp +decide
        refine ⟨⟨⟨⟨⟨?_, ?_⟩, ?_⟩, ?_⟩, ?_⟩, ?_⟩ <;>
          (intro hbit; by_contra hne; rw [dj _ (by decide) hne] at hbit;
            exact absurd hbit (by simp))
      · simp [white_or, Nat.testBit_lor, remove_testBit p sq k _ h64, his, hwi]
    · rw [remove_testBit_high hB sq k _ (by omega)]
      simp only [white_or, Nat.testBit_lor]
      simp [remove_testBit_high hB sq k _ (show 64 ≤ i by omega)]
  · -- black aggregate
    apply Nat.eq_of_testBit_eq
    intro i
    by_cases h64 : i < 64
    · have hbi : (p.boards B_ALL).testBit i = (black_or p).testBit i := by rw [hb]
      simp only [black_or, Nat.testBit_lor] at hbi
      by_cases his : i = sq
      · subst his
        simp only [black_or, Nat.testBit_lor, remove_testBit p _ k _ h64]
        simp +decide
        refine ⟨⟨⟨⟨⟨?_, ?_⟩, ?_⟩, ?_⟩, ?_⟩, ?_⟩ <;>
          (intro hbit; by_contra hne; rw [dj _ (by decide) hne] at hbit;
            exact absurd hbit (by simp))
      · simp [black_or, Nat.testBit_lor, remove_testBit p sq k _ h64, his, hbi]
    · rw [remove_testBit_high hB sq k _ (by omega)]
      simp only [black_or, Nat.testBit_lor]
      simp [remove_testBit_high hB sq k _ (show 64 ≤ i by omega)]
  · -- both aggregate
    apply Nat.eq_of_testBit_eq
    intro i
    by_cases h64 : i < 64
    · have hboti : (p.boards BOTH_ALL).testBit i =
          ((p.boards W_ALL).testBit i || (p.boards B_ALL).testBit i) := by
        rw [hboth, Nat.testBit_lor]
      by_cases his : i = sq
      · subst his
        simp only [Nat.testBit_lor, remove_testBit p _ k _ h64]
        simp +decide
      · simp [Nat.testBit_lor, remove_testBit p sq k _ h64, his, hboti]
    · rw [remove_testBit_high hB sq k _ (by omega), Nat.testBit_lor]
      simp [remove_testBit_high hB sq k _ (show 64 ≤ i by omega)]
  · -- disjointness
    intro k1 hk1 k2 hk2 hne
    apply and_zero_of_bits
    intro i h1bit
    by_cases h64 : i < 64
    · rw [remove_testBit p sq k _ h64] at h1bit
      rw [remove_testBit p sq k _ h64]
      have h1old : (p.boards k1).testBit i = true := by
        cases hx : (p.boards k1).testBit i
        · rw [hx] at h1bit
          simp at h1bit
        · rfl
      rw [bits_of_and_zero (hdis k1 hk1 k2 hk2 hne) h1old]
      simp
    · rw [remove_testBit_high hB sq k _ (by omega)] at h1bit
      simp at h1bit
  · -- bounded
    intro j
    rw [remove_boards]
    split_ifs
    · exact and_lt_64 (hB j)
    · exact hB j

theorem and_idem_mask (x m : Nat) : x &&& m &&& m = x &&& m := by
  apply Nat.eq_of_testBit_eq
  intro i
  simp [Nat.testBit_and, Bool.and_assoc]

theorem clear_fold_boards (l : List Piece) (p : Position) (cs : Nat) (j : Piece) :
    ((l.foldl (fun q i => q.remove_piece cs i) p).boards j) =
      if j ∈ l ∨ ((j = W_ALL ∨ j = B_ALL ∨ j = BOTH_ALL) ∧ l ≠ []) then
        p.boards j &&& (mask64 ^^^ (1 <<< cs))
      else p.boards j := by
  induction l generalizing p with
  | nil => simp
  | cons a l ih =>
    rw [List.foldl_cons, ih]
    by_cases hagg : j = W_ALL ∨ j = B_ALL ∨ j = BOTH_ALL
    · by_cases hl : l = []
      · subst hl
        rw [if_neg (by simp), remove_boards, if_pos (Or.inr hagg),
          if_pos (Or.inr ⟨hagg, by simp⟩)]
      · rw [if_pos (Or.inr ⟨hagg, hl⟩), remove_boards, if_pos (Or.inr hagg),
          and_idem_mask, if_pos (Or.inr ⟨hagg, by simp⟩)]
    · by_cases hja : j = a
      · subst hja
        by_cases hjl : j ∈ l
        · rw [if_pos (Or.inl hjl), remove_boards, if_pos (Or.inl rfl), and_idem_mask,
            if_pos (Or.inl (List.mem_cons_self j l))]
        · rw [if_neg (by tauto), remove_boards, if_pos (Or.inl rfl),
            if_pos (Or.inl (List.mem_cons_self j l))]
      · have hrb : (p.remove_piece cs a).boards j = p.boards j := by
          rw [remove_boards, if_neg (by tauto)]
        rw [hrb]
        by_cases hjl : j ∈ l
        · rw [if_pos (Or.inl hjl), if_pos (Or.inl (List.mem_cons_of_mem a hjl))]
        · rw [if_neg (by tauto), if_neg (by simp only [List.mem_cons]; tauto)]

theorem clear_fold_sets (l : List Piece) (p : Position) (cs : Nat) (j : Piece) :
    ((l.foldl (fun q i => q.remove_piece cs i) p).piece_sets j) =
      if j ∈ l then (p.piece_sets j).erase cs else p.piece_sets j := by
  induction l generalizing p with
  | nil => simp
  | cons a l ih =>
    rw [List.foldl_cons, ih]
    by_cases hja : j = a
    · subst hja
      rw [if_pos (List.mem_cons_self j l)]
      by_cases hjl : j ∈ l
      · rw [if_pos hjl, remove_sets, if_pos rfl, Finset.erase_idem]
      · rw [if_neg hjl, remove_sets, if_pos rfl]
    · have hrs : (p.remove_piece cs a).piece_sets j = p.piece_sets j := by
        rw [remove_sets, if_neg hja]
      rw [hrs]
      by_cases hjl : j ∈ l
      · rw [if_pos hjl, if_pos (List.mem_cons_of_mem a hjl)]
      · rw [if_neg hjl, if_neg (by simp [hjl, hja])]

theorem lor_and_distrib (a b c : Nat) : (a ||| b) &&& c = (a &&& c) ||| (b &&& c) := by
  apply Nat.eq_of_testBit_eq
  intro i
  simp only [Nat.testBit_and, Nat.testBit_lor]
  cases c.testBit i <;> simp

/-- The capture branch of `Position::make_move`: remove every kind at the
captured square. -/
def Position.clear_square (p : Position) (cs : Nat) : Position :=
  (List.finRange 15).foldl (fun q i => q.remove_piece cs i) p

theorem clear_square_boards (p : Position) (cs : Nat) (j : Piece) :
    (p.clear_square cs).boards j = p.boards j &&& (mask64 ^^^ (1 <<< cs)) := by
  rw [Position.clear_square, clear_fold_boards, if_pos (Or.inl (List.mem_finRange j))]

theorem clear_square_sets (p : Position) (cs : Nat) (j : Piece) :
    (p.clear_square cs).piece_sets j = (p.piece_sets j).erase cs := by
  rw [Position.clear_square, clear_fold_sets, if_pos (List.mem_finRange j)]

theorem clear_square_inv {p : Position} (hI : Invariant p) (hB : Bounded p)
    (cs : Nat) : Invariant (p.clear_square cs) ∧ Bounded (p.clear_square cs) := by
  obtain ⟨hsets, hw, hb, hboth, hdis⟩ := hI
  refine ⟨⟨?_, ?_, ?_, ?_, ?_⟩, ?_⟩
  · intro j hj
    rw [clear_square_sets, hsets j hj]
    ext s
    by_cases h64 : s < 64
    · simp only [Finset.mem_erase, Finset.mem_filter, Finset.mem_range,
        clear_square_boards, Nat.testBit_and, mask_bit cs h64]
      by_cases hs : s = cs <;> simp [hs, h64]
    · simp [Finset.mem_erase, Finset.mem_filter, Finset.mem_range, h64]
  · rw [clear_square_boards, hw]
    simp only [white_or, clear_square_boards, lor_and_distrib]
  · rw [clear_square_boards, hb]
    simp only [black_or, clear_square_boards, lor_and_distrib]
  · rw [clear_square_boards, hboth]
    simp only [clear_square_boards, lor_and_distrib]
  · intro k1 hk1 k2 hk2 hne
    apply and_zero_of_bits
    intro i h1bit
    rw [clear_square_boards, Nat.testBit_and] at h1bit
    rw [clear_square_boards, Nat.testBit_and]
    have h1old : (p.boards k1).testBit i = true := by
      cases hx : (p.boards k1).testBit i
      · rw [hx] at h1bit
        simp at h1bit
      · rfl
    rw [bits_of_and_zero (hdis k1 hk1 k2 hk2 hne) h1old]
    simp
  · intro j
    rw [clear_square_boards]
    exact and_lt_64 (hB j)

/-- The piece kind `Position::make_move` places on the destination square. -/
def placed_kind (m : Move) : Piece :=
  if m.promote_knight then (if m.piece = W_PAWN then W_KNIGHT else B_KNIGHT)
  else if m.promote_bishop then (if m.piece = W_PAWN then W_BISHOP else B_BISHOP)
  else if m.promote_rook then (if m.piece = W_PAWN then W_ROOK else B_ROOK)
  else if m.promote_queen then (if m.piece = W_PAWN then W_QUEEN else B_QUEEN)
  else m.piece

set_option maxHeartbeats 1600000 in
/-- `Position::make_move` as a composition of the stage operations. -/
theorem make_move_eq (p : Position) (m : Move) :
    p.make_move m =
      (let p1 := if m.capture then
          p.clear_square
            (if m.capture_ep then
              (if m.piece = W_PAWN then m.to_sq - 8 else m.to_sq + 8)
             else m.to_sq)
        else p
       let p2 := p1.remove_piece m.from_sq m.piece
       let p3 := p2.place_piece m.to_sq (placed_kind m)
       if m.castle_queenside then
         (if m.piece = W_KING then (p3.remove_piece 0 W_ROOK).place_piece 3 W_ROOK
          else (p3.remove_piece 56 B_ROOK).place_piece 59 B_ROOK)
       else if m.castle_kingside then
         (if m.piece = W_KING then (p3.remove_piece 7 W_ROOK).place_piece 5 W_ROOK
          else (p3.remove_piece 63 B_ROOK).place_piece 61 B_ROOK)
       else p3) := by
  unfold Position.make_move placed_kind Position.clear_square
  by_cases h1 : m.promote_knight <;> by_cases h2 : m.promote_bishop <;>
    by_cases h3 : m.promote_rook <;> by_cases h4 : m.promote_queen <;>
    simp [h1, h2, h3, h4]

theorem capture_of_ep {m : Move} (h : m.capture_ep = true) : m.capture = true := by
  rw [Move.capture_ep, beq_iff_eq] at h
  rw [Move.capture, h]
  decide

theorem castleq_flags {m : Move} (h : m.castle_queenside = true) :
    m.flags = QUEEN_CASTLE := by
  rwa [Move.castle_queenside, beq_iff_eq] at h

theorem castlek_flags {m : Move} (h : m.castle_kingside = true) :
    m.flags = KING_CASTLE := by
  rwa [Move.castle_kingside, beq_iff_eq] at h

theorem castleq_not_capture {m : Move} (h : m.castle_queenside = true) :
    m.capture = false := by
  rw [Move.capture, castleq_flags h]
  decide

theorem castlek_not_capture {m : Move} (h : m.castle_kingside = true) :
    m.capture = false := by
  rw [Move.capture, castlek_flags h]
  decide

theorem placed_kind_castleq {m : Move} (h : m.castle_queenside = true) :
    placed_kind m = m.piece := by
  have hf := castleq_flags h
  rw [placed_kind, Move.promote_knight, Move.promote_bishop, Move.promote_rook,
    Move.promote_queen, hf]
  simp [QUEEN_CASTLE, PROMOTE_KNIGHT, PROMOTE_KNIGHT_CAPTURE, PROMOTE_BISHOP,
    PROMOTE_BISHOP_CAPTURE, PROMOTE_ROOK, PROMOTE_ROOK_CAPTURE, PROMOTE_QUEEN,
    PROMOTE_QUEEN_CAPTURE]

theorem remove_bit_false {p : Position} {sq : Nat} {k j : Piece} {t : Nat}
    (h : (p.boards j).testBit t = false) :
    ((p.remove_piece sq k).boards j).testBit t = false := by
  rw [remove_boards]
  split_ifs
  · rw [Nat.testBit_and, h]
    simp
  · exact h

theorem clear_bit_false {p : Position} {cs : Nat} {j : Piece} {t : Nat}
    (h : (p.boards j).testBit t = false) :
    ((p.clear_square cs).boards j).testBit t = false := by
  rw [clear_square_boards, Nat.testBit_and, h]
  simp

theorem clear_bit_self {p : Position} (hB : Bounded p) (cs : Nat) (j : Piece) :
    ((p.clear_square cs).boards j).testBit cs = false := by
  by_cases h64 : cs < 64
  · rw [clear_square_boards, Nat.testBit_and, mask_bit cs h64]
    simp
  · rw [clear_square_boards, Nat.testBit_and,
      testBit_false_of_bounded (hB j) (by omega)]
    simp

theorem clear_bit_other {p : Position} {cs t : Nat} (hne : t ≠ cs) (ht : t < 64)
    (j : Piece) :
    ((p.clear_square cs).boards j).testBit t = (p.boards j).testBit t := by
  rw [clear_square_boards, Nat.testBit_and, mask_bit cs ht]
  simp [hne]

theorem remove_bit_untouched {p : Position} {sq : Nat} {k j : Piece}
    (hjk : j ≠ k) (h1 : j ≠ W_ALL) (h2 : j ≠ B_ALL) (h3 : j ≠ BOTH_ALL) (t : Nat) :
    ((p.remove_piece sq k).boards j).testBit t = (p.boards j).testBit t := by
  rw [remove_boards, if_neg (by tauto)]

/-- Removing a piece that is present, or removing anything from an empty
square, keeps the invariant. -/
theorem remove_pres {p : Position} {sq : Nat} {k : Piece}
    (hI : Invariant p) (hB : Bounded p) (hk : k ∈ specific_kinds)
    (hpre : (p.boards k).testBit sq = true ∨ (p.boards BOTH_ALL).testBit sq = false) :
    Invariant (p.remove_piece sq k) ∧ Bounded (p.remove_piece sq k) := by
  rcases hpre with h | h
  · exact remove_inv hI hB hk h
  · rw [remove_noop hI hB hk h]
    exact ⟨hI, hB⟩

/-- The structural facts about a move that `Position::make_move` needs in
order to keep the invariant; move generation establishes them. -/
structure MoveOK (p : Position) (m : Move) : Prop where
  piece_spec : m.piece ∈ specific_kinds
  to64 : m.to_sq < 64
  pre : (p.boards m.piece).testBit m.from_sq = true ∨
    (p.boards BOTH_ALL).testBit m.from_sq = false
  quiet_empty : m.capture = false → (p.boards BOTH_ALL).testBit m.to_sq = false
  ep_empty : m.capture_ep = true → (p.boards BOTH_ALL).testBit m.to_sq = false
  castle_k : m.castle_kingside = true →
    (m.piece = W_KING ∧ m.to_sq = 6 ∧ (p.boards W_ROOK).testBit 7 = true ∧
      (p.boards BOTH_ALL).testBit 5 = false) ∨
    (m.piece = B_KING ∧ m.to_sq = 62 ∧ (p.boards B_ROOK).testBit 63 = true ∧
      (p.boards BOTH_ALL).testBit 61 = false)
  castle_q : m.castle_queenside = true →
    (m.piece = W_KING ∧ m.to_sq = 2 ∧ (p.boards W_ROOK).testBit 0 = true ∧
      (p.boards BOTH_ALL).testBit 3 = false) ∨
    (m.piece = B_KING ∧ m.to_sq = 58 ∧ (p.boards B_ROOK).testBit 56 = true ∧
      (p.boards BOTH_ALL).testBit 59 = false)

theorem placed_spec {m : Move} (h : m.piece ∈ specific_kinds) :
    placed_kind m ∈ specific_kinds := by
  unfold placed_kind
  split_ifs <;> first | decide | exact h

theorem placed_kind_castlek {m : Move} (h : m.castle_kingside = true) :
    placed_kind m = m.piece := by
  have hf := castlek_flags h
  rw [placed_kind, Move.promote_knight, Move.promote_bishop, Move.promote_rook,
    Move.promote_queen, hf]
  simp [KING_CASTLE, PROMOTE_KNIGHT, PROMOTE_KNIGHT_CAPTURE, PROMOTE_BISHOP,
    PROMOTE_BISHOP_CAPTURE, PROMOTE_ROOK, PROMOTE_ROOK_CAPTURE, PROMOTE_QUEEN,
    PROMOTE_QUEEN_CAPTURE]

set_option maxHeartbeats 1600000 in
theorem make_move_inv {p : Position} {m : Move} (hI : Invariant p) (hB : Bounded p)
    (hok : MoveOK p m) : Invariant (p.make_move m) ∧ Bounded (p.make_move m) := by
  obtain ⟨hps, hto, hpre, hqe, hepe, hck, hcq⟩ := hok
  have hplaced : placed_kind m ∈ specific_kinds := placed_spec hps
  rw [make_move_eq]
  dsimp only
  by_cases hcqb : m.castle_queenside = true
  · -- queenside castle
    have hcf : m.capture = false := castleq_not_capture hcqb
    have hplc : placed_kind m = m.piece := placed_kind_castleq hcqb
    have h2 := remove_pres hI hB hps hpre
    have hemp2 : (((p.remove_piece m.from_sq m.piece)).boards BOTH_ALL).testBit m.to_sq
        = false := remove_bit_false (hqe hcf)
    have h3 := place_inv h2.1 h2.2 hplaced hto hemp2
    rcases hcq hcqb with ⟨hpw, htoe, hrk, hem⟩ | ⟨hpb, htoe, hrk, hem⟩
    · have hrk3 : ((((p.remove_piece m.from_sq m.piece)).place_piece m.to_sq
          (placed_kind m)).boards W_ROOK).testBit 0 = true := by
        rw [place_testBit hplaced, remove_bit_untouched (by rw [hpw]; decide)
          (by decide) (by decide) (by decide), hrk]
        simp
      have h4 := remove_pres h3.1 h3.2 (by decide) (Or.inl hrk3)
      have hem3 : ((((p.remove_piece m.from_sq m.piece)).place_piece m.to_sq
          (placed_kind m)).boards BOTH_ALL).testBit 3 = false := by
        rw [place_testBit hplaced, htoe, remove_bit_false hem]
        simp
      have hem4 := @remove_bit_false _ 0 W_ROOK _ _ hem3
      rw [if_pos hcqb, if_pos hpw, if_neg (show ¬m.capture = true by simp [hcf])]
      exact place_inv h4.1 h4.2 (by decide) (by norm_num) hem4
    · have hrk3 : ((((p.remove_piece m.from_sq m.piece)).place_piece m.to_sq
          (placed_kind m)).boards B_ROOK).testBit 56 = true := by
        rw [place_testBit hplaced, remove_bit_untouched (by rw [hpb]; decide)
          (by decide) (by decide) (by decide), hrk]
        simp
      have h4 := remove_pres h3.1 h3.2 (by decide) (Or.inl hrk3)
      have hem3 : ((((p.remove_piece m.from_sq m.piece)).place_piece m.to_sq
          (placed_kind m)).boards BOTH_ALL).testBit 59 = false := by
        rw [place_testBit hplaced, htoe, remove_bit_false hem]
        simp
      have hem4 := @remove_bit_false _ 56 B_ROOK _ _ hem3
      rw [if_pos hcqb, if_neg (show ¬m.piece = W_KING by rw [hpb]; decide),
        if_neg (show ¬m.capture = true by simp [hcf])]
      exact place_inv h4.1 h4.2 (by decide) (by norm_num) hem4
  · by_cases hckb : m.castle_kingside = true
    · -- kingside castle
      have hcf : m.capture = false := castlek_not_capture hckb
      have hplc : placed_kind m = m.piece := placed_kind_castlek hckb
      have h2 := remove_pres hI hB hps hpre
      have hemp2 : (((p.remove_piece m.from_sq m.piece)).boards BOTH_ALL).testBit m.to_sq
          = false := remove_bit_false (hqe hcf)
      have h3 := place_inv h2.1 h2.2 hplaced hto hemp2
      rcases hck hckb with ⟨hpw, htoe, hrk, hem⟩ | ⟨hpb, htoe, hrk, hem⟩
      · have hrk3 : ((((p.remove_piece m.from_sq m.piece)).place_piece m.to_sq
            (placed_kind m)).boards W_ROOK).testBit 7 = true := by
          rw [place_testBit hplaced, remove_bit_untouched (by rw [hpw]; decide)
            (by decide) (by decide) (by decide), hrk]
          simp
        have h4 := remove_pres h3.1 h3.2 (by decide) (Or.inl hrk3)
        have hem3 : ((((p.remove_piece m.from_sq m.piece)).place_piece m.to_sq
            (placed_kind m)).boards BOTH_ALL).testBit 5 = false := by
          rw [place_testBit hplaced, htoe, remove_bit_false hem]
          simp
        have hem4 := @remove_bit_false _ 7 W_ROOK _ _ hem3
        rw [if_neg hcqb, if_pos hckb, if_pos hpw,
          if_neg (show ¬m.capture = true by simp [hcf])]
        exact place_inv h4.1 h4.2 (by decide) (by norm_num) hem4
      · have hrk3 : ((((p.remove_piece m.from_sq m.piece)).place_piece m.to_sq
            (placed_kind m)).boards B_ROOK).testBit 63 = true := by
          rw [place_testBit hplaced, remove_bit_untouched (by rw [hpb]; decide)
            (by decide) (by decide) (by decide), hrk]
          simp
        have h4 := remove_pres h3.1 h3.2 (by decide) (Or.inl hrk3)
        have hem3 : ((((p.remove_piece m.from_sq m.piece)).place_piece m.to_sq
            (placed_kind m)).boards BOTH_ALL).testBit 61 = false := by
          rw [place_testBit hplaced, htoe, remove_bit_false hem]
          simp
        have hem4 := @remove_bit_false _ 63 B_ROOK _ _ hem3
        rw [if_neg hcqb, if_pos hckb,
          if_neg (show ¬m.piece = W_KING by rw [hpb]; decide),
          if_neg (show ¬m.capture = true by simp [hcf])]
        exact place_inv h4.1 h4.2 (by decide) (by norm_num) hem4
    · -- no castle
      rw [if_neg hcqb, if_neg hckb]
      by_cases hc : m.capture = true
      · rw [if_pos hc]
        have hclear := clear_square_inv hI hB
          (if m.capture_ep = true then
            (if m.piece = W_PAWN then m.to_sq - 8 else m.to_sq + 8) else m.to_sq)
        have hpre2 : ((p.clear_square
            (if m.capture_ep = true then
              (if m.piece = W_PAWN then m.to_sq - 8 else m.to_sq + 8)
             else m.to_sq)).boards m.piece).testBit m.from_sq = true ∨
            ((p.clear_square
              (if m.capture_ep = true then
                (if m.piece = W_PAWN then m.to_sq - 8 else m.to_sq + 8)
               else m.to_sq)).boards BOTH_ALL).testBit m.from_sq = false := by
          rcases hpre with hbit | hempty
          · by_cases hfc : m.from_sq =
              (if m.capture_ep = true then
                (if m.piece = W_PAWN then m.to_sq - 8 else m.to_sq + 8)
               else m.to_sq)
            · right
              rw [hfc]
              exact clear_bit_self hB _ BOTH_ALL
            · left
              rw [clear_bit_other hfc (lt_of_testBit_true (hB m.piece) hbit) m.piece]
              exact hbit
          · right
            exact clear_bit_false hempty
        have h2 := remove_pres hclear.1 hclear.2 hps hpre2
        have hemp2 : (((p.clear_square
            (if m.capture_ep = true then
              (if m.piece = W_PAWN then m.to_sq - 8 else m.to_sq + 8)
             else m.to_sq)).remove_piece m.from_sq m.piece).boards BOTH_ALL).testBit
            m.to_sq = false := by
          apply remove_bit_false
          by_cases hep : m.capture_ep = true
          · simp only [if_pos hep]
            exact clear_bit_false (hepe hep)
          · simp only [if_neg hep]
            exact clear_bit_self hB _ BOTH_ALL
        exact place_inv h2.1 h2.2 hplaced hto hemp2
      · rw [if_neg hc]
        have h2 := remove_pres hI hB hps hpre
        have hemp2 : (((p.remove_piece m.from_sq m.piece)).boards BOTH_ALL).testBit
            m.to_sq = false :=
          remove_bit_false (hqe (Bool.not_eq_true _ ▸ hc))
        exact place_inv h2.1 h2.2 hplaced hto hemp2

theorem mem_foldl_append {α β : Type} (f : α → List β) (l : List α) (init : List β)
    (x : β) :
    x ∈ l.foldl (fun acc a => acc ++ f a) init ↔ x ∈ init ∨ ∃ a ∈ l, x ∈ f a := by
  induction l generalizing init with
  | nil => simp
  | cons a l ih =>
    rw [List.foldl_cons, ih]
    simp only [List.mem_append, List.mem_cons]
    constructor
    · rintro ((h | h) | ⟨b, hb, hx⟩)
      · exact Or.inl h
      · exact Or.inr ⟨a, Or.inl rfl, h⟩
      · exact Or.inr ⟨b, Or.inr hb, hx⟩
    · rintro (h | ⟨b, rfl | hb, hx⟩)
      · exact Or.inl (Or.inl h)
      · exact Or.inl (Or.inr hx)
      · exact Or.inr ⟨b, hb, hx⟩

theorem mem_lsb_list {b t : Nat} : t ∈ lsb_list b ↔ t < 64 ∧ b.testBit t = true := by
  rw [lsb_list, List.mem_filter, List.mem_range]

theorem mem_sorted_squares {s : Finset Nat} {t : Nat} :
    t ∈ sorted_squares s ↔ t < 64 ∧ t ∈ s := by
  rw [sorted_squares, List.mem_filter, List.mem_range]
  simp

theorem mem_append_moves_from {fs ts : Nat} {pc : Piece} {opp : Nat} {m : Move} :
    m ∈ append_moves_from fs ts pc opp ↔
      ∃ t, t < 64 ∧ ts.testBit t = true ∧
        m = (if opp &&& (1 <<< t) ≠ 0 then (⟨fs, t, pc, CAPTURE⟩ : Move)
             else ⟨fs, t, pc, QUIET⟩) := by
  rw [append_moves_from, List.mem_map]
  constructor
  · rintro ⟨t, ht, rfl⟩
    obtain ⟨h1, h2⟩ := mem_lsb_list.mp ht
    exact ⟨t, h1, h2, rfl⟩
  · rintro ⟨t, h1, h2, rfl⟩
    exact ⟨t, mem_lsb_list.mpr ⟨h1, h2⟩, rfl⟩

theorem piece_at_iff {p : Position} {s : Nat} {k : Piece} :
    p.piece_at s k = true ↔ (p.boards k).testBit s = true := by
  rw [Position.piece_at, bne_iff_ne]
  constructor
  · intro h
    by_contra hb
    apply h
    apply Nat.eq_of_testBit_eq
    intro i
    rw [Nat.testBit_and, testBit_one_shiftLeft, Nat.zero_testBit]
    by_cases his : i = s
    · subst his
      rw [Bool.not_eq_true] at hb
      rw [hb]
      simp
    · simp [his]
  · intro h hz
    have hbit : ((p.boards k) &&& (1 <<< s)).testBit s = true := by
      rw [Nat.testBit_and, testBit_one_shiftLeft, h]
      simp
    rw [hz] at hbit
    simp at hbit

theorem and_shift_ne {b s : Nat} : b &&& (1 <<< s) ≠ 0 ↔ b.testBit s = true := by
  constructor
  · intro h
    by_contra hb
    apply h
    apply Nat.eq_of_testBit_eq
    intro i
    rw [Nat.testBit_and, testBit_one_shiftLeft, Nat.zero_testBit]
    by_cases his : i = s
    · subst his
      rw [Bool.not_eq_true] at hb
      rw [hb]
      simp
    · simp [his]
  · intro h hz
    have hbit : (b &&& (1 <<< s)).testBit s = true := by
      rw [Nat.testBit_and, testBit_one_shiftLeft, h]
      simp
    rw [hz] at hbit
    simp at hbit

/-- Everything move generation guarantees about an emitted move, enough to
preserve all well-formedness conditions through `make_move`. -/
structure GenOK (gs : GameState) (m : Move) : Prop where
  mok : MoveOK gs.pos m
  king_w : m.piece = W_KING →
    m.from_sq ∈ gs.pos.piece_sets W_KING ∨ gs.pos.piece_sets W_KING = ∅
  king_b : m.piece = B_KING →
    m.from_sq ∈ gs.pos.piece_sets B_KING ∨ gs.pos.piece_sets B_KING = ∅
  pawn_w : placed_kind m = W_PAWN → m.to_sq < 56
  pawn_b : placed_kind m = B_PAWN → 8 ≤ m.to_sq
  dbl : m.double_pawn_push = true →
    8 ≤ (if gs.whites_move = true then m.to_sq - 8 else m.to_sq + 8) ∧
    (if gs.whites_move = true then m.to_sq - 8 else m.to_sq + 8) < 56 ∧
    (if gs.whites_move = true then m.to_sq - 8 else m.to_sq + 8) ≠ m.to_sq ∧
    (gs.pos.boards BOTH_ALL).testBit
      (if gs.whites_move = true then m.to_sq - 8 else m.to_sq + 8) = false

theorem placed_kind_nonpromo {m : Move} (h : m.flags < 8) : placed_kind m = m.piece := by
  unfold placed_kind Move.promote_knight Move.promote_bishop Move.promote_rook
    Move.promote_queen
  split_ifs with h1 h2 h3 h4 <;>
    first
      | rfl
      | (simp only [Bool.or_eq_true, beq_iff_eq, PROMOTE_KNIGHT, PROMOTE_BISHOP,
          PROMOTE_ROOK, PROMOTE_QUEEN, PROMOTE_KNIGHT_CAPTURE, PROMOTE_BISHOP_CAPTURE,
          PROMOTE_ROOK_CAPTURE, PROMOTE_QUEEN_CAPTURE] at *; omega)

theorem genok_of_moves_from {gs : GameState} {pc : Piece} {fs t : Nat}
    (hpc : pc ∈ specific_kinds) (hnpw : pc ≠ W_PAWN) (hnpb : pc ≠ B_PAWN)
    (hkw : pc = W_KING →
      fs ∈ gs.pos.piece_sets W_KING ∨ gs.pos.piece_sets W_KING = ∅)
    (hkb : pc = B_KING →
      fs ∈ gs.pos.piece_sets B_KING ∨ gs.pos.piece_sets B_KING = ∅)
    (ht64 : t < 64)
    (hpre : (gs.pos.boards pc).testBit fs = true ∨
      (gs.pos.boards BOTH_ALL).testBit fs = false)
    (hemp : gs.pos.get_board (color_piece ALL (!gs.whites_move)) &&& (1 <<< t) = 0 →
      (gs.pos.boards BOTH_ALL).testBit t = false) :
    GenOK gs (if gs.pos.get_board (color_piece ALL (!gs.whites_move)) &&& (1 <<< t) ≠ 0
              then (⟨fs, t, pc, CAPTURE⟩ : Move) else ⟨fs, t, pc, QUIET⟩) := by
  by_cases hcap : gs.pos.get_board (color_piece ALL (!gs.whites_move)) &&& (1 <<< t) ≠ 0
  · rw [if_pos hcap]
    refine ⟨⟨hpc, ht64, hpre, ?_, ?_, ?_, ?_⟩, hkw, hkb, ?_, ?_, ?_⟩
    · intro h
      simp [Move.capture, CAPTURE] at h
    · intro h
      simp [Move.capture_ep, CAPTURE, CAPTURE_EP] at h
    · intro h
      simp [Move.castle_kingside, CAPTURE, KING_CASTLE] at h
    · intro h
      simp [Move.castle_queenside, CAPTURE, QUEEN_CASTLE] at h
    · rw [placed_kind_nonpromo (by simp [CAPTURE])]
      intro h
      exact absurd h hnpw
    · rw [placed_kind_nonpromo (by simp [CAPTURE])]
      intro h
      exact absurd h hnpb
    · intro h
      simp [Move.double_pawn_push, CAPTURE, PAWN_DOUBLE] at h
  · rw [if_neg hcap]
    push_neg at hcap
    refine ⟨⟨hpc, ht64, hpre, ?_, ?_, ?_, ?_⟩, hkw, hkb, ?_, ?_, ?_⟩
    · intro _
      exact hemp hcap
    · intro h
      simp [Move.capture_ep, QUIET, CAPTURE_EP] at h
    · intro h
      simp [Move.castle_kingside, QUIET, KING_CASTLE] at h
    · intro h
      simp [Move.castle_queenside, QUIET, QUEEN_CASTLE] at h
    · rw [placed_kind_nonpromo (by simp [QUIET])]
      intro h
      exact absurd h hnpw
    · rw [placed_kind_nonpromo (by simp [QUIET])]
      intro h
      exact absurd h hnpb
    · intro h
      simp [Move.double_pawn_push, QUIET, PAWN_DOUBLE] at h

theorem compl64_testBit {x : Nat} (hx : x < 2 ^ 64) {t : Nat} (ht : t < 64) :
    (compl64 x).testBit t = !x.testBit t := by
  rw [compl64, Nat.mod_eq_of_lt hx, Nat.testBit_xor,
    show mask64 = 2 ^ 64 - 1 from rfl, Nat.testBit_two_pow_sub_one]
  simp [ht]

theorem both_bit_of_sides {p : Position} (hI : Invariant p) {t : Nat}
    (h1 : (p.boards W_ALL).testBit t = false)
    (h2 : (p.boards B_ALL).testBit t = false) :
    (p.boards BOTH_ALL).testBit t = false := by
  rw [hI.2.2.2.1, Nat.testBit_lor, h1, h2]
  rfl

theorem color_all_eq (b : Bool) :
    color_piece ALL b = if b = true then W_ALL else B_ALL := by
  cases b <;> rfl

/-- A square in the mover's quiet mask that the opponent does not occupy is
globally empty. -/
theorem empty_of_sides {gs : GameState} (hI : Invariant gs.pos) {t : Nat}
    (hour : (gs.pos.boards (color_piece ALL gs.whites_move)).testBit t = false)
    (hopp : gs.pos.get_board (color_piece ALL (!gs.whites_move)) &&& (1 <<< t) = 0) :
    (gs.pos.boards BOTH_ALL).testBit t = false := by
  have hoppb : (gs.pos.boards (color_piece ALL (!gs.whites_move))).testBit t = false := by
    cases hx : (gs.pos.boards (color_piece ALL (!gs.whites_move))).testBit t
    · rfl
    · exact absurd (and_shift_ne.mpr hx) (by rw [Position.get_board] at hopp; simp [hopp])
  cases hw : gs.whites_move
  · rw [hw] at hour hoppb
    exact both_bit_of_sides hI (by simpa using hoppb) (by simpa using hour)
  · rw [hw] at hour hoppb
    exact both_bit_of_sides hI (by simpa using hour) (by simpa using hoppb)

/-- Description of the square `*find_piece(k).begin()` under the invariant. -/
theorem king_square_cases {p : Position} (hI : Invariant p) {k : Piece}
    (hk : k ∈ specific_kinds) :
    (king_square_of p k ∈ p.piece_sets k ∧ king_square_of p k < 64) ∨
      (p.piece_sets k = ∅ ∧ king_square_of p k = 64) := by
  rw [king_square_of, Position.find_piece]
  cases hl : sorted_squares (p.piece_sets k) with
  | nil =>
    right
    refine ⟨?_, rfl⟩
    ext x
    simp only [Finset.not_mem_empty, iff_false]
    intro hx
    obtain ⟨h64, hbit⟩ := (mem_sets_iff hI hk x).mp hx
    have : x ∈ sorted_squares (p.piece_sets k) := mem_sorted_squares.mpr ⟨h64, hx⟩
    rw [hl] at this
    exact List.not_mem_nil x this
  | cons a l =>
    left
    have ha : a ∈ sorted_squares (p.piece_sets k) := by
      rw [hl]
      exact List.mem_cons_self a l
    obtain ⟨h64, hmem⟩ := mem_sorted_squares.mp ha
    exact ⟨by simpa [hl] using hmem, by simp [hl, h64]⟩

theorem genok_king {gs : GameState} {m : Move} (hG : Good gs)
    (hm : m ∈ generate_king_moves gs) : GenOK gs m := by
  obtain ⟨hI, hB, hWF, hK, hP⟩ := hG
  rw [generate_king_moves] at hm
  obtain ⟨t, ht64, htbit, rfl⟩ := mem_append_moves_from.mp hm
  have hkspec : color_piece KING gs.whites_move ∈ specific_kinds := by
    cases gs.whites_move <;> decide
  have hourf : (gs.pos.boards (color_piece ALL gs.whites_move)).testBit t = false := by
    rw [Nat.testBit_and, Bool.and_eq_true_iff] at htbit
    have h2 := htbit.2
    rw [Position.get_board, compl64_testBit (hB _) ht64] at h2
    simpa using h2
  rcases king_square_cases hI hkspec with ⟨hmem, h64⟩ | ⟨hempty, h64⟩
  · apply genok_of_moves_from hkspec (by cases hwb : gs.whites_move <;> decide)
      (by cases hwb : gs.whites_move <;> decide)
    · intro h
      left
      have : color_piece KING gs.whites_move = W_KING := h
      rw [← this]
      exact hmem
    · intro h
      left
      rw [← h]
      exact hmem
    · exact ht64
    · left
      exact ((mem_sets_iff hI hkspec _).mp hmem).2
    · intro h
      exact empty_of_sides hI hourf h
  · apply genok_of_moves_from hkspec (by cases hwb : gs.whites_move <;> decide)
      (by cases hwb : gs.whites_move <;> decide)
    · intro h
      right
      rw [← h]
      exact hempty
    · intro h
      right
      rw [← h]
      exact hempty
    · exact ht64
    · right
      rw [h64]
      exact testBit_false_of_bounded (hB BOTH_ALL) (by omega)
    · intro h
      exact empty_of_sides hI hourf h

theorem genok_att {gs : GameState} {m : Move} (hI : Invariant gs.pos)
    (hB : Bounded gs.pos) {pc : Piece} {att fs : Nat}
    (hpc : pc ∈ specific_kinds) (hnw : pc ≠ W_PAWN) (hnb : pc ≠ B_PAWN)
    (hnkw : pc ≠ W_KING) (hnkb : pc ≠ B_KING)
    (hfs : fs ∈ sorted_squares (gs.pos.piece_sets pc))
    (hm : m ∈ append_moves_from fs
      (att &&& compl64 (gs.pos.get_board (color_piece ALL gs.whites_move))) pc
      (gs.pos.get_board (color_piece ALL (!gs.whites_move)))) :
    GenOK gs m := by
  obtain ⟨t, ht64, htbit, rfl⟩ := mem_append_moves_from.mp hm
  obtain ⟨hf64, hfmem⟩ := mem_sorted_squares.mp hfs
  have hourf : (gs.pos.boards (color_piece ALL gs.whites_move)).testBit t = false := by
    rw [Nat.testBit_and, Bool.and_eq_true_iff] at htbit
    have h2 := htbit.2
    rw [Position.get_board, compl64_testBit (hB _) ht64] at h2
    simpa using h2
  apply genok_of_moves_from hpc hnw hnb (fun h => absurd h hnkw) (fun h => absurd h hnkb)
    ht64
  · left
    exact ((mem_sets_iff hI hpc _).mp hfmem).2
  · intro h
    exact empty_of_sides hI hourf h

theorem genok_knight {gs : GameState} {m : Move} (hG : Good gs)
    (hm : m ∈ append_knight_moves gs) : GenOK gs m := by
  obtain ⟨hI, hB, hWF, hK, hP⟩ := hG
  rw [append_knight_moves] at hm
  rw [mem_foldl_append] at hm
  rcases hm with h | ⟨ksq, hksq, hm⟩
  · exact absurd h (List.not_mem_nil m)
  exact genok_att hI hB (by cases hwb : gs.whites_move <;> decide)
    (by cases hwb : gs.whites_move <;> decide) (by cases hwb : gs.whites_move <;> decide)
    (by cases hwb : gs.whites_move <;> decide) (by cases hwb : gs.whites_move <;> decide)
    hksq hm

theorem genok_sliding {gs : GameState} {m : Move} (hG : Good gs)
    (hm : m ∈ append_sliding_moves gs) : GenOK gs m := by
  obtain ⟨hI, hB, hWF, hK, hP⟩ := hG
  rw [append_sliding_moves] at hm
  rw [List.mem_append, List.mem_append] at hm
  rcases hm with (hm | hm) | hm <;>
    rw [mem_foldl_append] at hm <;>
    rcases hm with h | ⟨sq, hsq, hm⟩
  · exact absurd h (List.not_mem_nil m)
  · exact genok_att hI hB (by cases hwb : gs.whites_move <;> decide)
      (by cases hwb : gs.whites_move <;> decide) (by cases hwb : gs.whites_move <;> decide)
      (by cases hwb : gs.whites_move <;> decide) (by cases hwb : gs.whites_move <;> decide)
      hsq hm
  · exact absurd h (List.not_mem_nil m)
  · exact genok_att hI hB (by cases hwb : gs.whites_move <;> decide)
      (by cases hwb : gs.whites_move <;> decide) (by cases hwb : gs.whites_move <;> decide)
      (by cases hwb : gs.whites_move <;> decide) (by cases hwb : gs.whites_move <;> decide)
      hsq hm
  · exact absurd h (List.not_mem_nil m)
  · exact genok_att hI hB (by cases hwb : gs.whites_move <;> decide)
      (by cases hwb : gs.whites_move <;> decide) (by cases hwb : gs.whites_move <;> decide)
      (by cases hwb : gs.whites_move <;> decide) (by cases hwb : gs.whites_move <;> decide)
      hsq hm

theorem ite_promo_ne (c : Prop) [Decidable c] (a b t : Piece) (ha : a ≠ t)
    (hb : b ≠ t) : (if c then a else b) ≠ t := by
  split_ifs <;> assumption

theorem genok_pawn_shape {gs : GameState} {psq tsq flags : Nat}
    (hI : Invariant gs.pos)
    (hpre : (gs.pos.boards (color_piece PAWN gs.whites_move)).testBit psq = true)
    (hto : tsq < 64)
    (hflags : flags = QUIET ∨ flags = CAPTURE ∨ flags = PAWN_DOUBLE ∨
      flags = PROMOTE_KNIGHT ∨ flags = PROMOTE_BISHOP ∨ flags = PROMOTE_ROOK ∨
      flags = PROMOTE_QUEEN ∨ flags = PROMOTE_KNIGHT_CAPTURE ∨
      flags = PROMOTE_BISHOP_CAPTURE ∨ flags = PROMOTE_ROOK_CAPTURE ∨
      flags = PROMOTE_QUEEN_CAPTURE)
    (hqe : flags &&& 4 = 0 → (gs.pos.boards BOTH_ALL).testBit tsq = false)
    (hrank : flags < 8 →
      (gs.whites_move = true → tsq < 56) ∧ (gs.whites_move = false → 8 ≤ tsq))
    (hdbl : flags = PAWN_DOUBLE →
      8 ≤ (if gs.whites_move = true then tsq - 8 else tsq + 8) ∧
      (if gs.whites_move = true then tsq - 8 else tsq + 8) < 56 ∧
      (if gs.whites_move = true then tsq - 8 else tsq + 8) ≠ tsq ∧
      (gs.pos.boards BOTH_ALL).testBit
        (if gs.whites_move = true then tsq - 8 else tsq + 8) = false) :
    GenOK gs ⟨psq, tsq, color_piece PAWN gs.whites_move, flags⟩ := by
  have hspec : color_piece PAWN gs.whites_move ∈ specific_kinds := by
    cases hwb : gs.whites_move <;> decide
  refine ⟨⟨hspec, hto, Or.inl hpre, ?_, ?_, ?_, ?_⟩, ?_, ?_, ?_, ?_, ?_⟩
  · -- quiet_empty
    intro hcap
    apply hqe
    rw [Move.capture] at hcap
    simpa using hcap
  · -- ep_empty
    intro h
    rw [Move.capture_ep, beq_iff_eq] at h
    dsimp only at h
    rcases hflags with h' | h' | h' | h' | h' | h' | h' | h' | h' | h' | h' <;>
      (subst h'; exact absurd h (by decide))
  · -- castle_k
    intro h
    rw [Move.castle_kingside, beq_iff_eq] at h
    dsimp only at h
    rcases hflags with h' | h' | h' | h' | h' | h' | h' | h' | h' | h' | h' <;>
      (subst h'; exact absurd h (by decide))
  · -- castle_q
    intro h
    rw [Move.castle_queenside, beq_iff_eq] at h
    dsimp only at h
    rcases hflags with h' | h' | h' | h' | h' | h' | h' | h' | h' | h' | h' <;>
      (subst h'; exact absurd h (by decide))
  · -- king_w
    intro h
    dsimp only at h
    cases hwb : gs.whites_move <;> rw [hwb] at h <;> exact absurd h (by decide)
  · -- king_b
    intro h
    dsimp only at h
    cases hwb : gs.whites_move <;> rw [hwb] at h <;> exact absurd h (by decide)
  · -- pawn_w
    intro h
    by_cases h8 : flags < 8
    · rw [placed_kind_nonpromo h8] at h
      dsimp only at h
      have hwm : gs.whites_move = true := by
        cases hwb : gs.whites_move
        · rw [hwb] at h
          exact absurd h (by decide)
        · rfl
      exact (hrank h8).1 hwm
    · exfalso
      rcases hflags with h' | h' | h' | h' | h' | h' | h' | h' | h' | h' | h' <;> subst h' <;>
        first
          | exact h8 (by decide)
          | (simp +decide only [placed_kind, Move.promote_knight, Move.promote_bishop,
              Move.promote_rook, Move.promote_queen, PROMOTE_KNIGHT, PROMOTE_BISHOP,
              PROMOTE_ROOK, PROMOTE_QUEEN, PROMOTE_KNIGHT_CAPTURE,
              PROMOTE_BISHOP_CAPTURE, PROMOTE_ROOK_CAPTURE,
              PROMOTE_QUEEN_CAPTURE, if_true, if_false] at h
             exact ite_promo_ne _ _ _ _ (by decide) (by decide) h)
  · -- pawn_b
    intro h
    by_cases h8 : flags < 8
    · rw [placed_kind_nonpromo h8] at h
      dsimp only at h
      have hwm : gs.whites_move = false := by
        cases hwb : gs.whites_move
        · rfl
        · rw [hwb] at h
          exact absurd h (by decide)
      exact (hrank h8).2 hwm
    · exfalso
      rcases hflags with h' | h' | h' | h' | h' | h' | h' | h' | h' | h' | h' <;> subst h' <;>
        first
          | exact h8 (by decide)
          | (simp +decide only [placed_kind, Move.promote_knight, Move.promote_bishop,
              Move.promote_rook, Move.promote_queen, PROMOTE_KNIGHT, PROMOTE_BISHOP,
              PROMOTE_ROOK, PROMOTE_QUEEN, PROMOTE_KNIGHT_CAPTURE,
              PROMOTE_BISHOP_CAPTURE, PROMOTE_ROOK_CAPTURE,
              PROMOTE_QUEEN_CAPTURE, if_true, if_false] at h
             exact ite_promo_ne _ _ _ _ (by decide) (by decide) h)
  · -- dbl
    intro h
    rw [Move.double_pawn_push, beq_iff_eq] at h
    exact hdbl h

theorem bit_false_of_and_eq_zero {b s : Nat} (h : b &&& (1 <<< s) = 0) :
    b.testBit s = false := by
  cases hx : b.testBit s
  · rfl
  · exact absurd (and_shift_ne.mpr hx) (by simp [h])

set_option maxHeartbeats 1600000 in
theorem genok_pawn {gs : GameState} {m : Move} (hG : Good gs)
    (hm : m ∈ append_pawn_moves gs) : GenOK gs m := by
  obtain ⟨hI, hB, hWF, hK, hP⟩ := hG
  rw [append_pawn_moves] at hm
  rw [mem_foldl_append] at hm
  rcases hm with h | ⟨psq, hpsq, hm⟩
  · exact absurd h (List.not_mem_nil m)
  rw [Position.find_piece] at hpsq
  obtain ⟨hp64, hpmem⟩ := mem_sorted_squares.mp hpsq
  have hspec : color_piece PAWN gs.whites_move ∈ specific_kinds := by
    cases hwb : gs.whites_move <;> decide
  have hpbit : (gs.pos.boards (color_piece PAWN gs.whites_move)).testBit psq = true :=
    ((mem_sets_iff hI hspec psq).mp hpmem).2
  have hpsqw : gs.whites_move = true → psq < 56 := by
    intro hw
    by_contra hc
    have hb1 := hP.1 psq (Finset.mem_range.mpr hp64) (by omega)
    rw [hw] at hpbit
    have h2 : (gs.pos.boards W_PAWN).testBit psq = true := hpbit
    rw [hb1] at h2
    exact absurd h2 (by decide)
  have hpsqb : gs.whites_move = false → 8 ≤ psq := by
    intro hw
    by_contra hc
    have hb1 := hP.2 psq (Finset.mem_range.mpr (by omega))
    rw [hw] at hpbit
    have h2 : (gs.pos.boards B_PAWN).testBit psq = true := hpbit
    rw [hb1] at h2
    exact absurd h2 (by decide)
  rw [pawn_moves_for] at hm
  dsimp only at hm
  set tg := (if gs.whites_move = true then psq + 8 else psq - 8) with hTG
  clear_value tg
  set tg2 := (if gs.whites_move = true then psq + 16 else psq - 16) with hTG2
  clear_value tg2
  have htg64 : tg < 64 := by
    cases hw : gs.whites_move
    · rw [hTG, hw]
      simp only [Bool.false_eq_true, if_false]
      omega
    · rw [hTG, hw]
      simp only [if_true]
      have := hpsqw hw
      omega
  rw [List.mem_append, List.mem_append, List.mem_append] at hm
  rcases hm with ((hm | hm) | hm) | hm
  · -- pushes
    split_ifs at hm with hempty hrank8
    · -- promotion pushes
      have hqe1 : (gs.pos.boards BOTH_ALL).testBit tg = false :=
        bit_false_of_and_eq_zero hempty
      simp only [List.mem_cons, List.not_mem_nil, or_false] at hm
      rcases hm with rfl | rfl | rfl | rfl <;>
        exact genok_pawn_shape hI hpbit htg64 (by decide) (fun _ => hqe1)
          (fun h8 => absurd h8 (by decide)) (fun h1 => absurd h1 (by decide))
    · -- quiet push
      have hqe1 : (gs.pos.boards BOTH_ALL).testBit tg = false :=
        bit_false_of_and_eq_zero hempty
      simp only [List.mem_cons, List.not_mem_nil, or_false] at hm
      rcases hm with rfl
      refine genok_pawn_shape hI hpbit htg64 (by decide) (fun _ => hqe1) ?_
        (fun h1 => absurd h1 (by decide))
      intro _
      exact ⟨fun _ => by omega, fun _ => by omega⟩
    · exact absurd hm (List.not_mem_nil m)
  · -- captures toward the a-file
    split_ifs at hm with hcond hrank8
    · -- promotion captures
      simp only [List.mem_cons, List.not_mem_nil, or_false] at hm
      rcases hm with rfl | rfl | rfl | rfl <;>
        exact genok_pawn_shape hI hpbit (by omega) (by decide)
          (fun hz => absurd hz (by decide))
          (fun h8 => absurd h8 (by decide)) (fun h1 => absurd h1 (by decide))
    · -- plain capture
      simp only [List.mem_cons, List.not_mem_nil, or_false] at hm
      rcases hm with rfl
      refine genok_pawn_shape hI hpbit (by omega) (by decide)
        (fun hz => absurd hz (by decide)) ?_ (fun h1 => absurd h1 (by decide))
      intro _
      exact ⟨fun _ => by omega, fun _ => by omega⟩
    · exact absurd hm (List.not_mem_nil m)
  · -- captures toward the h-file
    split_ifs at hm with hcond hrank8
    · -- promotion captures
      have ht2 : tg + 1 < 64 := by
        cases hw : gs.whites_move
        · rw [hTG, hw]
          simp only [Bool.false_eq_true, if_false]
          omega
        · rw [hTG, hw]
          simp only [if_true]
          have := hpsqw hw
          have hf := hcond.1
          omega
      simp only [List.mem_cons, List.not_mem_nil, or_false] at hm
      rcases hm with rfl | rfl | rfl | rfl <;>
        exact genok_pawn_shape hI hpbit ht2 (by decide)
          (fun hz => absurd hz (by decide))
          (fun h8 => absurd h8 (by decide)) (fun h1 => absurd h1 (by decide))
    · -- plain capture
      have ht2 : tg + 1 < 64 := by
        cases hw : gs.whites_move
        · rw [hTG, hw]
          simp only [Bool.false_eq_true, if_false]
          omega
        · rw [hTG, hw]
          simp only [if_true]
          have := hpsqw hw
          have hf := hcond.1
          omega
      simp only [List.mem_cons, List.not_mem_nil, or_false] at hm
      rcases hm with rfl
      refine genok_pawn_shape hI hpbit ht2 (by decide)
        (fun hz => absurd hz (by decide)) ?_ (fun h1 => absurd h1 (by decide))
      intro _
      exact ⟨fun _ => by omega, fun _ => by omega⟩
    · exact absurd hm (List.not_mem_nil m)
  · -- double pushes
    cases hw : gs.whites_move
    · -- black to move
      simp only [hw, Bool.false_eq_true, if_false] at hm
      split_ifs at hm with hrank2 hempty
      · simp only [List.mem_cons, List.not_mem_nil, or_false] at hm
        rcases hm with rfl
        have hbit2 : (gs.pos.boards BOTH_ALL).testBit tg2 = false := by
          apply bit_false_of_and_eq_zero
          apply Nat.eq_of_testBit_eq
          intro i
          have hte := congrArg (fun x => x.testBit i) hempty
          simp only [Position.get_board, Nat.testBit_and, Nat.testBit_lor,
            Nat.zero_testBit] at hte ⊢
          rcases Bool.and_eq_false_iff.mp hte with h | h
          · rw [h]
            simp
          · rw [Bool.or_eq_false_iff] at h
            rw [h.1]
            simp
        have hbitm : (gs.pos.boards BOTH_ALL).testBit tg = false := by
          apply bit_false_of_and_eq_zero
          apply Nat.eq_of_testBit_eq
          intro i
          have hte := congrArg (fun x => x.testBit i) hempty
          simp only [Position.get_board, Nat.testBit_and, Nat.testBit_lor,
            Nat.zero_testBit] at hte ⊢
          rcases Bool.and_eq_false_iff.mp hte with h | h
          · rw [h]
            simp
          · rw [Bool.or_eq_false_iff] at h
            rw [h.2]
            simp
        have ht2_64 : tg2 < 64 := by
          rw [hTG2, hw]
          simp only [Bool.false_eq_true, if_false]
          omega
        have hshape : GenOK gs
            ⟨psq, tg2, color_piece PAWN gs.whites_move, PAWN_DOUBLE⟩ := by
          refine genok_pawn_shape hI hpbit ht2_64 (Or.inr (Or.inr (Or.inl rfl)))
            (fun _ => hbit2) ?_ ?_
          · intro _
            constructor
            · intro hww
              rw [hww] at hw
              exact absurd hw (by decide)
            · intro _
              rw [hTG2, hw]
              simp only [Bool.false_eq_true, if_false]
              omega
          · intro _
            rw [hw]
            simp only [Bool.false_eq_true, if_false]
            rw [hTG, hw] at hbitm
            simp only [Bool.false_eq_true, if_false] at hbitm
            rw [hTG2, hw]
            simp only [Bool.false_eq_true, if_false]
            refine ⟨by omega, by omega, by omega, ?_⟩
            have he : psq - 16 + 8 = psq - 8 := by omega
            rw [he]
            exact hbitm
        rw [hw] at hshape
        exact hshape
      · exact absurd hm (List.not_mem_nil m)
      · exact absurd hm (List.not_mem_nil m)
    · -- white to move
      simp only [hw, if_true] at hm
      split_ifs at hm with hrank2 hempty
      · simp only [List.mem_cons, List.not_mem_nil, or_false] at hm
        rcases hm with rfl
        have hbit2 : (gs.pos.boards BOTH_ALL).testBit tg2 = false := by
          apply bit_false_of_and_eq_zero
          apply Nat.eq_of_testBit_eq
          intro i
          have hte := congrArg (fun x => x.testBit i) hempty
          simp only [Position.get_board, Nat.testBit_and, Nat.testBit_lor,
            Nat.zero_testBit] at hte ⊢
          rcases Bool.and_eq_false_iff.mp hte with h | h
          · rw [h]
            simp
          · rw [Bool.or_eq_false_iff] at h
            rw [h.1]
            simp
        have hbitm : (gs.pos.boards BOTH_ALL).testBit tg = false := by
          apply bit_false_of_and_eq_zero
          apply Nat.eq_of_testBit_eq
          intro i
          have hte := congrArg (fun x => x.testBit i) hempty
          simp only [Position.get_board, Nat.testBit_and, Nat.testBit_lor,
            Nat.zero_testBit] at hte ⊢
          rcases Bool.and_eq_false_iff.mp hte with h | h
          · rw [h]
            simp
          · rw [Bool.or_eq_false_iff] at h
            rw [h.2]
            simp
        have ht2_64 : tg2 < 64 := by
          rw [hTG2, hw]
          simp only [if_true]
          omega
        have hshape : GenOK gs
            ⟨psq, tg2, color_piece PAWN gs.whites_move, PAWN_DOUBLE⟩ := by
          refine genok_pawn_shape hI hpbit ht2_64 (Or.inr (Or.inr (Or.inl rfl)))
            (fun _ => hbit2) ?_ ?_
          · intro _
            constructor
            · intro _
              rw [hTG2, hw]
              simp only [if_true]
              omega
            · intro hww
              rw [hww] at hw
              exact absurd hw (by decide)
          · intro _
            rw [hw]
            simp only [if_true]
            rw [hTG, hw] at hbitm
            simp only [if_true] at hbitm
            rw [hTG2, hw]
            simp only [if_true]
            refine ⟨by omega, by omega, by omega, ?_⟩
            have he : psq + 16 - 8 = psq + 8 := by omega
            rw [he]
            exact hbitm
        rw [hw] at hshape
        exact hshape
      · exact absurd hm (List.not_mem_nil m)
      · exact absurd hm (List.not_mem_nil m)

theorem genok_ep_shape {gs : GameState} {fs : Nat}
    (hfs : (gs.pos.boards (color_piece PAWN gs.whites_move)).testBit fs = true)
    (h8 : 8 ≤ gs.en_passant_target) (h56 : gs.en_passant_target < 56)
    (hem : (gs.pos.boards BOTH_ALL).testBit gs.en_passant_target = false) :
    GenOK gs ⟨fs, gs.en_passant_target, color_piece PAWN gs.whites_move,
      CAPTURE_EP⟩ := by
  refine ⟨⟨by dsimp only; cases hwb : gs.whites_move <;> decide, by dsimp only; omega,
    Or.inl hfs, ?_, fun _ => hem, ?_, ?_⟩, ?_, ?_, ?_, ?_, ?_⟩
  · intro h
    simp [Move.capture, CAPTURE_EP] at h
  · intro h
    simp [Move.castle_kingside, CAPTURE_EP, KING_CASTLE] at h
  · intro h
    simp [Move.castle_queenside, CAPTURE_EP, QUEEN_CASTLE] at h
  · intro h
    dsimp only at h
    cases hwb : gs.whites_move <;> rw [hwb] at h <;> exact absurd h (by decide)
  · intro h
    dsimp only at h
    cases hwb : gs.whites_move <;> rw [hwb] at h <;> exact absurd h (by decide)
  · intro _
    exact h56
  · intro _
    exact h8
  · intro h
    simp [Move.double_pawn_push, CAPTURE_EP, PAWN_DOUBLE] at h

theorem genok_ep {gs : GameState} {m : Move} (hG : Good gs)
    (hm : m ∈ append_en_passant gs) : GenOK gs m := by
  obtain ⟨hI, hB, hWF, hK, hP⟩ := hG
  rw [append_en_passant] at hm
  cases hepb : gs.en_passant
  · rw [if_pos (by simp [hepb])] at hm
    exact absurd hm (List.not_mem_nil m)
  · rw [if_neg (by simp [hepb])] at hm
    obtain ⟨h8, h56, hem⟩ := hWF hepb
    dsimp only at hm
    cases hw : gs.whites_move
    · rw [hw] at hm
      simp only [Bool.false_eq_true, if_false, List.mem_append] at hm
      have hgen : ∀ fs, (gs.pos.boards (color_piece PAWN gs.whites_move)).testBit fs
          = true → GenOK gs ⟨fs, gs.en_passant_target,
            color_piece PAWN gs.whites_move, CAPTURE_EP⟩ :=
        fun fs hfs => genok_ep_shape hfs h8 h56 hem
      rcases hm with hm | hm <;> split_ifs at hm with hc
      · simp only [List.mem_cons, List.not_mem_nil, or_false] at hm
        subst hm
        have := hgen (gs.en_passant_target + 9)
          (by rw [hw]; exact piece_at_iff.mp hc.1)
        rw [hw] at this
        exact this
      · exact absurd hm (List.not_mem_nil m)
      · simp only [List.mem_cons, List.not_mem_nil, or_false] at hm
        subst hm
        have := hgen (gs.en_passant_target + 7)
          (by rw [hw]; exact piece_at_iff.mp hc.1)
        rw [hw] at this
        exact this
      · exact absurd hm (List.not_mem_nil m)
    · rw [hw] at hm
      simp only [if_true, List.mem_append] at hm
      have hgen : ∀ fs, (gs.pos.boards (color_piece PAWN gs.whites_move)).testBit fs
          = true → GenOK gs ⟨fs, gs.en_passant_target,
            color_piece PAWN gs.whites_move, CAPTURE_EP⟩ :=
        fun fs hfs => genok_ep_shape hfs h8 h56 hem
      rcases hm with hm | hm <;> split_ifs at hm with hc
      · simp only [List.mem_cons, List.not_mem_nil, or_false] at hm
        subst hm
        have := hgen (gs.en_passant_target - 9)
          (by rw [hw]; exact piece_at_iff.mp hc.1)
        rw [hw] at this
        exact this
      · exact absurd hm (List.not_mem_nil m)
      · simp only [List.mem_cons, List.not_mem_nil, or_false] at hm
        subst hm
        have := hgen (gs.en_passant_target - 7)
          (by rw [hw]; exact piece_at_iff.mp hc.1)
        rw [hw] at this
        exact this
      · exact absurd hm (List.not_mem_nil m)

theorem castle_ok_empty {p : Position} {wtm : Bool} {kb occ s : Nat}
    (h : castle_square_ok p wtm kb occ s = true) :
    occ &&& (1 <<< s) ≠ 0 → kb &&& (1 <<< s) ≠ 0 := by
  intro hocc hz
  rw [castle_square_ok, Bool.not_eq_true'] at h
  obtain ⟨-, hBC⟩ := Bool.or_eq_false_iff.mp h
  have hb : (occ &&& (1 <<< s) != 0) = true := bne_iff_ne.mpr hocc
  have hc : (kb &&& (1 <<< s) == 0) = true := beq_iff_eq.mpr hz
  rw [hb, hc] at hBC
  simp at hBC

theorem both_empty_of_lone_king {p : Position} (hI : Invariant p) {king : Piece}
    (hkspec : king ∈ specific_kinds) (hcard : (p.piece_sets king).card ≤ 1)
    {ks s : Nat} (hks : (p.boards king).testBit ks = true) (hks64 : ks < 64)
    (hne : ks ≠ s) (hs64 : s < 64)
    (himp : (p.boards BOTH_ALL).testBit s = true → (p.boards king).testBit s = true) :
    (p.boards BOTH_ALL).testBit s = false := by
  by_contra hc
  have hcb : (p.boards BOTH_ALL).testBit s = true := by
    cases hx : (p.boards BOTH_ALL).testBit s
    · exact absurd hx hc
    · rfl
  have hb := himp hcb
  have h1 : ks ∈ p.piece_sets king := (mem_sets_iff hI hkspec ks).mpr ⟨hks64, hks⟩
  have h2 : s ∈ p.piece_sets king := (mem_sets_iff hI hkspec s).mpr ⟨hs64, hb⟩
  exact hne (Finset.card_le_one.mp hcard ks h1 s h2)

set_option maxHeartbeats 1600000 in
theorem genok_castle {gs : GameState} {m : Move} (hG : Good gs)
    (hm : m ∈ append_castling_moves gs) : GenOK gs m := by
  obtain ⟨hI, hB, hWF, hK, hP⟩ := hG
  rw [append_castling_moves] at hm
  dsimp only at hm
  rw [List.mem_append] at hm
  rcases hm with hm | hm
  · -- kingside
    split_ifs at hm with h1 h2 h3 h4
    · -- white kingside
      obtain ⟨hw, hk4, hr7⟩ := h3
      simp only [List.mem_cons, List.not_mem_nil, or_false] at hm
      subst hm
      have hw' : gs.node.white_to_move = true := hw
      have hsqv : gs.castle_through_kingside = (1 <<< 4) ||| (1 <<< 5) ||| (1 <<< 6) := by
        cases hck : gs.node.w_castle_k
        · exfalso
          apply h1
          rw [GameState.castle_through_kingside, hw', hck]
          simp
        · rw [GameState.castle_through_kingside, hw', hck]
          simp
      have hlsb : lsb_list ((1 <<< 4) ||| (1 <<< 5) ||| (1 <<< 6)) = [4, 5, 6] := by decide
      rw [hsqv, hlsb] at h2
      have hok5 := List.all_eq_true.mp h2 5 (by decide)
      have hok6 := List.all_eq_true.mp h2 6 (by decide)
      rw [hw] at hok5 hok6
      have hb4 : (gs.pos.boards W_KING).testBit 4 = true := piece_at_iff.mp hk4
      have hb7 : (gs.pos.boards W_ROOK).testBit 7 = true := piece_at_iff.mp hr7
      have himp5 : (gs.pos.boards BOTH_ALL).testBit 5 = true →
          (gs.pos.boards W_KING).testBit 5 = true :=
        fun hbit => and_shift_ne.mp (castle_ok_empty hok5 (and_shift_ne.mpr hbit))
      have himp6 : (gs.pos.boards BOTH_ALL).testBit 6 = true →
          (gs.pos.boards W_KING).testBit 6 = true :=
        fun hbit => and_shift_ne.mp (castle_ok_empty hok6 (and_shift_ne.mpr hbit))
      have hemp5 := both_empty_of_lone_king hI (by decide) hK.1 hb4 (by omega)
        (by omega) (by omega) himp5
      have hemp6 := both_empty_of_lone_king hI (by decide) hK.1 hb4 (by omega)
        (by omega) (by omega) himp6
      have hmem4 : 4 ∈ gs.pos.piece_sets W_KING :=
        (mem_sets_iff hI (by decide) 4).mpr ⟨by omega, hb4⟩
      refine ⟨⟨by decide, by decide, Or.inl hb4, fun _ => hemp6, ?_, ?_, ?_⟩,
        ?_, ?_, ?_, ?_, ?_⟩
      · intro h
        simp [Move.capture_ep, KING_CASTLE, CAPTURE_EP] at h
      · intro _
        exact Or.inl ⟨rfl, rfl, hb7, hemp5⟩
      · intro h
        simp [Move.castle_queenside, KING_CASTLE, QUEEN_CASTLE] at h
      · intro _
        exact Or.inl hmem4
      · intro h
        dsimp only at h
        exact absurd h (by decide)
      · intro h
        rw [placed_kind_nonpromo (by simp [KING_CASTLE])] at h
        dsimp only at h
        exact absurd h (by decide)
      · intro h
        rw [placed_kind_nonpromo (by simp [KING_CASTLE])] at h
        dsimp only at h
        exact absurd h (by decide)
      · intro h
        simp [Move.double_pawn_push, KING_CASTLE, PAWN_DOUBLE] at h
    · -- black kingside
      obtain ⟨hnw, hk60, hr63⟩ := h4
      simp only [List.mem_cons, List.not_mem_nil, or_false] at hm
      subst hm
      have hw : gs.whites_move = false := by
        cases hx : gs.whites_move
        · rfl
        · exact absurd hx hnw
      have hw' : gs.node.white_to_move = false := hw
      have hsqv : gs.castle_through_kingside =
          (1 <<< 60) ||| (1 <<< 61) ||| (1 <<< 62) := by
        cases hck : gs.node.b_castle_k
        · exfalso
          apply h1
          rw [GameState.castle_through_kingside, hw', hck]
          simp
        · rw [GameState.castle_through_kingside, hw', hck]
          simp
      have hlsb : lsb_list ((1 <<< 60) ||| (1 <<< 61) ||| (1 <<< 62)) = [60, 61, 62] := by
        decide
      rw [hsqv, hlsb] at h2
      have hok61 := List.all_eq_true.mp h2 61 (by decide)
      have hok62 := List.all_eq_true.mp h2 62 (by decide)
      rw [hw] at hok61 hok62
      have hb60 : (gs.pos.boards B_KING).testBit 60 = true := piece_at_iff.mp hk60
      have hb63 : (gs.pos.boards B_ROOK).testBit 63 = true := piece_at_iff.mp hr63
      have himp61 : (gs.pos.boards BOTH_ALL).testBit 61 = true →
          (gs.pos.boards B_KING).testBit 61 = true :=
        fun hbit => and_shift_ne.mp (castle_ok_empty hok61 (and_shift_ne.mpr hbit))
      have himp62 : (gs.pos.boards BOTH_ALL).testBit 62 = true →
          (gs.pos.boards B_KING).testBit 62 = true :=
        fun hbit => and_shift_ne.mp (castle_ok_empty hok62 (and_shift_ne.mpr hbit))
      have hemp61 := both_empty_of_lone_king hI (by decide) hK.2 hb60 (by omega)
        (by omega) (by omega) himp61
      have hemp62 := both_empty_of_lone_king hI (by decide) hK.2 hb60 (by omega)
        (by omega) (by omega) himp62
      have hmem60 : 60 ∈ gs.pos.piece_sets B_KING :=
        (mem_sets_iff hI (by decide) 60).mpr ⟨by omega, hb60⟩
      refine ⟨⟨by decide, by decide, Or.inl hb60, fun _ => hemp62, ?_, ?_, ?_⟩,
        ?_, ?_, ?_, ?_, ?_⟩
      · intro h
        simp [Move.capture_ep, KING_CASTLE, CAPTURE_EP] at h
      · intro _
        exact Or.inr ⟨rfl, rfl, hb63, hemp61⟩
      · intro h
        simp [Move.castle_queenside, KING_CASTLE, QUEEN_CASTLE] at h
      · intro h
        dsimp only at h
        exact absurd h (by decide)
      · intro _
        exact Or.inl hmem60
      · intro h
        rw [placed_kind_nonpromo (by simp [KING_CASTLE])] at h
        dsimp only at h
        exact absurd h (by decide)
      · intro h
        rw [placed_kind_nonpromo (by simp [KING_CASTLE])] at h
        dsimp only at h
        exact absurd h (by decide)
      · intro h
        simp [Move.double_pawn_push, KING_CASTLE, PAWN_DOUBLE] at h
    · exact absurd hm (List.not_mem_nil m)
    · exact absurd hm (List.not_mem_nil m)
    · exact absurd hm (List.not_mem_nil m)
  · -- queenside
    split_ifs at hm with h1 h2 h3 h4
    · -- white queenside
      obtain ⟨hw, hk4, hr0, hb1e⟩ := h3
      simp only [List.mem_cons, List.not_mem_nil, or_false] at hm
      subst hm
      have hw' : gs.node.white_to_move = true := hw
      have hsqv : gs.castle_through_queenside = (1 <<< 2) ||| (1 <<< 3) ||| (1 <<< 4) := by
        cases hck : gs.node.w_castle_q
        · exfalso
          apply h1
          rw [GameState.castle_through_queenside, hw', hck]
          simp
        · rw [GameState.castle_through_queenside, hw', hck]
          simp
      have hlsb : lsb_list ((1 <<< 2) ||| (1 <<< 3) ||| (1 <<< 4)) = [2, 3, 4] := by decide
      rw [hsqv, hlsb] at h2
      have hok2 := List.all_eq_true.mp h2 2 (by decide)
      have hok3 := List.all_eq_true.mp h2 3 (by decide)
      rw [hw] at hok2 hok3
      have hb4 : (gs.pos.boards W_KING).testBit 4 = true := piece_at_iff.mp hk4
      have hb0 : (gs.pos.boards W_ROOK).testBit 0 = true := piece_at_iff.mp hr0
      have himp2 : (gs.pos.boards BOTH_ALL).testBit 2 = true →
          (gs.pos.boards W_KING).testBit 2 = true :=
        fun hbit => and_shift_ne.mp (castle_ok_empty hok2 (and_shift_ne.mpr hbit))
      have himp3 : (gs.pos.boards BOTH_ALL).testBit 3 = true →
          (gs.pos.boards W_KING).testBit 3 = true :=
        fun hbit => and_shift_ne.mp (castle_ok_empty hok3 (and_shift_ne.mpr hbit))
      have hemp2 := both_empty_of_lone_king hI (by decide) hK.1 hb4 (by omega)
        (by omega) (by omega) himp2
      have hemp3 := both_empty_of_lone_king hI (by decide) hK.1 hb4 (by omega)
        (by omega) (by omega) himp3
      have hmem4 : 4 ∈ gs.pos.piece_sets W_KING :=
        (mem_sets_iff hI (by decide) 4).mpr ⟨by omega, hb4⟩
      refine ⟨⟨by decide, by decide, Or.inl hb4, fun _ => hemp2, ?_, ?_, ?_⟩,
        ?_, ?_, ?_, ?_, ?_⟩
      · intro h
        simp [Move.capture_ep, QUEEN_CASTLE, CAPTURE_EP] at h
      · intro h
        simp [Move.castle_kingside, QUEEN_CASTLE, KING_CASTLE] at h
      · intro _
        exact Or.inl ⟨rfl, rfl, hb0, hemp3⟩
      · intro _
        exact Or.inl hmem4
      · intro h
        dsimp only at h
        exact absurd h (by decide)
      · intro h
        rw [placed_kind_nonpromo (by simp [QUEEN_CASTLE])] at h
        dsimp only at h
        exact absurd h (by decide)
      · intro h
        rw [placed_kind_nonpromo (by simp [QUEEN_CASTLE])] at h
        dsimp only at h
        exact absurd h (by decide)
      · intro h
        simp [Move.double_pawn_push, QUEEN_CASTLE, PAWN_DOUBLE] at h
    · -- black queenside
      obtain ⟨hnw, hk60, hr56, hb57e⟩ := h4
      simp only [List.mem_cons, List.not_mem_nil, or_false] at hm
      subst hm
      have hw : gs.whites_move = false := by
        cases hx : gs.whites_move
        · rfl
        · exact absurd hx hnw
      have hw' : gs.node.white_to_move = false := hw
      have hsqv : gs.castle_through_queenside =
          (1 <<< 58) ||| (1 <<< 59) ||| (1 <<< 60) := by
        cases hck : gs.node.b_castle_q
        · exfalso
          apply h1
          rw [GameState.castle_through_queenside, hw', hck]
          simp
        · rw [GameState.castle_through_queenside, hw', hck]
          simp
      have hlsb : lsb_list ((1 <<< 58) ||| (1 <<< 59) ||| (1 <<< 60)) = [58, 59, 60] := by
        decide
      rw [hsqv, hlsb] at h2
      have hok58 := List.all_eq_true.mp h2 58 (by decide)
      have hok59 := List.all_eq_true.mp h2 59 (by decide)
      rw [hw] at hok58 hok59
      have hb60 : (gs.pos.boards B_KING).testBit 60 = true := piece_at_iff.mp hk60
      have hb56 : (gs.pos.boards B_ROOK).testBit 56 = true := piece_at_iff.mp hr56
      have himp58 : (gs.pos.boards BOTH_ALL).testBit 58 = true →
          (gs.pos.boards B_KING).testBit 58 = true :=
        fun hbit => and_shift_ne.mp (castle_ok_empty hok58 (and_shift_ne.mpr hbit))
      have himp59 : (gs.pos.boards BOTH_ALL).testBit 59 = true →
          (gs.pos.boards B_KING).testBit 59 = true :=
        fun hbit => and_shift_ne.mp (castle_ok_empty hok59 (and_shift_ne.mpr hbit))
      have hemp58 := both_empty_of_lone_king hI (by decide) hK.2 hb60 (by omega)
        (by omega) (by omega) himp58
      have hemp59 := both_empty_of_lone_king hI (by decide) hK.2 hb60 (by omega)
        (by omega) (by omega) himp59
      have hmem60 : 60 ∈ gs.pos.piece_sets B_KING :=
        (mem_sets_iff hI (by decide) 60).mpr ⟨by omega, hb60⟩
      refine ⟨⟨by decide, by decide, Or.inl hb60, fun _ => hemp58, ?_, ?_, ?_⟩,
        ?_, ?_, ?_, ?_, ?_⟩
      · intro h
        simp [Move.capture_ep, QUEEN_CASTLE, CAPTURE_EP] at h
      · intro h
        simp [Move.castle_kingside, QUEEN_CASTLE, KING_CASTLE] at h
      · intro _
        exact Or.inr ⟨rfl, rfl, hb56, hemp59⟩
      · intro h
        dsimp only at h
        exact absurd h (by decide)
      · intro _
        exact Or.inl hmem60
      · intro h
        rw [placed_kind_nonpromo (by simp [QUEEN_CASTLE])] at h
        dsimp only at h
        exact absurd h (by decide)
      · intro h
        rw [placed_kind_nonpromo (by simp [QUEEN_CASTLE])] at h
        dsimp only at h
        exact absurd h (by decide)
      · intro h
        simp [Move.double_pawn_push, QUEEN_CASTLE, PAWN_DOUBLE] at h
    · exact absurd hm (List.not_mem_nil m)
    · exact absurd hm (List.not_mem_nil m)
    · exact absurd hm (List.not_mem_nil m)

/-- The piece sets of a non-rook kind after `make_move`. -/
def sets_after (p : Position) (m : Move) (j : Piece) : Finset Nat :=
  let cs := if m.capture_ep = true then
      (if m.piece = W_PAWN then m.to_sq - 8 else m.to_sq + 8) else m.to_sq
  let s1 := if m.capture = true then (p.piece_sets j).erase cs else p.piece_sets j
  let s2 := if j = m.piece then s1.erase m.from_sq else s1
  if j = placed_kind m then insert m.to_sq s2 else s2

set_option maxHeartbeats 1600000 in
theorem make_move_sets {p : Position} {m : Move} {j : Piece}
    (hj1 : j ≠ W_ROOK) (hj2 : j ≠ B_ROOK) :
    (p.make_move m).piece_sets j = sets_after p m j := by
  rw [make_move_eq, sets_after]
  dsimp only
  have hcore : ∀ q : Position,
      ((q.remove_piece m.from_sq m.piece).place_piece m.to_sq
        (placed_kind m)).piece_sets j =
      (if j = placed_kind m then
        insert m.to_sq
          (if j = m.piece then (q.piece_sets j).erase m.from_sq else q.piece_sets j)
       else (if j = m.piece then (q.piece_sets j).erase m.from_sq
             else q.piece_sets j)) := by
    intro q
    by_cases hjp : j = placed_kind m
    · rw [if_pos hjp]
      by_cases hjm : j = m.piece
      · rw [if_pos hjm, place_sets, if_pos hjp, remove_sets,
          if_pos (hjp.symm.trans hjm), ← hjm]
      · rw [if_neg hjm, place_sets, if_pos hjp, remove_sets,
          if_neg (fun hc => hjm (hjp.trans hc)), ← hjp]
    · rw [if_neg hjp]
      by_cases hjm : j = m.piece
      · rw [if_pos hjm, place_sets, if_neg hjp, remove_sets, if_pos hjm, ← hjm]
      · rw [if_neg hjm, place_sets, if_neg hjp, remove_sets, if_neg hjm]
  by_cases hcq : m.castle_queenside = true
  · have hcf : m.capture = false := castleq_not_capture hcq
    rw [if_pos hcq, if_neg (show ¬m.capture = true by simp [hcf]),
      if_neg (show ¬m.capture = true by simp [hcf])]
    by_cases hpk : m.piece = W_KING
    · rw [if_pos hpk, place_sets, if_neg hj1, remove_sets, if_neg hj1, hcore]
    · rw [if_neg hpk, place_sets, if_neg hj2, remove_sets, if_neg hj2, hcore]
  · by_cases hck : m.castle_kingside = true
    · have hcf : m.capture = false := castlek_not_capture hck
      rw [if_neg hcq, if_pos hck, if_neg (show ¬m.capture = true by simp [hcf]),
        if_neg (show ¬m.capture = true by simp [hcf])]
      by_cases hpk : m.piece = W_KING
      · rw [if_pos hpk, place_sets, if_neg hj1, remove_sets, if_neg hj1, hcore]
      · rw [if_neg hpk, place_sets, if_neg hj2, remove_sets, if_neg hj2, hcore]
    · rw [if_neg hcq, if_neg hck]
      by_cases hc : m.capture = true
      · rw [if_pos hc, if_pos hc, hcore]
        rw [clear_square_sets]
      · rw [if_neg hc, if_neg hc, hcore]

theorem placed_king_w {m : Move} (h : placed_kind m = W_KING) : m.piece = W_KING := by
  revert h
  unfold placed_kind
  split_ifs <;> intro h <;>
    first
      | exact h
      | exact absurd h (by decide)

theorem placed_king_b {m : Move} (h : placed_kind m = B_KING) : m.piece = B_KING := by
  revert h
  unfold placed_kind
  split_ifs <;> intro h <;>
    first
      | exact h
      | exact absurd h (by decide)

theorem erase_single {s : Finset Nat} (h : s.card ≤ 1) {a : Nat} (ha : a ∈ s) :
    s.erase a = ∅ := by
  ext x
  simp only [Finset.mem_erase, Finset.not_mem_empty, iff_false]
  rintro ⟨hne, hx⟩
  exact hne (Finset.card_le_one.mp h x hx a ha)

theorem make_move_kings {p : Position} {m : Move}
    (hkw : m.piece = W_KING →
      m.from_sq ∈ p.piece_sets W_KING ∨ p.piece_sets W_KING = ∅)
    (hkb : m.piece = B_KING →
      m.from_sq ∈ p.piece_sets B_KING ∨ p.piece_sets B_KING = ∅)
    (hK : KingsOK p) : KingsOK (p.make_move m) := by
  have main : ∀ king : Piece, king ≠ W_ROOK → king ≠ B_ROOK →
      (m.piece = king →
        m.from_sq ∈ p.piece_sets king ∨ p.piece_sets king = ∅) →
      (placed_kind m = king → m.piece = king) →
      (p.piece_sets king).card ≤ 1 →
      ((p.make_move m).piece_sets king).card ≤ 1 := by
    intro king hr1 hr2 hfrom hplk hcard
    rw [make_move_sets hr1 hr2, sets_after]
    have hsub1 : (if m.capture = true then
        (p.piece_sets king).erase
          (if m.capture_ep = true then
            (if m.piece = W_PAWN then m.to_sq - 8 else m.to_sq + 8) else m.to_sq)
      else p.piece_sets king) ⊆ p.piece_sets king := by
      split_ifs <;>
        first
          | exact Finset.Subset.refl _
          | exact Finset.erase_subset _ _
    by_cases hpk : king = placed_kind m
    · rw [if_pos hpk]
      have hpw : m.piece = king := hplk hpk.symm
      rw [if_pos hpw.symm]
      rcases hfrom hpw with hmem | hempty
      · have hz : (p.piece_sets king).erase m.from_sq = ∅ := erase_single hcard hmem
        have hXsub : (if m.capture = true then
            (p.piece_sets king).erase
              (if m.capture_ep = true then
                (if m.piece = W_PAWN then m.to_sq - 8 else m.to_sq + 8) else m.to_sq)
          else p.piece_sets king).erase m.from_sq ⊆ (∅ : Finset Nat) := by
          rw [← hz]
          exact Finset.erase_subset_erase _ hsub1
        have hX0 : ((if m.capture = true then
            (p.piece_sets king).erase
              (if m.capture_ep = true then
                (if m.piece = W_PAWN then m.to_sq - 8 else m.to_sq + 8) else m.to_sq)
          else p.piece_sets king).erase m.from_sq) = ∅ :=
          Finset.subset_empty.mp hXsub
        rw [hX0]
        simp
      · have hX0 : ((if m.capture = true then
            (p.piece_sets king).erase
              (if m.capture_ep = true then
                (if m.piece = W_PAWN then m.to_sq - 8 else m.to_sq + 8) else m.to_sq)
          else p.piece_sets king).erase m.from_sq) = ∅ := by
          apply Finset.subset_empty.mp
          intro x hx
          rw [← hempty]
          exact hsub1 (Finset.mem_of_mem_erase hx)
        rw [hX0]
        simp
    · rw [if_neg hpk]
      have hsub2 : (if king = m.piece then
          (if m.capture = true then
            (p.piece_sets king).erase
              (if m.capture_ep = true then
                (if m.piece = W_PAWN then m.to_sq - 8 else m.to_sq + 8) else m.to_sq)
          else p.piece_sets king).erase m.from_sq
        else
          (if m.capture = true then
            (p.piece_sets king).erase
              (if m.capture_ep = true then
                (if m.piece = W_PAWN then m.to_sq - 8 else m.to_sq + 8) else m.to_sq)
          else p.piece_sets king)) ⊆ p.piece_sets king := by
        split_ifs <;>
          first
            | exact Finset.Subset.refl _
            | exact Finset.erase_subset _ _
            | exact (Finset.erase_subset _ _).trans (Finset.erase_subset _ _)
      exact le_trans (Finset.card_le_card hsub2) hcard
  exact ⟨main W_KING (by decide) (by decide) hkw placed_king_w hK.1,
    main B_KING (by decide) (by decide) hkb placed_king_b hK.2⟩

theorem place_bit_false {p : Position} {sq : Nat} {k : Piece} (hk : k ∈ specific_kinds)
    {j : Piece} {t : Nat} (hne : ¬ t = sq)
    (h : (p.boards j).testBit t = false) :
    ((p.place_piece sq k).boards j).testBit t = false := by
  rw [place_testBit hk, h]
  simp [hne]

theorem place_bit_untouched {p : Position} {sq : Nat} {k : Piece}
    (hk : k ∈ specific_kinds) {j : Piece} (hjk : j ≠ k) (h1 : j ≠ W_ALL)
    (h2 : j ≠ B_ALL) (h3 : j ≠ BOTH_ALL) (t : Nat) :
    ((p.place_piece sq k).boards j).testBit t = (p.boards j).testBit t := by
  rw [place_testBit hk]
  simp [hjk, h1, h2, h3]

/-- A clear bit of a specific non-rook board stays clear through `make_move`
unless the moved (possibly promoted) piece lands there. -/
theorem make_move_bit_false {p : Position} {m : Move} {j : Piece} {t : Nat}
    (hspec : m.piece ∈ specific_kinds) (hj : j ∈ specific_kinds)
    (hj1 : j ≠ W_ROOK) (hj2 : j ≠ B_ROOK)
    (hnp : placed_kind m = j → ¬ t = m.to_sq)
    (hold : (p.boards j).testBit t = false) :
    ((p.make_move m).boards j).testBit t = false := by
  obtain ⟨ha1, ha2, ha3⟩ := not_agg_of_specific hj
  have hcore : ∀ q : Position, (q.boards j).testBit t = false →
      (((q.remove_piece m.from_sq m.piece).place_piece m.to_sq
        (placed_kind m)).boards j).testBit t = false := by
    intro q hq
    by_cases hpj : placed_kind m = j
    · exact place_bit_false (placed_spec hspec) (hnp hpj) (remove_bit_false hq)
    · rw [place_bit_untouched (placed_spec hspec) (fun hc => hpj hc.symm) ha1 ha2 ha3]
      exact remove_bit_false hq
  rw [make_move_eq]
  dsimp only
  by_cases hcq : m.castle_queenside = true
  · have hcf : m.capture = false := castleq_not_capture hcq
    rw [if_pos hcq, if_neg (show ¬m.capture = true by simp [hcf])]
    by_cases hpw : m.piece = W_KING
    · rw [if_pos hpw, place_bit_untouched (by decide) hj1 ha1 ha2 ha3,
        remove_bit_untouched hj1 ha1 ha2 ha3]
      exact hcore p hold
    · rw [if_neg hpw, place_bit_untouched (by decide) hj2 ha1 ha2 ha3,
        remove_bit_untouched hj2 ha1 ha2 ha3]
      exact hcore p hold
  · by_cases hck : m.castle_kingside = true
    · have hcf : m.capture = false := castlek_not_capture hck
      rw [if_neg hcq, if_pos hck, if_neg (show ¬m.capture = true by simp [hcf])]
      by_cases hpw : m.piece = W_KING
      · rw [if_pos hpw, place_bit_untouched (by decide) hj1 ha1 ha2 ha3,
          remove_bit_untouched hj1 ha1 ha2 ha3]
        exact hcore p hold
      · rw [if_neg hpw, place_bit_untouched (by decide) hj2 ha1 ha2 ha3,
          remove_bit_untouched hj2 ha1 ha2 ha3]
        exact hcore p hold
    · rw [if_neg hcq, if_neg hck]
      by_cases hc : m.capture = true
      · rw [if_pos hc]
        exact hcore _ (clear_bit_false hold)
      · rw [if_neg hc]
        exact hcore p hold

/-- A clear bit of the occupancy board stays clear through a non-castling
`make_move` unless the move lands there. -/
theorem make_move_both_bit_false {p : Position} {m : Move} {t : Nat}
    (hspec : m.piece ∈ specific_kinds)
    (hcq : m.castle_queenside = false) (hck : m.castle_kingside = false)
    (hnt : ¬ t = m.to_sq)
    (hold : (p.boards BOTH_ALL).testBit t = false) :
    ((p.make_move m).boards BOTH_ALL).testBit t = false := by
  rw [make_move_eq]
  dsimp only
  rw [if_neg (show ¬m.castle_queenside = true by simp [hcq]),
    if_neg (show ¬m.castle_kingside = true by simp [hck])]
  by_cases hc : m.capture = true
  · rw [if_pos hc]
    exact place_bit_false (placed_spec hspec) hnt
      (remove_bit_false (clear_bit_false hold))
  · rw [if_neg hc]
    exact place_bit_false (placed_spec hspec) hnt (remove_bit_false hold)

/-- `make_move` never puts a white pawn on the eighth rank or a black pawn
on the first, given the generator's bounds on pawn destinations. -/
theorem make_move_pawns {p : Position} {m : Move}
    (hspec : m.piece ∈ specific_kinds)
    (hpw : placed_kind m = W_PAWN → m.to_sq < 56)
    (hpb : placed_kind m = B_PAWN → 8 ≤ m.to_sq)
    (hP : PawnRanksOK p) : PawnRanksOK (p.make_move m) := by
  obtain ⟨hPw, hPb⟩ := hP
  constructor
  · intro s hs h56
    refine make_move_bit_false hspec (by decide) (by decide) (by decide) ?_
      (hPw s hs h56)
    intro hpk he
    have := hpw hpk
    omega
  · intro s hs
    have h8 : s < 8 := Finset.mem_range.mp hs
    refine make_move_bit_false hspec (by decide) (by decide) (by decide) ?_
      (hPb s hs)
    intro hpk he
    have := hpb hpk
    omega

set_option maxHeartbeats 1600000 in
/-- The position after `GameState.make_move` is `Position.make_move`. -/
theorem gs_make_pos (gs : GameState) (m : Move) :
    (gs.make_move m).pos = gs.pos.make_move m := by
  rw [GameState.make_move]
  unfold GameState.pos
  dsimp only
  simp only [apply_ite Node.position, ite_self]

set_option maxHeartbeats 1600000 in
/-- The en-passant flag after `GameState.make_move` is the double-push flag. -/
theorem gs_make_ep (gs : GameState) (m : Move) :
    (gs.make_move m).en_passant = m.double_pawn_push := by
  rw [GameState.make_move]
  unfold GameState.en_passant
  dsimp only
  simp only [apply_ite Node.en_passant_possible, ite_self]
  by_cases h : m.double_pawn_push = true <;> simp [h]

set_option maxHeartbeats 1600000 in
/-- The en-passant target square recorded by `GameState.make_move` after a
double pawn push. -/
theorem gs_make_ept (gs : GameState) (m : Move) (h : m.double_pawn_push = true) :
    (gs.make_move m).en_passant_target =
      if gs.whites_move = true then m.to_sq - 8 else m.to_sq + 8 := by
  rw [GameState.make_move]
  unfold GameState.en_passant_target GameState.whites_move
  dsimp only
  simp only [apply_ite Node.en_passant_square, apply_ite Node.white_to_move,
    ite_self, h, if_true]

theorem dbl_not_castle {m : Move} (h : m.double_pawn_push = true) :
    m.castle_queenside = false ∧ m.castle_kingside = false := by
  rw [Move.double_pawn_push, beq_iff_eq] at h
  rw [Move.castle_queenside, Move.castle_kingside, h]
  decide

/-- Every pseudolegal move satisfies the generator guarantees. -/
theorem genok_pseudo {gs : GameState} {m : Move} (hG : Good gs)
    (hm : m ∈ generate_pseudolegal_moves gs) : GenOK gs m := by
  rw [generate_pseudolegal_moves] at hm
  simp only [List.mem_append] at hm
  rcases hm with ((((hm | hm) | hm) | hm) | hm) | hm
  · exact genok_king hG hm
  · exact genok_castle hG hm
  · exact genok_ep hG hm
  · exact genok_pawn hG hm
  · exact genok_knight hG hm
  · exact genok_sliding hG hm

/-- Making any generated (legal) move preserves all well-formedness
conditions. -/
theorem step_good {gs : GameState} {m : Move} (hG : Good gs)
    (hm : m ∈ generate_moves gs) : Good (gs.make_move m) := by
  rw [generate_moves, List.mem_filter] at hm
  have hgen : GenOK gs m := genok_pseudo hG hm.1
  obtain ⟨hmok, hkw, hkb, hpw, hpb, hdbl⟩ := hgen
  obtain ⟨hI, hB, hWF, hK, hP⟩ := hG
  have hIB := make_move_inv hI hB hmok
  have hpos := gs_make_pos gs m
  refine ⟨?_, ?_, ?_, ?_, ?_⟩
  · rw [hpos]
    exact hIB.1
  · rw [hpos]
    exact hIB.2
  · intro hep
    rw [gs_make_ep] at hep
    obtain ⟨h8, h56, hne, hbit⟩ := hdbl hep
    obtain ⟨hncq, hnck⟩ := dbl_not_castle hep
    rw [gs_make_ept gs m hep, hpos]
    exact ⟨h8, h56, make_move_both_bit_false hmok.piece_spec hncq hnck hne hbit⟩
  · rw [hpos]
    exact make_move_kings hkw hkb hK
  · rw [hpos]
    exact make_move_pawns hmok.piece_spec hpw hpb hP

/-- Placing a specific piece on an empty square (away from a pending
en-passant target, with no second king and no pawn on its back rank)
preserves all well-formedness conditions. -/
theorem place_good {gs : GameState} {sq : Nat} {k : Piece} (hG : Good gs)
    (h64 : sq < 64) (hk : k ∈ specific_kinds)
    (hemp : (gs.pos.boards BOTH_ALL).testBit sq = false)
    (hept : gs.en_passant = true → ¬ sq = gs.en_passant_target)
    (hkw : k = W_KING → gs.pos.piece_sets W_KING = ∅)
    (hkb : k = B_KING → gs.pos.piece_sets B_KING = ∅)
    (hwp : k = W_PAWN → sq < 56)
    (hbp : k = B_PAWN → 8 ≤ sq) :
    Good { gs with node := { gs.node with position := gs.pos.place_piece sq k } } := by
  obtain ⟨hI, hB, hWF, hK, hP⟩ := hG
  have hIB := place_inv hI hB hk h64 hemp
  refine ⟨hIB.1, hIB.2, ?_, ⟨?_, ?_⟩, ?_, ?_⟩
  · intro hep
    obtain ⟨h8, h56, hbit⟩ := hWF hep
    refine ⟨h8, h56, ?_⟩
    exact place_bit_false hk (fun he => hept hep he.symm) hbit
  · show ((gs.pos.place_piece sq k).piece_sets W_KING).card ≤ 1
    rw [place_sets]
    split_ifs with h
    · rw [← h, hkw h.symm]
      simp
    · exact hK.1
  · show ((gs.pos.place_piece sq k).piece_sets B_KING).card ≤ 1
    rw [place_sets]
    split_ifs with h
    · rw [← h, hkb h.symm]
      simp
    · exact hK.2
  · intro s hs h56
    show ((gs.pos.place_piece sq k).boards W_PAWN).testBit s = false
    rw [place_testBit hk]
    by_cases hkp : k = W_PAWN
    · subst hkp
      have hss : ¬(s = sq) := by
        have := hwp rfl
        omega
      simp +decide [hP.1 s hs h56, hss]
    · have h1 : ¬(W_PAWN = k) := fun h => hkp h.symm
      simp +decide [hP.1 s hs h56, h1]
  · intro s hs
    have h8 : s < 8 := Finset.mem_range.mp hs
    show ((gs.pos.place_piece sq k).boards B_PAWN).testBit s = false
    rw [place_testBit hk]
    by_cases hkp : k = B_PAWN
    · subst hkp
      have hss : ¬(s = sq) := by
        have := hbp rfl
        omega
      simp +decide [hP.2 s hs, hss]
    · have h1 : ¬(B_PAWN = k) := fun h => hkp h.symm
      simp +decide [hP.2 s hs, h1]

/-- Removing a piece that is actually present preserves all well-formedness
conditions. -/
theorem remove_good {gs : GameState} {sq : Nat} {k : Piece} (hG : Good gs)
    (hk : k ∈ specific_kinds)
    (hpres : (gs.pos.boards k).testBit sq = true) :
    Good { gs with node := { gs.node with position := gs.pos.remove_piece sq k } } := by
  obtain ⟨hI, hB, hWF, hK, hP⟩ := hG
  have hIB := remove_inv hI hB hk hpres
  have hsub : ∀ j : Piece,
      (gs.pos.remove_piece sq k).piece_sets j ⊆ gs.pos.piece_sets j := by
    intro j
    rw [remove_sets]
    split_ifs with h
    · rw [h]
      exact Finset.erase_subset _ _
    · exact Finset.Subset.refl _
  refine ⟨hIB.1, hIB.2, ?_, ?_, ?_⟩
  · intro hep
    obtain ⟨h8, h56, hbit⟩ := hWF hep
    exact ⟨h8, h56, remove_bit_false hbit⟩
  · exact ⟨le_trans (Finset.card_le_card (hsub W_KING)) hK.1,
      le_trans (Finset.card_le_card (hsub B_KING)) hK.2⟩
  · exact ⟨fun s hs h56 => remove_bit_false (hP.1 s hs h56),
      fun s hs => remove_bit_false (hP.2 s hs)⟩

/-- Game states reachable through the constructors and the mutation API:
`GameState.init`, the FEN constructor restricted to well-formed outputs,
guarded `place_piece` on an empty square, `remove_piece` of a piece actually
present, and `make_move` of a generated legal move. -/
inductive ReachOK : GameState → Prop where
  | init : ReachOK GameState.init
  | fen (f : String) (h : Good (GameState.from_fen f)) : ReachOK (GameState.from_fen f)
  | place (gs : GameState) (sq : Nat) (k : Piece) (h : ReachOK gs)
      (h64 : sq < 64) (hk : k ∈ specific_kinds)
      (hemp : (gs.pos.boards BOTH_ALL).testBit sq = false)
      (hept : gs.en_passant = true → ¬ sq = gs.en_passant_target)
      (hkw : k = W_KING → gs.pos.piece_sets W_KING = ∅)
      (hkb : k = B_KING → gs.pos.piece_sets B_KING = ∅)
      (hwp : k = W_PAWN → sq < 56)
      (hbp : k = B_PAWN → 8 ≤ sq) :
      ReachOK { gs with node := { gs.node with position := gs.pos.place_piece sq k } }
  | remove (gs : GameState) (sq : Nat) (k : Piece) (h : ReachOK gs)
      (hk : k ∈ specific_kinds)
      (hpres : (gs.pos.boards k).testBit sq = true) :
      ReachOK { gs with node := { gs.node with position := gs.pos.remove_piece sq k } }
  | step (gs : GameState) (m : Move) (h : ReachOK gs)
      (hm : m ∈ generate_moves gs) : ReachOK (gs.make_move m)

/-- Every reachable game state satisfies all well-formedness conditions. -/
theorem reach_good {gs : GameState} (h : ReachOK gs) : Good gs := by
  induction h with
  | init => decide
  | fen f h => exact h
  | place gs sq k h h64 hk hemp hept hkw hkb hwp hbp ih =>
      exact place_good ih h64 hk hemp hept hkw hkb hwp hbp
  | remove gs sq k h hk hpres ih => exact remove_good ih hk hpres
  | step gs m h hm ih => exact step_good ih hm

/-- C4 counterexample: the FEN constructor accepts
`k7/8/4b3/3Pp3/8/8/8/K7 w - e6 0 1`, whose en-passant target square e6 is
occupied by a black bishop. The position satisfies the invariant and the
en-passant capture d5xe6 is produced by `generate_moves`, yet `make_move`
places the capturing pawn on the occupied target square, so the resulting
position violates the invariant — refuting the claim as stated, since this
state is reachable from a constructor by a single legal `make_move`. -/
theorem c4_counterexample :
    (let g := GameState.from_fen "k7/8/4b3/3Pp3/8/8/8/K7 w - e6 0 1"
     let m : Move := ⟨35, 44, W_PAWN, CAPTURE_EP⟩
     Invariant g.pos ∧ m ∈ generate_moves g ∧ ¬ Invariant (g.make_move m).pos) := by
  decide

/-- C4 (amended): every game state reachable from `GameState.init`, or from
a FEN whose decoding satisfies the well-formedness side conditions (pending
en-passant target inside ranks 2–7 and empty, at most one king per color, no
pawn on its promotion rank), via `place_piece` on empty squares (guarded by
the same side conditions), `remove_piece` of a piece actually present, and
`make_move` of generated legal moves, satisfies the board/set invariant: bit
`s` of `boards[k]` is set iff `s ∈ piece_sets[k]`, the white-all, black-all
and both-all boards are the bitwise OR of their constituent piece boards,
and no two piece kinds occupy the same square. -/
theorem c4_reachable_invariant {gs : GameState} (h : ReachOK gs) :
    Invariant gs.pos :=
  (reach_good h).1

/-- C4 witness: the double pawn push e2–e4 is a generated legal move of the
initial position, and the resulting state satisfies the invariant. -/
theorem c4_witness :
    Invariant ((GameState.init.make_move ⟨12, 28, W_PAWN, PAWN_DOUBLE⟩)).pos :=
  c4_reachable_invariant
    (ReachOK.step GameState.init ⟨12, 28, W_PAWN, PAWN_DOUBLE⟩ ReachOK.init (by decide))

theorem append_moves_from_flags {fs ts : Nat} {pc : Piece} {opp : Nat} {m : Move}
    (hm : m ∈ append_moves_from fs ts pc opp) :
    ¬ m.flags = KING_CASTLE ∧ ¬ m.flags = QUEEN_CASTLE := by
  obtain ⟨t, ht64, htbit, rfl⟩ := mem_append_moves_from.mp hm
  constructor <;> split_ifs <;> dsimp only <;> decide

theorem pawn_moves_for_flags {wtm : Bool} {our_pawn : Piece} {opp all psq : Nat}
    {m : Move} (hm : m ∈ pawn_moves_for wtm our_pawn opp all psq) :
    ¬ m.flags = KING_CASTLE ∧ ¬ m.flags = QUEEN_CASTLE := by
  rw [pawn_moves_for] at hm
  dsimp only at hm
  simp only [List.mem_append] at hm
  rcases hm with ((hm | hm) | hm) | hm <;>
    split_ifs at hm <;>
    simp only [List.mem_cons, List.mem_singleton, List.not_mem_nil, or_false] at hm <;>
    first
      | (rcases hm with rfl | rfl | rfl | rfl <;>
          exact ⟨by dsimp only; decide, by dsimp only; decide⟩)
      | (rcases hm with rfl <;>
          exact ⟨by dsimp only; decide, by dsimp only; decide⟩)

theorem non_castling_flags {gs : GameState} {m : Move}
    (hm : m ∈ generate_king_moves gs ∨ m ∈ append_en_passant gs ∨
      m ∈ append_pawn_moves gs ∨ m ∈ append_knight_moves gs ∨
      m ∈ append_sliding_moves gs) :
    ¬ m.flags = KING_CASTLE ∧ ¬ m.flags = QUEEN_CASTLE := by
  rcases hm with hm | hm | hm | hm | hm
  · rw [generate_king_moves] at hm
    exact append_moves_from_flags hm
  · rw [append_en_passant] at hm
    split_ifs at hm <;>
      first
        | exact absurd hm (List.not_mem_nil m)
        | (dsimp only at hm
           split_ifs at hm <;>
             simp only [List.mem_append, List.mem_singleton, List.not_mem_nil,
               or_false, false_or] at hm <;>
             first
               | exact absurd hm (fun h => h)
               | (rcases hm with rfl | rfl <;>
                   exact ⟨by dsimp only; decide, by dsimp only; decide⟩)
               | (rcases hm with rfl <;>
                   exact ⟨by dsimp only; decide, by dsimp only; decide⟩))
  · rw [append_pawn_moves, mem_foldl_append] at hm
    rcases hm with h | ⟨psq, hpsq, hm⟩
    · exact absurd h (List.not_mem_nil m)
    · exact pawn_moves_for_flags hm
  · rw [append_knight_moves, mem_foldl_append] at hm
    rcases hm with h | ⟨ksq, hksq, hm⟩
    · exact absurd h (List.not_mem_nil m)
    · exact append_moves_from_flags hm
  · rw [append_sliding_moves] at hm
    rw [List.mem_append, List.mem_append] at hm
    rcases hm with (hm | hm) | hm <;>
      rw [mem_foldl_append] at hm <;>
      rcases hm with h | ⟨sq, hsq, hm⟩ <;>
      first
        | exact absurd h (List.not_mem_nil m)
        | exact append_moves_from_flags hm

/-- A castling-flagged pseudolegal move can only come from the castling
generator. -/
theorem pseudo_castle_mem {gs : GameState} {m : Move}
    (hm : m ∈ generate_pseudolegal_moves gs)
    (hf : m.flags = KING_CASTLE ∨ m.flags = QUEEN_CASTLE) :
    m ∈ append_castling_moves gs := by
  rw [generate_pseudolegal_moves] at hm
  simp only [List.mem_append] at hm
  rcases hm with ((((hm | hm) | hm) | hm) | hm) | hm
  · exact absurd hf (by
      obtain ⟨h1, h2⟩ := non_castling_flags (Or.inl hm)
      rintro (h | h)
      · exact h1 h
      · exact h2 h)
  · exact hm
  · exact absurd hf (by
      obtain ⟨h1, h2⟩ := non_castling_flags (Or.inr (Or.inl hm))
      rintro (h | h)
      · exact h1 h
      · exact h2 h)
  · exact absurd hf (by
      obtain ⟨h1, h2⟩ := non_castling_flags (Or.inr (Or.inr (Or.inl hm)))
      rintro (h | h)
      · exact h1 h
      · exact h2 h)
  · exact absurd hf (by
      obtain ⟨h1, h2⟩ := non_castling_flags (Or.inr (Or.inr (Or.inr (Or.inl hm))))
      rintro (h | h)
      · exact h1 h
      · exact h2 h)
  · exact absurd hf (by
      obtain ⟨h1, h2⟩ :=
        non_castling_flags (Or.inr (Or.inr (Or.inr (Or.inr hm))))
      rintro (h | h)
      · exact h1 h
      · exact h2 h)

theorem castle_mem_wk (gs : GameState) :
    ((⟨4, 6, W_KING, KING_CASTLE⟩ : Move) ∈ append_castling_moves gs) ↔
      (gs.whites_move = true ∧ gs.node.w_castle_k = true ∧
       (lsb_list gs.castle_through_kingside).all
         (castle_square_ok gs.pos gs.whites_move
           (gs.pos.get_board (color_piece KING gs.whites_move))
           (gs.pos.get_board BOTH_ALL)) = true ∧
       gs.pos.piece_at 4 W_KING = true ∧ gs.pos.piece_at 7 W_ROOK = true) := by
  rw [append_castling_moves]
  dsimp only
  rw [List.mem_append]
  constructor
  · rintro (hm | hm)
    · split_ifs at hm with h1 h2 h3 h4
      · obtain ⟨hw, hk4, hr7⟩ := h3
        have hw' : gs.node.white_to_move = true := hw
        have hck : gs.node.w_castle_k = true := by
          cases hckb : gs.node.w_castle_k
          · exfalso
            apply h1
            rw [GameState.castle_through_kingside, hw', hckb]
            simp
          · rfl
        exact ⟨hw, hck, h2, hk4, hr7⟩
      · simp only [List.mem_cons, List.not_mem_nil, or_false] at hm
        exact absurd hm (by decide)
      · exact absurd hm (List.not_mem_nil _)
      · exact absurd hm (List.not_mem_nil _)
      · exact absurd hm (List.not_mem_nil _)
    · split_ifs at hm with h1 h2 h3 h4 <;>
        first
          | exact absurd hm (List.not_mem_nil _)
          | (simp only [List.mem_cons, List.not_mem_nil, or_false] at hm
             exact absurd hm (by decide))
  · rintro ⟨hw, hck, hall, hk4, hr7⟩
    left
    have hw' : gs.node.white_to_move = true := hw
    have hmask : gs.castle_through_kingside ≠ 0 := by
      rw [GameState.castle_through_kingside, hw', hck]
      simp
    rw [if_pos hmask, if_pos hall, if_pos ⟨hw, hk4, hr7⟩]
    exact List.mem_singleton.mpr rfl

theorem castle_mem_bk (gs : GameState) :
    ((⟨60, 62, B_KING, KING_CASTLE⟩ : Move) ∈ append_castling_moves gs) ↔
      (gs.whites_move = false ∧ gs.node.b_castle_k = true ∧
       (lsb_list gs.castle_through_kingside).all
         (castle_square_ok gs.pos gs.whites_move
           (gs.pos.get_board (color_piece KING gs.whites_move))
           (gs.pos.get_board BOTH_ALL)) = true ∧
       gs.pos.piece_at 60 B_KING = true ∧ gs.pos.piece_at 63 B_ROOK = true) := by
  rw [append_castling_moves]
  dsimp only
  rw [List.mem_append]
  constructor
  · rintro (hm | hm)
    · split_ifs at hm with h1 h2 h3 h4
      · simp only [List.mem_cons, List.not_mem_nil, or_false] at hm
        exact absurd hm (by decide)
      · obtain ⟨hnw, hk60, hr63⟩ := h4
        have hw : gs.whites_move = false := by
          cases hx : gs.whites_move
          · rfl
          · exact absurd hx hnw
        have hw' : gs.node.white_to_move = false := hw
        have hck : gs.node.b_castle_k = true := by
          cases hckb : gs.node.b_castle_k
          · exfalso
            apply h1
            rw [GameState.castle_through_kingside, hw', hckb]
            simp
          · rfl
        exact ⟨hw, hck, h2, hk60, hr63⟩
      · exact absurd hm (List.not_mem_nil _)
      · exact absurd hm (List.not_mem_nil _)
      · exact absurd hm (List.not_mem_nil _)
    · split_ifs at hm with h1 h2 h3 h4 <;>
        first
          | exact absurd hm (List.not_mem_nil _)
          | (simp only [List.mem_cons, List.not_mem_nil, or_false] at hm
             exact absurd hm (by decide))
  · rintro ⟨hw, hck, hall, hk60, hr63⟩
    left
    have hw' : gs.node.white_to_move = false := hw
    have hmask : gs.castle_through_kingside ≠ 0 := by
      rw [GameState.castle_through_kingside, hw', hck]
      simp
    rw [if_pos hmask, if_pos hall,
      if_neg (show ¬(gs.whites_move = true ∧ gs.pos.piece_at 4 W_KING = true ∧
        gs.pos.piece_at 7 W_ROOK = true) from fun hc => by
          rw [hw] at hc
          simp at hc),
      if_pos ⟨show ¬gs.whites_move = true by rw [hw]; decide, hk60, hr63⟩]
    exact List.mem_singleton.mpr rfl

theorem castle_mem_wq (gs : GameState) :
    ((⟨4, 2, W_KING, QUEEN_CASTLE⟩ : Move) ∈ append_castling_moves gs) ↔
      (gs.whites_move = true ∧ gs.node.w_castle_q = true ∧
       (lsb_list gs.castle_through_queenside).all
         (castle_square_ok gs.pos gs.whites_move
           (gs.pos.get_board (color_piece KING gs.whites_move))
           (gs.pos.get_board BOTH_ALL)) = true ∧
       gs.pos.piece_at 4 W_KING = true ∧ gs.pos.piece_at 0 W_ROOK = true ∧
       gs.pos.get_board BOTH_ALL &&& (1 <<< 1) = 0) := by
  rw [append_castling_moves]
  dsimp only
  rw [List.mem_append]
  constructor
  · rintro (hm | hm)
    · split_ifs at hm with h1 h2 h3 h4 <;>
        first
          | exact absurd hm (List.not_mem_nil _)
          | (simp only [List.mem_cons, List.not_mem_nil, or_false] at hm
             exact absurd hm (by decide))
    · split_ifs at hm with h1 h2 h3 h4
      · obtain ⟨hw, hk4, hr0, hb1⟩ := h3
        have hw' : gs.node.white_to_move = true := hw
        have hck : gs.node.w_castle_q = true := by
          cases hckb : gs.node.w_castle_q
          · exfalso
            apply h1
            rw [GameState.castle_through_queenside, hw', hckb]
            simp
          · rfl
        exact ⟨hw, hck, h2, hk4, hr0, hb1⟩
      · simp only [List.mem_cons, List.not_mem_nil, or_false] at hm
        exact absurd hm (by decide)
      · exact absurd hm (List.not_mem_nil _)
      · exact absurd hm (List.not_mem_nil _)
      · exact absurd hm (List.not_mem_nil _)
  · rintro ⟨hw, hck, hall, hk4, hr0, hb1⟩
    right
    have hw' : gs.node.white_to_move = true := hw
    have hmask : gs.castle_through_queenside ≠ 0 := by
      rw [GameState.castle_through_queenside, hw', hck]
      simp
    rw [if_pos hmask, if_pos hall, if_pos ⟨hw, hk4, hr0, hb1⟩]
    exact List.mem_singleton.mpr rfl

theorem castle_mem_bq (gs : GameState) :
    ((⟨60, 58, B_KING, QUEEN_CASTLE⟩ : Move) ∈ append_castling_moves gs) ↔
      (gs.whites_move = false ∧ gs.node.b_castle_q = true ∧
       (lsb_list gs.castle_through_queenside).all
         (castle_square_ok gs.pos gs.whites_move
           (gs.pos.get_board (color_piece KING gs.whites_move))
           (gs.pos.get_board BOTH_ALL)) = true ∧
       gs.pos.piece_at 60 B_KING = true ∧ gs.pos.piece_at 56 B_ROOK = true ∧
       gs.pos.get_board BOTH_ALL &&& (1 <<< 57) = 0) := by
  rw [append_castling_moves]
  dsimp only
  rw [List.mem_append]
  constructor
  · rintro (hm | hm)
    · split_ifs at hm with h1 h2 h3 h4 <;>
        first
          | exact absurd hm (List.not_mem_nil _)
          | (simp only [List.mem_cons, List.not_mem_nil, or_false] at hm
             exact absurd hm (by decide))
    · split_ifs at hm with h1 h2 h3 h4
      · simp only [List.mem_cons, List.not_mem_nil, or_false] at hm
        exact absurd hm (by decide)
      · obtain ⟨hnw, hk60, hr56, hb57⟩ := h4
        have hw : gs.whites_move = false := by
          cases hx : gs.whites_move
          · rfl
          · exact absurd hx hnw
        have hw' : gs.node.white_to_move = false := hw
        have hck : gs.node.b_castle_q = true := by
          cases hckb : gs.node.b_castle_q
          · exfalso
            apply h1
            rw [GameState.castle_through_queenside, hw', hckb]
            simp
          · rfl
        exact ⟨hw, hck, h2, hk60, hr56, hb57⟩
      · exact absurd hm (List.not_mem_nil _)
      · exact absurd hm (List.not_mem_nil _)
      · exact absurd hm (List.not_mem_nil _)
  · rintro ⟨hw, hck, hall, hk60, hr56, hb57⟩
    right
    have hw' : gs.node.white_to_move = false := hw
    have hmask : gs.castle_through_queenside ≠ 0 := by
      rw [GameState.castle_through_queenside, hw', hck]
      simp
    rw [if_pos hmask, if_pos hall,
      if_neg (show ¬(gs.whites_move = true ∧ gs.pos.piece_at 4 W_KING = true ∧
        gs.pos.piece_at 0 W_ROOK = true ∧
        gs.pos.get_board BOTH_ALL &&& (1 <<< 1) = 0) from fun hc => by
          rw [hw] at hc
          simp at hc),
      if_pos ⟨show ¬gs.whites_move = true by rw [hw]; decide, hk60, hr56, hb57⟩]
    exact List.mem_singleton.mpr rfl

/-- The spec's per-square castling condition: the square is unattacked by
the opponent, and empty except possibly for the moving side's own king. -/
def pass_through_clear (gs : GameState) (s : Nat) : Prop :=
  get_attacks_to gs.pos s gs.whites_move (gs.pos.get_board BOTH_ALL) = 0 ∧
  (gs.pos.get_board BOTH_ALL &&& (1 <<< s) = 0 ∨
   gs.pos.get_board (color_piece KING gs.whites_move) &&& (1 <<< s) ≠ 0)

theorem pass_through_clear_iff (gs : GameState) (s : Nat) :
    pass_through_clear gs s ↔
      castle_square_ok gs.pos gs.whites_move
        (gs.pos.get_board (color_piece KING gs.whites_move))
        (gs.pos.get_board BOTH_ALL) s = true := by
  rw [pass_through_clear, castle_square_ok]
  constructor
  · rintro ⟨h1, h2⟩
    simp only [h1, Bool.not_eq_true']
    rcases h2 with h2 | h2
    · simp [h2]
    · simp [bne, h2]
  · intro h
    simp only [Bool.not_eq_true', Bool.or_eq_false_iff, Bool.and_eq_false_iff] at h
    obtain ⟨h1, h2⟩ := h
    refine ⟨by simpa using h1, ?_⟩
    rcases h2 with h2 | h2
    · left
      simpa using h2
    · right
      simpa using h2

theorem all_pass_through (gs : GameState) (mask : Nat) :
    (∀ s ∈ lsb_list mask, pass_through_clear gs s) ↔
      (lsb_list mask).all
        (castle_square_ok gs.pos gs.whites_move
          (gs.pos.get_board (color_piece KING gs.whites_move))
          (gs.pos.get_board BOTH_ALL)) = true := by
  rw [List.all_eq_true]
  exact forall_congr' fun s => forall_congr' fun hs => pass_through_clear_iff gs s

instance (gs : GameState) (s : Nat) : Decidable (pass_through_clear gs s) := by
  unfold pass_through_clear
  infer_instance

/-- C3 counterexample: in the position `k7/8/8/8/8/8/8/4K3 w K - 0 1` white
still holds the kingside castling right, every pass-through square returned
by `castle_through_kingside` is unattacked and empty except for the king's
own starting square, yet `generate_moves` does not emit the castling move,
because no rook stands on h1 — refuting the claimed equivalence. -/
theorem c3_counterexample :
    (let g := GameState.from_fen "k7/8/8/8/8/8/8/4K3 w K - 0 1"
     g.whites_move = true ∧ g.node.w_castle_k = true ∧
     (∀ s ∈ lsb_list g.castle_through_kingside, pass_through_clear g s) ∧
     (⟨4, 6, W_KING, KING_CASTLE⟩ : Move) ∉ generate_moves g) := by
  decide

/-- C3 (amended): for every game state, `generate_moves` emits a castling
move if and only if the side to move holds the corresponding right, every
pass-through square returned by `castle_through_kingside` /
`castle_through_queenside` is unattacked by the opponent and empty except
possibly for the moving side's own king, for queenside castling the b-file
square (1 for white, 57 for black) is empty, the king and the corresponding
rook stand on their home squares, and the move passes the final `is_legal`
filter applied to all generated moves. -/
theorem c3_castling_emission (gs : GameState) :
    ((⟨4, 6, W_KING, KING_CASTLE⟩ : Move) ∈ generate_moves gs ↔
      gs.whites_move = true ∧ gs.node.w_castle_k = true ∧
      (∀ s ∈ lsb_list gs.castle_through_kingside, pass_through_clear gs s) ∧
      gs.pos.piece_at 4 W_KING = true ∧ gs.pos.piece_at 7 W_ROOK = true ∧
      is_legal ⟨4, 6, W_KING, KING_CASTLE⟩ gs = true) ∧
    ((⟨4, 2, W_KING, QUEEN_CASTLE⟩ : Move) ∈ generate_moves gs ↔
      gs.whites_move = true ∧ gs.node.w_castle_q = true ∧
      (∀ s ∈ lsb_list gs.castle_through_queenside, pass_through_clear gs s) ∧
      gs.pos.piece_at 4 W_KING = true ∧ gs.pos.piece_at 0 W_ROOK = true ∧
      gs.pos.get_board BOTH_ALL &&& (1 <<< 1) = 0 ∧
      is_legal ⟨4, 2, W_KING, QUEEN_CASTLE⟩ gs = true) ∧
    ((⟨60, 62, B_KING, KING_CASTLE⟩ : Move) ∈ generate_moves gs ↔
      gs.whites_move = false ∧ gs.node.b_castle_k = true ∧
      (∀ s ∈ lsb_list gs.castle_through_kingside, pass_through_clear gs s) ∧
      gs.pos.piece_at 60 B_KING = true ∧ gs.pos.piece_at 63 B_ROOK = true ∧
      is_legal ⟨60, 62, B_KING, KING_CASTLE⟩ gs = true) ∧
    ((⟨60, 58, B_KING, QUEEN_CASTLE⟩ : Move) ∈ generate_moves gs ↔
      gs.whites_move = false ∧ gs.node.b_castle_q = true ∧
      (∀ s ∈ lsb_list gs.castle_through_queenside, pass_through_clear gs s) ∧
      gs.pos.piece_at 60 B_KING = true ∧ gs.pos.piece_at 56 B_ROOK = true ∧
      gs.pos.get_board BOTH_ALL &&& (1 <<< 57) = 0 ∧
      is_legal ⟨60, 58, B_KING, QUEEN_CASTLE⟩ gs = true) := by
  have hfilter : ∀ m : Move, m ∈ generate_moves gs ↔
      m ∈ generate_pseudolegal_moves gs ∧ is_legal m gs = true := by
    intro m
    rw [generate_moves, List.mem_filter]
  have hps : ∀ m : Move, (m.flags = KING_CASTLE ∨ m.flags = QUEEN_CASTLE) →
      (m ∈ generate_pseudolegal_moves gs ↔ m ∈ append_castling_moves gs) := by
    intro m hf
    constructor
    · intro hm
      exact pseudo_castle_mem hm hf
    · intro hm
      rw [generate_pseudolegal_moves]
      simp only [List.mem_append]
      exact Or.inl (Or.inl (Or.inl (Or.inl (Or.inr hm))))
  refine ⟨?_, ?_, ?_, ?_⟩
  · rw [hfilter, hps _ (Or.inl rfl), castle_mem_wk, all_pass_through gs]
    constructor
    · rintro ⟨⟨h1, h2, h3, h4, h5⟩, h6⟩
      exact ⟨h1, h2, h3, h4, h5, h6⟩
    · rintro ⟨h1, h2, h3, h4, h5, h6⟩
      exact ⟨⟨h1, h2, h3, h4, h5⟩, h6⟩
  · rw [hfilter, hps _ (Or.inr rfl), castle_mem_wq, all_pass_through gs]
    constructor
    · rintro ⟨⟨h1, h2, h3, h4, h5, h6⟩, h7⟩
      exact ⟨h1, h2, h3, h4, h5, h6, h7⟩
    · rintro ⟨h1, h2, h3, h4, h5, h6, h7⟩
      exact ⟨⟨h1, h2, h3, h4, h5, h6⟩, h7⟩
  · rw [hfilter, hps _ (Or.inl rfl), castle_mem_bk, all_pass_through gs]
    constructor
    · rintro ⟨⟨h1, h2, h3, h4, h5⟩, h6⟩
      exact ⟨h1, h2, h3, h4, h5, h6⟩
    · rintro ⟨h1, h2, h3, h4, h5, h6⟩
      exact ⟨⟨h1, h2, h3, h4, h5⟩, h6⟩
  · rw [hfilter, hps _ (Or.inr rfl), castle_mem_bq, all_pass_through gs]
    constructor
    · rintro ⟨⟨h1, h2, h3, h4, h5, h6⟩, h7⟩
      exact ⟨h1, h2, h3, h4, h5, h6, h7⟩
    · rintro ⟨h1, h2, h3, h4, h5, h6, h7⟩
      exact ⟨⟨h1, h2, h3, h4, h5, h6⟩, h7⟩

end Chess
